import Mathlib

/-! simple_im: RPC dispatch pipeline and connection hub

A shallow embedding of the two core subsystems of the chat backend:

* `pkg/common/resp`, `pkg/common/jwt` and `internal/api/rpc_handler.go`:
  the JSON-RPC envelope, the token check and `HandleRpcRequest`;
* `internal/ws/hub.go`: the registration map, the per-client outbound
  queues and the routing done by `handleMessage`.

Go values are modelled as follows.  `int64` identifiers are `Int` (the code
only compares them).  A Go `error` is its message.  A Go map is a total
function into `Option`.  A channel is a record holding its buffer, its
capacity and a closed flag, stored in a heap indexed by a channel id, so
that two clients may be told apart by the queue they own.  A run-time
panic is the `error` branch of `Except`.
-/

namespace SimpleIM

/-! ## Go strings -/

/-- Cut a character list at its first space: the part before and the part after. -/
def cutAtSpace : List Char → Option (List Char × List Char)
  | [] => none
  | c :: cs =>
    if c = ' ' then some ([], cs)
    else
      match cutAtSpace cs with
      | some (a, b) => some (c :: a, b)
      | none => none

/-- Go `strings.SplitN(s, " ", 2)`: at most two parts, cut at the first space. -/
def stringsSplitN2 (s : String) : List String :=
  match cutAtSpace s.data with
  | some (a, b) => [String.mk a, String.mk b]
  | none => [s]

/-! ## pkg/common/resp -/

/-- Go `json.RawMessage`: encoded bytes. -/
abbrev RawMessage := String

/-- Go `error`: identified with the text `Error()` returns. -/
abbrev GoError := String

def JsonRPCVersion : String := "2.0"

def ErrorCode : Int := -32000

def StatusOK : Nat := 200

def StatusInternalServerError : Nat := 500

structure RpcRequest where
  JsonRPC : String
  Method : String
  Params : RawMessage
  Id : String
  deriving DecidableEq, Repr

/-- The `Data` field of the Go struct is never set by this package and is left out. -/
structure RpcError where
  Code : Int
  Message : String
  deriving DecidableEq, Repr

structure RpcResponse where
  JsonRPC : String
  Id : String
  Result : Option RawMessage
  Error : Option RpcError
  deriving DecidableEq, Repr

/-- One call of `ctx.JSON(status, body)`. -/
abbrev ResponseWrite := Nat × RpcResponse

/-- Go `resp.Return`.  `jsonMarshal` stands for `json.Marshal`, whose error is
dropped by the code (`resultBytes, _ := json.Marshal(result)`): `none` is the
nil slice it then leaves in `Result`. -/
def Return {α : Type} (jsonMarshal : α → Option RawMessage) (httpCode : Nat) (id : String)
    (result : Option α) (err : Option GoError) : ResponseWrite :=
  let resp : RpcResponse := { JsonRPC := JsonRPCVersion, Id := id, Result := none, Error := none }
  match err with
  | some e => (httpCode, { resp with Error := some { Code := ErrorCode, Message := e } })
  | none =>
    match result with
    | some r => (httpCode, { resp with Result := jsonMarshal r })
    | none => (httpCode, resp)

def SuccessReturn {α : Type} (jsonMarshal : α → Option RawMessage) (id : String) (result : Option α) :
    ResponseWrite :=
  Return jsonMarshal StatusOK id result none

def ErrorReturn {α : Type} (jsonMarshal : α → Option RawMessage) (id : String) (err : GoError) :
    ResponseWrite :=
  Return jsonMarshal StatusOK id (none : Option α) (some err)

def InvalidRequest (id : String) (message : String) : ResponseWrite :=
  (StatusOK, { JsonRPC := JsonRPCVersion, Id := id, Result := none,
               Error := some { Code := -32600, Message := message } })

def MethodNotFound (id : String) (method : String) : ResponseWrite :=
  (StatusOK, { JsonRPC := JsonRPCVersion, Id := id, Result := none,
               Error := some { Code := -32601, Message := "Method not found: " ++ method } })

/-! ## pkg/common/jwt -/

def ErrTokenExpired : GoError := "token has expired"

def ErrTokenInvalid : GoError := "token is invalid"

/-- The fields of `Claims` the server reads; the registered claims (expiry and
so on) are checked inside the token library. -/
structure Claims where
  UserID : Int
  Username : String
  deriving DecidableEq, Repr

/-- An error of the token library; `isExpired` is `errors.Is(err, jwt.ErrTokenExpired)`. -/
structure JwtLibError where
  isExpired : Bool
  deriving DecidableEq, Repr

/-- What the code reads of a parsed `*jwt.Token`: the outcome of the type
assertion `token.Claims.(*Claims)` and the `Valid` flag. -/
structure JwtToken where
  claims : Option Claims
  valid : Bool
  deriving DecidableEq, Repr

/-- The manager.  `parseWithClaims` stands for the library call
`jwt.ParseWithClaims(tokenString, &Claims, keyFunc)` made with the manager's
secret; the token is only read when the library reports no error. -/
structure JWTManager where
  parseWithClaims : String → Except JwtLibError JwtToken

/-- Go `(*JWTManager).ParseToken`: the pair `(claims, err)` it returns. -/
def JWTManager.ParseToken (m : JWTManager) (tokenString : String) : Option Claims × Option GoError :=
  match m.parseWithClaims tokenString with
  | .error err =>
    if err.isExpired then (none, some ErrTokenExpired) else (none, some ErrTokenInvalid)
  | .ok token =>
    match token.claims, token.valid with
    | some claims, true => (some claims, none)
    | _, _ => (none, some ErrTokenInvalid)

/-! ## internal/api/rpc_handler.go -/

/-- A value stored in a call context. -/
inductive CtxValue where
  | int64 (v : Int)
  | string (s : String)
  deriving DecidableEq, Repr

/-- Go `context.Context` as the chain of `WithValue` bindings, newest first. -/
abbrev Context := List (String × CtxValue)

def Context.Background : Context := []

def Context.WithValue (ctx : Context) (key : String) (val : CtxValue) : Context :=
  (key, val) :: ctx

def Context.Value (ctx : Context) (key : String) : Option CtxValue :=
  ctx.lookup key

/-- What a call of `Execute` does: it returns `(result, err)` or it panics. -/
inductive ExecResult (α : Type) where
  | returned (result : Option α) (err : Option GoError)
  | panicked (reason : String)

/-- The interface `RpcMethod`.  `Execute` runs against the state `σ` of the
collaborators (storage, hub) and may change it. -/
structure RpcMethod (σ α : Type) where
  Name : String
  Execute : Context → RawMessage → σ → ExecResult α × σ
  RequireAuth : Bool

structure RpcHandler (σ α : Type) where
  methods : String → Option (RpcMethod σ α)
  jwtManager : JWTManager

def RpcHandler.RegisterMethod {σ α : Type} (h : RpcHandler σ α) (method : RpcMethod σ α) :
    RpcHandler σ α :=
  { h with methods := Function.update h.methods method.Name (some method) }

def RpcHandler.getMethod {σ α : Type} (h : RpcHandler σ α) (name : String) :
    Option (RpcMethod σ α) :=
  h.methods name

/-- The part of a `*gin.Context` the handler reads: the outcome of
`ShouldBindJSON` on the body (`none` when decoding fails) and the value of
`GetHeader("Authorization")` (the empty string when the header is absent). -/
structure GinRequest where
  body : Option RpcRequest
  authorization : String
  deriving DecidableEq, Repr

/-- A recorded invocation of a method's `Execute`: the registry key it was
found under, and the arguments it was given. -/
structure ExecCall where
  method : String
  ctx : Context
  params : RawMessage
  deriving DecidableEq, Repr

/-- What one run of the handler did: the envelopes written, the `Execute`
calls made, the collaborators' state afterwards, and the panic that unwound
it if any. -/
structure Outcome (σ : Type) where
  writes : List ResponseWrite
  calls : List ExecCall
  world : σ
  panic : Option String

/-- The tail of `HandleRpcRequest`: `Execute` and the reply built from it. -/
def invokeMethod {σ α : Type} (jsonMarshal : α → Option RawMessage) (method : RpcMethod σ α)
    (req : RpcRequest) (rpcCtx : Context) (w : σ) : Outcome σ :=
  let call : ExecCall := { method := req.Method, ctx := rpcCtx, params := req.Params }
  match method.Execute rpcCtx req.Params w with
  | (.panicked reason, w') => { writes := [], calls := [call], world := w', panic := some reason }
  | (.returned result err, w') =>
    match err with
    | some e =>
      { writes := [ErrorReturn jsonMarshal req.Id e], calls := [call], world := w', panic := none }
    | none =>
      { writes := [SuccessReturn jsonMarshal req.Id result], calls := [call], world := w',
        panic := none }

/-- A run that answers with one envelope without calling any method. -/
def replyOnly {σ : Type} (wr : ResponseWrite) (w : σ) : Outcome σ :=
  { writes := [wr], calls := [], world := w, panic := none }

/-- Go `(*RpcHandler).HandleRpcRequest`. -/
def RpcHandler.HandleRpcRequest {σ α : Type} (jsonMarshal : α → Option RawMessage)
    (h : RpcHandler σ α) (ctx : GinRequest) (w : σ) : Outcome σ :=
  match ctx.body with
  | none => replyOnly (InvalidRequest "" "Invalid JSON") w
  | some req =>
    if req.JsonRPC ≠ "2.0" then
      replyOnly (InvalidRequest req.Id "Invalid JSON-RPC version") w
    else
      match h.getMethod req.Method with
      | none => replyOnly (MethodNotFound req.Id req.Method) w
      | some method =>
        let rpcCtx := Context.Background
        if method.RequireAuth then
          let authHeader := ctx.authorization
          if authHeader = "" then
            replyOnly (ErrorReturn jsonMarshal req.Id "authorization required") w
          else
            match stringsSplitN2 authHeader with
            | [p0, p1] =>
              if p0 ≠ "Bearer" then
                replyOnly (ErrorReturn jsonMarshal req.Id "invalid authorization format") w
              else
                match h.jwtManager.ParseToken p1 with
                | (_, some err) =>
                  replyOnly (ErrorReturn jsonMarshal req.Id ("invalid token: " ++ err)) w
                | (none, none) =>
                  { writes := [], calls := [], world := w,
                    panic := some "invalid memory address or nil pointer dereference" }
                | (some claims, none) =>
                  let rpcCtx := rpcCtx.WithValue "user_id" (.int64 claims.UserID)
                  let rpcCtx := rpcCtx.WithValue "username" (.string claims.Username)
                  invokeMethod jsonMarshal method req rpcCtx w
            | _ => replyOnly (ErrorReturn jsonMarshal req.Id "invalid authorization format") w
        else
          invokeMethod jsonMarshal method req rpcCtx w

/-! ## internal/ws -/

/-- Go `ws.Message`, the push event.  `CreatedAt` is kept as a number of
time units and `MsgType` as its integer code; the Go field `Type` is `Kind`
here, `Type` being reserved. -/
structure Message where
  ID : Int
  Kind : String
  SenderID : Int
  SenderName : String
  ReceiverID : Int
  GroupID : Int
  GroupName : String
  MsgType : Int
  Content : String
  FileURL : String
  FileName : String
  FileSize : Int
  CreatedAt : Int
  GroupMembers : List Int
  deriving DecidableEq, Repr

/-- A Go channel of `*Message`: what is buffered (oldest first), the buffer
size it was made with, and whether it has been closed. -/
structure Chan where
  buf : List Message
  cap : Nat
  closed : Bool
  deriving DecidableEq, Repr

/-- Address of a channel in the heap. -/
abbrev ChanId := Nat

/-- Go `ws.Client` as the hub sees it: the `send` channel it owns, its user
id and its user name.  Two instances are told apart by their `send` channel,
which `NewClient` allocates afresh. -/
structure Client where
  send : ChanId
  UserID : Int
  Username : String
  deriving DecidableEq, Repr

/-- A run-time panic of the Go program. -/
inductive GoPanic where
  | sendOnClosedChannel
  | closeOfClosedChannel
  deriving DecidableEq, Repr

/-- The non-blocking send `select { case ch <- msg: default: }`: the message
is buffered when there is room, dropped when there is none, and a send on a
closed channel panics.  A consumer blocked on the channel is not modelled: it
can only wait on an empty buffer, where a buffered channel has room anyway. -/
def Chan.trySend (ch : Chan) (msg : Message) : Except GoPanic Chan :=
  if ch.closed then .error .sendOnClosedChannel
  else if ch.buf.length < ch.cap then .ok { ch with buf := ch.buf ++ [msg] }
  else .ok ch

/-- Go `close(ch)`. -/
def Chan.close (ch : Chan) : Except GoPanic Chan :=
  if ch.closed then .error .closeOfClosedChannel
  else .ok { ch with closed := true }

/-- The hub: the registration map `clients` and the heap of channels its
clients own. -/
structure Hub where
  clients : Int → Option Client
  chans : ChanId → Chan

/-- Go `NewHub`, over a given heap. -/
def NewHub (chans : ChanId → Chan) : Hub :=
  { clients := fun _ => none, chans := chans }

/-- The statement `select { case client.send <- msg: default: }` of `handleMessage`. -/
def Hub.trySendTo (h : Hub) (client : Client) (msg : Message) : Except GoPanic Hub :=
  match (h.chans client.send).trySend msg with
  | .error p => .error p
  | .ok ch => .ok { h with chans := Function.update h.chans client.send ch }

/-- The loop `for _, memberID := range msg.GroupMembers` of `handleMessage`. -/
def groupLoop (msg : Message) : List Int → Hub → Except GoPanic Hub
  | [], h => .ok h
  | memberID :: rest, h =>
    if memberID = msg.SenderID then groupLoop msg rest h
    else
      match h.clients memberID with
      | some client =>
        match h.trySendTo client msg with
        | .error p => .error p
        | .ok h' => groupLoop msg rest h'
      | none => groupLoop msg rest h

/-- Go `(*Hub).handleMessage`. -/
def Hub.handleMessage (h : Hub) (msg : Message) : Except GoPanic Hub :=
  if msg.ReceiverID > 0 then
    match h.clients msg.ReceiverID with
    | some client => h.trySendTo client msg
    | none => .ok h
  else if msg.GroupID > 0 ∧ msg.GroupMembers.length > 0 then
    groupLoop msg msg.GroupMembers h
  else .ok h

/-- A request taken by the hub loop from one of its three channels. -/
inductive HubRequest where
  | register (client : Client)
  | unregister (client : Client)
  | broadcast (message : Message)
  deriving DecidableEq, Repr

/-- One iteration of the `select` loop of Go `(*Hub).Run`. -/
def Hub.Run (h : Hub) : HubRequest → Except GoPanic Hub
  | .register client =>
    .ok { h with clients := Function.update h.clients client.UserID (some client) }
  | .unregister client =>
    match h.clients client.UserID with
    | some _ =>
      match (h.chans client.send).close with
      | .error p => .error p
      | .ok ch =>
        .ok { clients := Function.update h.clients client.UserID none,
              chans := Function.update h.chans client.send ch }
    | none => .ok h
  | .broadcast message => h.handleMessage message

/-- Go `(*Hub).IsOnline`. -/
def Hub.IsOnline (h : Hub) (userID : Int) : Bool :=
  (h.clients userID).isSome

/-- Every queue held in the registration map is open. -/
def Hub.QueuesOpen (h : Hub) : Prop :=
  ∀ u c, h.clients u = some c → (h.chans c.send).closed = false

/-- Different user ids are registered with different queues. -/
def Hub.QueuesDistinct (h : Hub) : Prop :=
  ∀ u v c d, h.clients u = some c → h.clients v = some d → c.send = d.send → u = v

/-! ## internal/middleware/recover.go -/

/-- Go `middleware.HttpRecover` around the rest of the handler chain `next`
(`ctx.Next()`): when the chain panics, the deferred function recovers and
calls `resp.Return(ctx, http.StatusInternalServerError, "", nil, nil)`;
otherwise the chain's own run stands. -/
def HttpRecover {σ α : Type} (jsonMarshal : α → Option RawMessage) (next : σ → Outcome σ)
    (w : σ) : Outcome σ :=
  let out := next w
  match out.panic with
  | some _ =>
    { out with
      writes := out.writes ++
        [Return jsonMarshal StatusInternalServerError "" (none : Option α) none]
      panic := none }
  | none => out

/-! ## The envelope on the wire

A Go `string` is a sequence of bytes and need not be UTF-8, while a JSON
text is Unicode.  `encoding/json` reads a string rune by rune and writes the
replacement character U+FFFD for every byte that starts no valid encoding.
The struct tags of `RpcResponse` and `RpcError` fix which keys the JSON
object of an envelope has: `jsonrpc` and `id` always, `result` and `error`
only when not empty (`omitempty`).  Encoding is modelled up to that object,
whose strings are texts; the escapes of the text layer, which the decoder
reads back to the characters they stand for, are not modelled. -/

/-- One step of reading a Go string as UTF-8 (`utf8.DecodeRuneInString`): a
validly encoded character, or one byte that starts no valid encoding. -/
inductive GoRune where
  | char (c : Char)
  | invalid (byte : Nat)
  deriving DecidableEq, Repr

/-- A Go `string`, as the sequence of steps in which it is read. -/
structure GoString where
  runes : List GoRune
  deriving DecidableEq, Repr

/-- The Go string holding the UTF-8 encoding of a text. -/
def GoString.ofString (s : String) : GoString :=
  { runes := s.data.map GoRune.char }

/-- Go `utf8.ValidString`: no step of the reading is an invalid byte. -/
def GoString.ValidString (s : GoString) : Bool :=
  s.runes.all (fun r =>
    match r with
    | .char _ => true
    | .invalid _ => false)

/-- Go `utf8.RuneError`, the replacement character U+FFFD. -/
def RuneError : Char := Char.ofNat 65533

/-- The text `encoding/json` writes for a Go string, with its escapes read
back: the characters of the string, and `utf8.RuneError` in the place of
every invalid byte. -/
def GoString.jsonText (s : GoString) : String :=
  String.mk (s.runes.map (fun r =>
    match r with
    | .char c => c
    | .invalid _ => RuneError))

/-- Go `resp.RpcError`, its message held as the Go string it is. -/
structure RpcErrorBytes where
  Code : Int
  Message : GoString
  deriving DecidableEq, Repr

/-- Go `resp.RpcResponse`, its strings held as the Go strings they are. -/
structure RpcResponseBytes where
  JsonRPC : GoString
  Id : GoString
  Result : Option RawMessage
  Error : Option RpcErrorBytes
  deriving DecidableEq, Repr

/-- Go `resp.Return` over Go strings: the same body as `Return`, with the id
and the message of `err.Error()` as byte strings. -/
def ReturnBytes {α : Type} (jsonMarshal : α → Option RawMessage) (httpCode : Nat)
    (id : GoString) (result : Option α) (err : Option GoString) : Nat × RpcResponseBytes :=
  let resp : RpcResponseBytes :=
    { JsonRPC := GoString.ofString JsonRPCVersion, Id := id, Result := none, Error := none }
  match err with
  | some e => (httpCode, { resp with Error := some { Code := ErrorCode, Message := e } })
  | none =>
    match result with
    | some r => (httpCode, { resp with Result := jsonMarshal r })
    | none => (httpCode, resp)

/-- The value of one key of an encoded envelope. -/
inductive JsonField where
  | str (s : String)
  | raw (bytes : RawMessage)
  | error (code : Int) (message : String)
  deriving DecidableEq, Repr

/-- An encoded JSON object: its keys and their values, in order. -/
abbrev JsonObject := List (String × JsonField)

/-- The object `json.Marshal` writes for an `RpcResponse`: every string as
its JSON text, `result` left out when the slice is nil or empty, `error`
when the pointer is nil. -/
def RpcResponseBytes.encode (r : RpcResponseBytes) : JsonObject :=
  [("jsonrpc", JsonField.str r.JsonRPC.jsonText), ("id", JsonField.str r.Id.jsonText)] ++
    (match r.Result with
     | some bytes => if bytes = "" then [] else [("result", JsonField.raw bytes)]
     | none => []) ++
    (match r.Error with
     | some e => [("error", JsonField.error e.Code e.Message.jsonText)]
     | none => [])

/-- The `RpcResponse` that `json.Unmarshal` fills from an object: a key that
is absent leaves the zero value of its field.  The strings read from a JSON
text are valid UTF-8, so the decoded envelope holds them as texts. -/
def RpcResponse.decode (o : JsonObject) : RpcResponse :=
  { JsonRPC := match o.lookup "jsonrpc" with
      | some (.str s) => s
      | _ => ""
    Id := match o.lookup "id" with
      | some (.str s) => s
      | _ => ""
    Result := match o.lookup "result" with
      | some (.raw bytes) => some bytes
      | _ => none
    Error := match o.lookup "error" with
      | some (.error code message) => some { Code := code, Message := message }
      | _ => none }

/-- Encoding an envelope to JSON and decoding it again. -/
def RpcResponseBytes.roundTrip (r : RpcResponseBytes) : RpcResponse :=
  RpcResponse.decode r.encode

/-! ## The outcomes of a request -/

/-- The outcomes named by the state machine of the dispatch pipeline. -/
inductive RpcOutcome where
  | ProtocolRejected
  | MethodNotFound
  | AuthFailed
  | ExecutedOk
  | ExecutedErr
  deriving DecidableEq, Repr

/-- A run ended in the given outcome, read off what the run did: which
envelope it wrote and whether it called `Execute`. -/
def Outcome.endsIn {σ : Type} (out : Outcome σ) : RpcOutcome → Prop
  | .ProtocolRejected =>
    out.calls = [] ∧ ∃ id msg, out.writes =
      [(StatusOK, { JsonRPC := "2.0", Id := id, Result := none,
                    Error := some { Code := -32600, Message := msg } })]
  | .MethodNotFound =>
    out.calls = [] ∧ ∃ id msg, out.writes =
      [(StatusOK, { JsonRPC := "2.0", Id := id, Result := none,
                    Error := some { Code := -32601, Message := msg } })]
  | .AuthFailed =>
    out.calls = [] ∧ ∃ id msg, out.writes =
      [(StatusOK, { JsonRPC := "2.0", Id := id, Result := none,
                    Error := some { Code := -32000, Message := msg } })]
  | .ExecutedOk =>
    out.calls.length = 1 ∧ ∃ id res, out.writes =
      [(StatusOK, { JsonRPC := "2.0", Id := id, Result := res, Error := none })]
  | .ExecutedErr =>
    out.calls.length = 1 ∧ ∃ id msg, out.writes =
      [(StatusOK, { JsonRPC := "2.0", Id := id, Result := none,
                    Error := some { Code := -32000, Message := msg } })]

/-! ## internal/models and the storage

The relational store is modelled by its tables, as lists of rows.  A read
that finds no row is the error `First` reports; a write (`Create`, `Save`)
fails when the store holds a pending `writeError`, and then changes nothing.
Time stamps set by the store are left out. -/

def FriendStatusPending : Int := 0

def FriendStatusAccepted : Int := 1

def FriendStatusRejected : Int := 2

def MsgTypeText : Int := 1

def MsgTypeImage : Int := 2

def MsgTypeFile : Int := 3

structure User where
  ID : Int
  Username : String
  Password : String
  Nickname : String
  deriving DecidableEq, Repr

structure Friend where
  ID : Int
  UserID : Int
  FriendID : Int
  Status : Int
  deriving DecidableEq, Repr

structure Group where
  ID : Int
  Name : String
  OwnerID : Int
  deriving DecidableEq, Repr

structure GroupMember where
  ID : Int
  GroupID : Int
  UserID : Int
  Role : Int
  deriving DecidableEq, Repr

/-- Go `models.Message`, a persisted message. -/
structure StoredMessage where
  ID : Int
  SenderID : Int
  ReceiverID : Int
  GroupID : Int
  MsgType : Int
  Content : String
  FileURL : String
  FileName : String
  FileSize : Int
  CreatedAt : Int
  deriving DecidableEq, Repr

structure Storage where
  users : List User
  friends : List Friend
  groups : List Group
  groupMembers : List GroupMember
  messages : List StoredMessage
  nextID : Int
  writeError : Option GoError
  deriving DecidableEq, Repr

/-- What the methods act on: the store, and the events handed to
`Hub.Broadcast` so far, oldest first. -/
structure World where
  db : Storage
  broadcasts : List Message
  deriving DecidableEq, Repr

/-- The values the methods return as `interface` results. -/
inductive RpcValue where
  | message (m : StoredMessage)
  | messages (ms : List StoredMessage)
  | registered (user : User) (token : String)
  | note (key value : String)
  deriving DecidableEq, Repr

/-- Go `len(s)` of a string: its length in bytes. -/
def goLen (s : String) : Nat :=
  s.utf8ByteSize

/-- An `Execute` that returns `(nil, err)`. -/
def failWith {σ : Type} (err : GoError) (w : σ) : ExecResult RpcValue × σ :=
  (.returned none (some err), w)

/-! ## internal/api/rpc_message.go: message.send -/

structure MessageSendParams where
  ReceiverID : Int
  GroupID : Int
  MsgType : Int
  Content : String
  FileURL : String
  FileName : String
  FileSize : Int
  deriving DecidableEq, Repr

/-- The rows of an accepted friendship between `a` and `b`, in either direction. -/
def Storage.acceptedFriendship (db : Storage) (a b : Int) : Option Friend :=
  db.friends.find? (fun f =>
    ((f.UserID = a ∧ f.FriendID = b) ∨ (f.UserID = b ∧ f.FriendID = a)) ∧
      f.Status = FriendStatusAccepted)

def Storage.membership (db : Storage) (group user : Int) : Option GroupMember :=
  db.groupMembers.find? (fun gm => gm.GroupID = group ∧ gm.UserID = user)

/-- The second half of `MessageSendMethod.Execute`: the message is created,
the group name looked up, and the event handed to the hub. -/
def MessageSendMethod.store (now : Int) (userID : Int) (username : String)
    (p : MessageSendParams) (groupMembers : List Int) (w : World) : ExecResult RpcValue × World :=
  match w.db.writeError with
  | some err => failWith ("failed to create message: " ++ err) w
  | none =>
    let msg : StoredMessage :=
      { ID := w.db.nextID, SenderID := userID, ReceiverID := p.ReceiverID, GroupID := p.GroupID,
        MsgType := p.MsgType, Content := p.Content, FileURL := p.FileURL, FileName := p.FileName,
        FileSize := p.FileSize, CreatedAt := now }
    let db : Storage := { w.db with messages := w.db.messages ++ [msg], nextID := w.db.nextID + 1 }
    let groupName : String :=
      if p.GroupID > 0 then
        match db.groups.find? (fun g => g.ID = p.GroupID) with
        | some group => group.Name
        | none => ""
      else ""
    let event : Message :=
      { ID := msg.ID, Kind := "message", SenderID := userID, SenderName := username,
        ReceiverID := p.ReceiverID, GroupID := p.GroupID, GroupName := groupName,
        MsgType := p.MsgType, Content := p.Content, FileURL := p.FileURL,
        FileName := p.FileName, FileSize := p.FileSize, CreatedAt := msg.CreatedAt,
        GroupMembers := groupMembers }
    (.returned (some (.message msg)) none, { db := db, broadcasts := w.broadcasts ++ [event] })

/-- Go `(*MessageSendMethod).Execute`.  `unmarshal` stands for `json.Unmarshal`
into `MessageSendParams` and `now` for `time.Now()`. -/
def MessageSendMethod.Execute (unmarshal : RawMessage → Except GoError MessageSendParams)
    (now : Int) (ctx : Context) (params : RawMessage) (w : World) : ExecResult RpcValue × World :=
  match unmarshal params with
  | .error err => failWith ("invalid params: " ++ err) w
  | .ok p0 =>
    if p0.ReceiverID = 0 ∧ p0.GroupID = 0 then
      failWith "receiver_id or group_id is required" w
    else
      let p : MessageSendParams := if p0.MsgType = 0 then { p0 with MsgType := MsgTypeText } else p0
      if p.MsgType = MsgTypeText ∧ p.Content = "" then
        failWith "content is required for text message" w
      else if (p.MsgType = MsgTypeImage ∨ p.MsgType = MsgTypeFile) ∧ p.FileURL = "" then
        failWith "file_url is required for image/file message" w
      else
        match ctx.Value "user_id", ctx.Value "username" with
        | some (.int64 userID), some (.string username) =>
          if p.GroupID > 0 then
            match w.db.membership p.GroupID userID with
            | none => failWith "not a member of this group" w
            | some _ =>
              let groupMembers :=
                (w.db.groupMembers.filter (fun gm => gm.GroupID = p.GroupID)).map
                  (fun gm => gm.UserID)
              MessageSendMethod.store now userID username p groupMembers w
          else
            match w.db.acceptedFriendship userID p.ReceiverID with
            | none => failWith "can only send messages to friends" w
            | some _ => MessageSendMethod.store now userID username p [] w
        | _, _ => (.panicked "interface conversion", w)

/-! ## internal/api/rpc_message.go: message.history -/

structure MessageHistoryParams where
  ReceiverID : Int
  GroupID : Int
  BeforeID : Int
  Limit : Int
  deriving DecidableEq, Repr

/-- The page size used: `if p.Limit <= 0 || p.Limit > 100 { p.Limit = 50 }`. -/
def effectiveLimit (limit : Int) : Int :=
  if limit ≤ 0 ∨ limit > 100 then 50 else limit

/-- The query `Order("id DESC").Limit(limit)` with the collected `Where`
conditions: the matching rows, by descending id, cut at the limit. -/
def Storage.queryMessages (db : Storage) (cond : StoredMessage → Bool) (limit : Int) :
    List StoredMessage :=
  ((db.messages.filter cond).insertionSort (fun a b => a.ID ≥ b.ID)).take limit.toNat

/-- Exchange of the elements at positions `i` and `j`:
`messages[i], messages[j] = messages[j], messages[i]`. -/
def swapAt {α : Type} (l : List α) (i j : Nat) : List α :=
  match l[i]?, l[j]? with
  | some a, some b => (l.set i b).set j a
  | _, _ => l

/-- The loop `for i, j := 0, len(messages)-1; i < j; i, j = i+1, j-1`, run for
at most `fuel` iterations. -/
def reverseLoop {α : Type} : Nat → List α → Nat → Nat → List α
  | 0, l, _, _ => l
  | fuel + 1, l, i, j =>
    if i < j then reverseLoop fuel (swapAt l i j) (i + 1) (j - 1) else l

/-- The in-place reversal at the end of `MessageHistoryMethod.Execute`; the
loop is given as many iterations as the slice has elements. -/
def reverseInPlace {α : Type} (l : List α) : List α :=
  reverseLoop l.length l 0 (l.length - 1)

/-- Go `(*MessageHistoryMethod).Execute`. -/
def MessageHistoryMethod.Execute (unmarshal : RawMessage → Except GoError MessageHistoryParams)
    (ctx : Context) (params : RawMessage) (w : World) : ExecResult RpcValue × World :=
  match unmarshal params with
  | .error err => failWith ("invalid params: " ++ err) w
  | .ok p =>
    if p.ReceiverID = 0 ∧ p.GroupID = 0 then
      failWith "receiver_id or group_id is required" w
    else
      let limit := effectiveLimit p.Limit
      match ctx.Value "user_id" with
      | some (.int64 userID) =>
        let before : StoredMessage → Bool := fun m => decide (p.BeforeID > 0 → m.ID < p.BeforeID)
        if p.GroupID > 0 then
          match w.db.membership p.GroupID userID with
          | none => failWith "not a member of this group" w
          | some _ =>
            let messages := w.db.queryMessages
              (fun m => before m && decide (m.GroupID = p.GroupID)) limit
            (.returned (some (.messages (reverseInPlace messages))) none, w)
        else
          let messages := w.db.queryMessages
            (fun m => before m &&
              decide ((m.SenderID = userID ∧ m.ReceiverID = p.ReceiverID) ∨
                (m.SenderID = p.ReceiverID ∧ m.ReceiverID = userID))) limit
          (.returned (some (.messages (reverseInPlace messages))) none, w)
      | _ => (.panicked "interface conversion", w)

/-! ## internal/api/rpc_user.go: user.register -/

structure UserRegisterParams where
  Username : String
  Password : String
  Nickname : String
  deriving DecidableEq, Repr

/-- Go `(*UserRegisterMethod).Execute`.  `setPassword` stands for the hashing
done by `User.SetPassword` and `generateToken` for `JWTManager.GenerateToken`. -/
def UserRegisterMethod.Execute (unmarshal : RawMessage → Except GoError UserRegisterParams)
    (setPassword : String → Except GoError String)
    (generateToken : Int → String → Except GoError String)
    (_ctx : Context) (params : RawMessage) (w : World) : ExecResult RpcValue × World :=
  match unmarshal params with
  | .error err => failWith ("invalid params: " ++ err) w
  | .ok p =>
    if p.Username = "" ∨ p.Password = "" then
      failWith "username and password are required" w
    else if goLen p.Username < 3 ∨ goLen p.Username > 50 then
      failWith "username must be 3-50 characters" w
    else if goLen p.Password < 6 then
      failWith "password must be at least 6 characters" w
    else if (w.db.users.filter (fun u => u.Username = p.Username)).length > 0 then
      failWith "username already exists" w
    else
      let nickname := if p.Nickname = "" then p.Username else p.Nickname
      match setPassword p.Password with
      | .error err => failWith ("failed to set password: " ++ err) w
      | .ok hash =>
        match w.db.writeError with
        | some err => failWith ("failed to create user: " ++ err) w
        | none =>
          let user : User :=
            { ID := w.db.nextID, Username := p.Username, Password := hash, Nickname := nickname }
          let w1 : World :=
            { w with db := { w.db with users := w.db.users ++ [user], nextID := w.db.nextID + 1 } }
          match generateToken user.ID user.Username with
          | .error err => failWith ("failed to generate token: " ++ err) w1
          | .ok token => (.returned (some (.registered user token)) none, w1)

/-! ## internal/api/rpc_friend.go: friend.accept -/

structure FriendAcceptParams where
  RequestID : Int
  Accept : Bool
  deriving DecidableEq, Repr

/-- Go `(*FriendAcceptMethod).Execute`. -/
def FriendAcceptMethod.Execute (unmarshal : RawMessage → Except GoError FriendAcceptParams)
    (now : Int) (ctx : Context) (params : RawMessage) (w : World) : ExecResult RpcValue × World :=
  match unmarshal params with
  | .error err => failWith ("invalid params: " ++ err) w
  | .ok p =>
    if p.RequestID = 0 then failWith "request_id is required" w
    else
      match ctx.Value "user_id", ctx.Value "username" with
      | some (.int64 userID), some (.string username) =>
        match w.db.friends.find? (fun f => f.ID = p.RequestID) with
        | none => failWith "friend request not found" w
        | some friend =>
          if friend.FriendID ≠ userID then failWith "not authorized to accept this request" w
          else if friend.Status ≠ FriendStatusPending then failWith "request already processed" w
          else
            let status := if p.Accept then FriendStatusAccepted else FriendStatusRejected
            match w.db.writeError with
            | some err => failWith ("failed to update friend request: " ++ err) w
            | none =>
              let saved : Friend := { friend with Status := status }
              let db : Storage :=
                { w.db with friends := w.db.friends.map (fun f => if f.ID = saved.ID then saved else f) }
              let notifyType := if p.Accept then "friend_accepted" else "friend_rejected"
              let content :=
                if p.Accept then "accepted your friend request" else "rejected your friend request"
              let event : Message :=
                { ID := 0, Kind := notifyType, SenderID := userID, SenderName := username,
                  ReceiverID := friend.UserID, GroupID := 0, GroupName := "", MsgType := 0,
                  Content := content, FileURL := "", FileName := "", FileSize := 0,
                  CreatedAt := now, GroupMembers := [] }
              (.returned (some (.note "message" ("friend request " ++ notifyType.drop 7))) none,
                { db := db, broadcasts := w.broadcasts ++ [event] })
      | _, _ => (.panicked "interface conversion", w)

/-! ## internal/api/ws_handler.go -/

/-- What the handshake reads of the request: the query parameter `token`, the
Authorization header, and whether the upgrade of the connection succeeds. -/
structure WsRequest where
  queryToken : String
  authorization : String
  upgradeOk : Bool
  deriving DecidableEq, Repr

/-- How the handshake ends: a 401 reply with an error text, a failed
upgrade (answered by the upgrader), a registered client, or the panic of a
nil dereference. -/
inductive WsReply where
  | unauthorized (error : String)
  | upgradeFailed
  | connected (client : Client)
  | panicked
  deriving DecidableEq, Repr

/-- The token the handshake takes from the request: the query parameter when
not empty, otherwise the token of a `Bearer` header, otherwise none. -/
def presentedToken (req : WsRequest) : String :=
  if req.queryToken ≠ "" then req.queryToken
  else if req.authorization ≠ "" then
    match stringsSplitN2 req.authorization with
    | [p0, p1] => if p0 = "Bearer" then p1 else ""
    | _ => ""
  else ""

/-- Go `ws.NewClient`: the client owns a new queue of size 256, allocated at
the address `fresh`. -/
def NewClient (fresh : ChanId) (userID : Int) (username : String) (h : Hub) : Client × Hub :=
  ({ send := fresh, UserID := userID, Username := username },
   { h with chans := Function.update h.chans fresh { buf := [], cap := 256, closed := false } })

/-- Go `(*ApiServer).WebSocket`, up to the hub having processed the
registration it sends; starting the pumps is left out. -/
def WebSocket (jm : JWTManager) (fresh : ChanId) (req : WsRequest) (h : Hub) : WsReply × Hub :=
  let token := presentedToken req
  if token = "" then (.unauthorized "token required", h)
  else
    match jm.ParseToken token with
    | (_, some _) => (.unauthorized "invalid token", h)
    | (none, none) => (.panicked, h)
    | (some claims, none) =>
      if req.upgradeOk then
        let (client, h1) := NewClient fresh claims.UserID claims.Username h
        match h1.Run (.register client) with
        | .ok h2 => (.connected client, h2)
        | .error _ => (.panicked, h1)
      else (.upgradeFailed, h)

/-! ## Sequences of hub requests -/

/-- The hub loop run over a sequence of requests, stopping at a panic. -/
def runAll : List HubRequest → Hub → Except GoPanic Hub
  | [], h => .ok h
  | r :: rest, h =>
    match h.Run r with
    | .error p => .error p
    | .ok h1 => runAll rest h1

/-- The clients named by the register and unregister requests of a sequence. -/
def clientsOf : List HubRequest → List Client
  | [] => []
  | .register c :: rest => c :: clientsOf rest
  | .unregister c :: rest => c :: clientsOf rest
  | .broadcast _ :: rest => clientsOf rest

/-- Each client owns its queue: two clients of the sequence with the same
queue are the same client. -/
def OwnQueues (reqs : List HubRequest) : Prop :=
  ∀ c ∈ clientsOf reqs, ∀ d ∈ clientsOf reqs, c.send = d.send → c = d

/-- The discipline of the connection adapters, given the clients registered
and unregistered so far: a client is registered at most once and not after
its unregistration, and is unregistered at most once. -/
def Disciplined : List Client → List Client → List HubRequest → Prop
  | _, _, [] => True
  | regd, unregd, .register c :: rest =>
    c ∉ regd ∧ c ∉ unregd ∧ Disciplined (c :: regd) unregd rest
  | regd, unregd, .unregister c :: rest =>
    c ∉ unregd ∧ Disciplined regd (c :: unregd) rest
  | regd, unregd, .broadcast _ :: rest => Disciplined regd unregd rest

/-- The state invariant behind the discipline, relative to the clients `all`
of the run and those unregistered so far: a closed queue belongs to an
unregistered client, and a registered client is filed under its own user id,
is a client of the run and has not been unregistered. -/
def HubInv (all unregd : List Client) (h : Hub) : Prop :=
  (∀ q, (h.chans q).closed = true → ∃ d ∈ unregd, d.send = q) ∧
  (∀ u c, h.clients u = some c → c.UserID = u ∧ c ∉ unregd ∧ c ∈ all) ∧
  (∀ d ∈ unregd, d ∈ all)

/-! ## Sample data

Concrete handlers, requests and hub states on which the theorems below are
exercised. -/

/-- A spy method: each invocation adds one to the collaborators' state. -/
def spyMethod (name : String) (requireAuth : Bool) : RpcMethod Nat String :=
  { Name := name
    Execute := fun _ _ n => (.returned (some "done") none, n + 1)
    RequireAuth := requireAuth }

/-- A token library that accepts the token `good` for user 7, reports `old`
as expired and rejects everything else. -/
def sampleManager : JWTManager :=
  { parseWithClaims := fun t =>
      if t = "good" then .ok { claims := some { UserID := 7, Username := "ann" }, valid := true }
      else if t = "old" then .error { isExpired := true }
      else .error { isExpired := false } }

/-- A handler with `user.info` (authenticated) and `ping` (open) registered. -/
def sampleHandler : RpcHandler Nat String :=
  (({ methods := fun _ => none, jwtManager := sampleManager } : RpcHandler Nat String).RegisterMethod
    (spyMethod "user.info" true)).RegisterMethod (spyMethod "ping" false)

def sampleMarshal : String → Option RawMessage := fun r => some r

def sampleRequest (version method : String) : RpcRequest :=
  { JsonRPC := version, Method := method, Params := "", Id := "1" }

/-- An open, empty queue of the given size. -/
def emptyChan (cap : Nat) : Chan :=
  { buf := [], cap := cap, closed := false }

/-- A text event from `sender` with the given target. -/
def sampleMessage (sender receiver group : Int) (members : List Int) : Message :=
  { ID := 1, Kind := "message", SenderID := sender, SenderName := "", ReceiverID := receiver,
    GroupID := group, GroupName := "", MsgType := 1, Content := "hi", FileURL := "",
    FileName := "", FileSize := 0, CreatedAt := 0, GroupMembers := members }

/-- The client of user `u`, owning queue number `u`. -/
def sampleClient (u : Nat) : Client :=
  { send := u, UserID := u, Username := "" }

/-- A hub with users 1, 2 and 3 registered.  Queues 1 and 2 are empty queues
of the size `NewClient` makes; queue 3 has size one and already holds an
event, so it is full.  User 4 and all others are offline. -/
def sampleHub : Hub :=
  { clients := fun u =>
      if u = 1 then some (sampleClient 1)
      else if u = 2 then some (sampleClient 2)
      else if u = 3 then some (sampleClient 3)
      else none
    chans := fun q =>
      if q = 3 then { buf := [sampleMessage 9 3 0 []], cap := 1, closed := false }
      else emptyChan 256 }

/-- A second connection of user 2, owning queue number 5. -/
def secondClient : Client :=
  { send := 5, UserID := 2, Username := "" }

/-- A method whose `Execute` returns the error `boom`. -/
def failingMethod : RpcMethod Nat String :=
  { Name := "fail"
    Execute := fun _ _ n => (.returned none (some "boom"), n + 1)
    RequireAuth := false }

/-- A method whose `Execute` returns `(nil, nil)`. -/
def nilMethod : RpcMethod Nat String :=
  { Name := "nil"
    Execute := fun _ _ n => (.returned none none, n + 1)
    RequireAuth := false }

/-- A method whose `Execute` panics. -/
def panicMethod : RpcMethod Nat String :=
  { Name := "crash"
    Execute := fun _ _ n => (.panicked "boom", n)
    RequireAuth := false }

/-- The sample handler with the three methods above registered as well. -/
def extendedHandler : RpcHandler Nat String :=
  ((sampleHandler.RegisterMethod failingMethod).RegisterMethod nilMethod).RegisterMethod panicMethod

/-- A store in which users 1 and 3 are friends and both are members of
group 100; user 2 is nobody's friend and in no group. -/
def sampleStorage : Storage :=
  { users := []
    friends := [{ ID := 1, UserID := 1, FriendID := 3, Status := FriendStatusAccepted }]
    groups := [{ ID := 100, Name := "team", OwnerID := 1 }]
    groupMembers := [{ ID := 1, GroupID := 100, UserID := 1, Role := 2 },
                     { ID := 2, GroupID := 100, UserID := 3, Role := 0 }]
    messages := []
    nextID := 1
    writeError := none }

def sampleWorld : World :=
  { db := sampleStorage, broadcasts := [] }

/-- The call context the pipeline builds for the verified user. -/
def callerContext (userID : Int) (username : String) : Context :=
  (Context.Background.WithValue "user_id" (.int64 userID)).WithValue "username" (.string username)

/-- A decoder under which every body decodes to `p`. -/
def unmarshalTo {α : Type} (p : α) : RawMessage → Except GoError α :=
  fun _ => .ok p

def sendParams (receiver group msgType : Int) (content fileURL : String) : MessageSendParams :=
  { ReceiverID := receiver, GroupID := group, MsgType := msgType, Content := content,
    FileURL := fileURL, FileName := "", FileSize := 0 }

/-- A stand-in for the password hashing. -/
def sampleSetPassword : String → Except GoError String :=
  fun password => .ok ("hash:" ++ password)

/-- A stand-in for the token issuance. -/
def sampleGenerateToken : Int → String → Except GoError String :=
  fun _ _ => .ok "tok"

def registerParams (username password : String) : UserRegisterParams :=
  { Username := username, Password := password, Nickname := "" }

/-- A user name of two characters that takes four bytes. -/
def shortName : String := "éé"

/-- A user name of twenty-six characters that takes fifty-two bytes. -/
def wideName : String := "éééééééééééééééééééééééééé"

/-- A store holding one pending friend request, number 5, from user 1 to user 2. -/
def requestStorage : Storage :=
  { users := []
    friends := [{ ID := 5, UserID := 1, FriendID := 2, Status := FriendStatusPending }]
    groups := []
    groupMembers := []
    messages := []
    nextID := 6
    writeError := none }

def requestWorld : World :=
  { db := requestStorage, broadcasts := [] }

/-- A store holding messages 1 to 4 between users 1 and 3. -/
def historyStorage : Storage :=
  { sampleStorage with
    messages :=
      [{ ID := 1, SenderID := 1, ReceiverID := 3, GroupID := 0, MsgType := 1, Content := "a",
         FileURL := "", FileName := "", FileSize := 0, CreatedAt := 1 },
       { ID := 2, SenderID := 3, ReceiverID := 1, GroupID := 0, MsgType := 1, Content := "b",
         FileURL := "", FileName := "", FileSize := 0, CreatedAt := 2 },
       { ID := 3, SenderID := 1, ReceiverID := 3, GroupID := 0, MsgType := 1, Content := "c",
         FileURL := "", FileName := "", FileSize := 0, CreatedAt := 3 },
       { ID := 4, SenderID := 3, ReceiverID := 1, GroupID := 0, MsgType := 1, Content := "d",
         FileURL := "", FileName := "", FileSize := 0, CreatedAt := 4 }]
    nextID := 5 }

def historyWorld : World :=
  { db := historyStorage, broadcasts := [] }

/-- A session of user 2: it connects, reconnects with a second client, is
sent an event, and both connections end, the older one first. -/
def sampleSession : List HubRequest :=
  [.register (sampleClient 2), .register secondClient, .broadcast (sampleMessage 1 2 0 []),
   .unregister (sampleClient 2), .unregister secondClient]

/-! ## Lemmas on the split of the Authorization header -/

theorem cutAtSpace_some {l a b : List Char} (hcut : cutAtSpace l = some (a, b)) :
    l = a ++ ' ' :: b := by
  induction l generalizing a b with
  | nil => simp [cutAtSpace] at hcut
  | cons c cs ih =>
    unfold cutAtSpace at hcut
    split_ifs at hcut with hc
    · simp only [Option.some.injEq, Prod.mk.injEq] at hcut
      obtain ⟨rfl, rfl⟩ := hcut
      simp [hc]
    · cases hcs : cutAtSpace cs with
      | none => simp [hcs] at hcut
      | some ab =>
        obtain ⟨a1, b1⟩ := ab
        simp only [hcs, Option.some.injEq, Prod.mk.injEq] at hcut
        obtain ⟨rfl, rfl⟩ := hcut
        simp [ih hcs]

theorem cutAtSpace_append {a : List Char} (b : List Char) (ha : ' ' ∉ a) :
    cutAtSpace (a ++ ' ' :: b) = some (a, b) := by
  induction a with
  | nil => simp [cutAtSpace]
  | cons c cs ih =>
    have hc : c ≠ ' ' := fun hc => ha (by simp [hc])
    have hcs : ' ' ∉ cs := fun hcs => ha (by simp [hcs])
    simp [cutAtSpace, hc, ih hcs]

theorem stringsSplitN2_pair {s p0 p1 : String} (hs : stringsSplitN2 s = [p0, p1]) :
    s = p0 ++ " " ++ p1 := by
  unfold stringsSplitN2 at hs
  cases hcut : cutAtSpace s.data with
  | none => simp [hcut] at hs
  | some ab =>
    obtain ⟨a, b⟩ := ab
    simp only [hcut, List.cons.injEq, and_true] at hs
    obtain ⟨rfl, rfl⟩ := hs
    apply String.ext
    simp [cutAtSpace_some hcut]

theorem stringsSplitN2_bearer (t : String) :
    stringsSplitN2 ("Bearer " ++ t) = ["Bearer", t] := by
  have hcut : cutAtSpace ("Bearer " ++ t).data = some ("Bearer".data, t.data) := by
    have hd : ("Bearer " ++ t).data = "Bearer".data ++ ' ' :: t.data := by
      simp [String.data_append]
    rw [hd]
    exact cutAtSpace_append _ (by decide)
  unfold stringsSplitN2
  rw [hcut]

/-- The header has the form `Bearer <t>` exactly when the split yields the two
parts `Bearer` and `t`. -/
theorem stringsSplitN2_bearer_iff (s t : String) :
    stringsSplitN2 s = ["Bearer", t] ↔ s = "Bearer " ++ t := by
  constructor
  · intro hs
    rw [stringsSplitN2_pair hs]
    apply String.ext
    simp [String.data_append]
  · rintro rfl
    exact stringsSplitN2_bearer t

theorem stringsSplitN2_cases (s : String) :
    stringsSplitN2 s = [s] ∨ ∃ p0 p1, stringsSplitN2 s = [p0, p1] := by
  unfold stringsSplitN2
  cases cutAtSpace s.data with
  | none => exact Or.inl rfl
  | some ab => exact Or.inr ⟨_, _, rfl⟩

/-! ## The dispatch pipeline -/

theorem replyOnly_calls {σ : Type} (wr : ResponseWrite) (w : σ) : (replyOnly wr w).calls = [] := rfl

theorem invokeMethod_calls {σ α : Type} (jsonMarshal : α → Option RawMessage)
    (method : RpcMethod σ α) (req : RpcRequest) (rpcCtx : Context) (w : σ) :
    (invokeMethod jsonMarshal method req rpcCtx w).calls =
      [{ method := req.Method, ctx := rpcCtx, params := req.Params }] := by
  unfold invokeMethod
  rcases hx : method.Execute rpcCtx req.Params w with ⟨r, w1⟩
  cases r with
  | panicked reason => rfl
  | returned result err => cases err <;> rfl

/-- The run on a request that resolves to a method requiring authentication
and presents `Bearer <t>` with a token the manager accepts. -/
theorem HandleRpcRequest_verified {σ α : Type} (jsonMarshal : α → Option RawMessage)
    (h : RpcHandler σ α) (ctx : GinRequest) (w : σ) (req : RpcRequest) (m : RpcMethod σ α)
    (t : String) (claims : Claims)
    (hbody : ctx.body = some req) (hver : req.JsonRPC = "2.0")
    (hm : h.getMethod req.Method = some m) (hauth : m.RequireAuth = true)
    (hhdr : ctx.authorization = "Bearer " ++ t)
    (htok : h.jwtManager.ParseToken t = (some claims, none)) :
    h.HandleRpcRequest jsonMarshal ctx w =
      invokeMethod jsonMarshal m req
        ((Context.Background.WithValue "user_id" (.int64 claims.UserID)).WithValue "username"
          (.string claims.Username)) w := by
  have hne : ("Bearer " ++ t : String) ≠ "" := by
    intro he
    have := congrArg String.data he
    simp [String.data_append] at this
  unfold RpcHandler.HandleRpcRequest
  simp only [hbody, hver, hm, hauth, hhdr, stringsSplitN2_bearer, htok]
  simp [hne]

/-- The run on a request that resolves to a method requiring authentication
but presents no acceptable credential: one error envelope, no call. -/
theorem HandleRpcRequest_unverified {σ α : Type} (jsonMarshal : α → Option RawMessage)
    (h : RpcHandler σ α) (ctx : GinRequest) (w : σ) (req : RpcRequest) (m : RpcMethod σ α)
    (hbody : ctx.body = some req) (hver : req.JsonRPC = "2.0")
    (hm : h.getMethod req.Method = some m) (hauth : m.RequireAuth = true)
    (hbad : ctx.authorization = "" ∨ (∀ t, ctx.authorization ≠ "Bearer " ++ t) ∨
      (∃ t, ctx.authorization = "Bearer " ++ t ∧ (h.jwtManager.ParseToken t).2 ≠ none)) :
    ∃ e : GoError, h.HandleRpcRequest jsonMarshal ctx w =
      replyOnly (ErrorReturn jsonMarshal req.Id e) w := by
  unfold RpcHandler.HandleRpcRequest
  simp only [hbody, hver, hm, hauth]
  by_cases hempty : ctx.authorization = ""
  · exact ⟨"authorization required", by simp [hempty]⟩
  · rcases hbad with h1 | h2 | ⟨t, ht, herr⟩
    · exact absurd h1 hempty
    · rcases stringsSplitN2_cases ctx.authorization with hs | ⟨p0, p1, hs⟩
      · exact ⟨"invalid authorization format", by simp [hempty, hs]⟩
      · have hp0 : p0 ≠ "Bearer" := by
          rintro rfl
          exact h2 p1 ((stringsSplitN2_bearer_iff _ _).1 hs)
        exact ⟨"invalid authorization format", by simp [hempty, hs, hp0]⟩
    · rcases hp : h.jwtManager.ParseToken t with ⟨c, e⟩
      rw [hp] at herr
      cases e with
      | none => exact absurd rfl herr
      | some err =>
        refine ⟨"invalid token: " ++ err, ?_⟩
        rw [if_neg hempty]
        simp [ht, stringsSplitN2_bearer, hp]

/-- When `ParseToken` reports no error it returns claims. -/
theorem ParseToken_no_error (jm : JWTManager) (t : String) (hok : (jm.ParseToken t).2 = none) :
    ∃ claims, jm.ParseToken t = (some claims, none) := by
  unfold JWTManager.ParseToken at hok ⊢
  cases hp : jm.parseWithClaims t with
  | error err =>
    rw [hp] at hok
    by_cases he : err.isExpired <;> simp [he] at hok
  | ok token =>
    rw [hp] at hok
    rcases token with ⟨c, v⟩
    cases c with
    | none => simp at hok
    | some claims =>
      cases v with
      | false => simp at hok
      | true => exact ⟨claims, rfl⟩

/-- C1. Whatever the request, every `Execute` call the handler makes is a call
of the method registered under the requested name, and when that method
requires authentication the Authorization header has the form `Bearer <t>`
and `ParseToken t` succeeded.  Conversely, when a request resolves to a method
requiring authentication and the header is absent (empty), is not of the form
`Bearer <t>`, or carries a token `ParseToken` rejects, the run makes no
`Execute` call, leaves the collaborators untouched and answers with exactly
one envelope that carries an error and echoes the request id. -/
theorem HandleRpcRequest_auth_gate {σ α : Type} (jsonMarshal : α → Option RawMessage)
    (h : RpcHandler σ α) (ctx : GinRequest) (w : σ) :
    (∀ call ∈ (h.HandleRpcRequest jsonMarshal ctx w).calls,
        ∃ req m, ctx.body = some req ∧ h.getMethod req.Method = some m ∧
          call.method = req.Method ∧
          (m.RequireAuth = true →
            ∃ t claims, ctx.authorization = "Bearer " ++ t ∧
              h.jwtManager.ParseToken t = (some claims, none))) ∧
    (∀ req m, ctx.body = some req → h.getMethod req.Method = some m → m.RequireAuth = true →
        (ctx.authorization = "" ∨ (∀ t, ctx.authorization ≠ "Bearer " ++ t) ∨
          (∃ t, ctx.authorization = "Bearer " ++ t ∧ (h.jwtManager.ParseToken t).2 ≠ none)) →
        (h.HandleRpcRequest jsonMarshal ctx w).calls = [] ∧
        (h.HandleRpcRequest jsonMarshal ctx w).world = w ∧
        (h.HandleRpcRequest jsonMarshal ctx w).panic = none ∧
        ∃ e, (h.HandleRpcRequest jsonMarshal ctx w).writes =
          [(StatusOK, { JsonRPC := "2.0", Id := req.Id, Result := none, Error := some e })]) := by
  have key : ∀ req m, ctx.body = some req → h.getMethod req.Method = some m →
      m.RequireAuth = true →
      (ctx.authorization = "" ∨ (∀ t, ctx.authorization ≠ "Bearer " ++ t) ∨
        (∃ t, ctx.authorization = "Bearer " ++ t ∧ (h.jwtManager.ParseToken t).2 ≠ none)) →
      ∃ wr : ResponseWrite, h.HandleRpcRequest jsonMarshal ctx w = replyOnly wr w ∧
        ∃ e, wr = (StatusOK, { JsonRPC := "2.0", Id := req.Id, Result := none,
                               Error := some e }) := by
    intro req m hbody hm hauth hbad
    by_cases hver : req.JsonRPC = "2.0"
    · obtain ⟨e, he⟩ := HandleRpcRequest_unverified jsonMarshal h ctx w req m hbody hver hm hauth hbad
      exact ⟨_, he, ⟨{ Code := ErrorCode, Message := e }, rfl⟩⟩
    · refine ⟨InvalidRequest req.Id "Invalid JSON-RPC version", ?_, ⟨_, rfl⟩⟩
      unfold RpcHandler.HandleRpcRequest
      simp [hbody, hver]
  constructor
  · intro call hcall
    cases hbody : ctx.body with
    | none =>
      simp [RpcHandler.HandleRpcRequest, hbody, replyOnly] at hcall
    | some req =>
      by_cases hver : req.JsonRPC = "2.0"
      swap
      · simp [RpcHandler.HandleRpcRequest, hbody, hver, replyOnly] at hcall
      cases hm : h.getMethod req.Method with
      | none => simp [RpcHandler.HandleRpcRequest, hbody, hver, hm, replyOnly] at hcall
      | some m =>
        refine ⟨req, m, rfl, hm, ?_, ?_⟩
        · by_cases hauth : m.RequireAuth = true
          · by_cases hgood : ∃ t claims, ctx.authorization = "Bearer " ++ t ∧
                h.jwtManager.ParseToken t = (some claims, none)
            · obtain ⟨t, claims, hhdr, htok⟩ := hgood
              rw [HandleRpcRequest_verified jsonMarshal h ctx w req m t claims hbody hver hm hauth
                hhdr htok, invokeMethod_calls] at hcall
              simp at hcall
              rw [hcall]
            · exfalso
              have hbad : ctx.authorization = "" ∨ (∀ t, ctx.authorization ≠ "Bearer " ++ t) ∨
                  (∃ t, ctx.authorization = "Bearer " ++ t ∧
                    (h.jwtManager.ParseToken t).2 ≠ none) := by
                by_cases hform : ∃ t, ctx.authorization = "Bearer " ++ t
                · obtain ⟨t, ht⟩ := hform
                  refine Or.inr (Or.inr ⟨t, ht, fun hok => hgood ?_⟩)
                  obtain ⟨claims, hc⟩ := ParseToken_no_error _ t hok
                  exact ⟨t, claims, ht, hc⟩
                · exact Or.inr (Or.inl (fun t ht => hform ⟨t, ht⟩))
              obtain ⟨wr, hrun, -⟩ := key req m hbody hm hauth hbad
              rw [hrun] at hcall
              simp [replyOnly] at hcall
          · have hrun : h.HandleRpcRequest jsonMarshal ctx w =
                invokeMethod jsonMarshal m req Context.Background w := by
              unfold RpcHandler.HandleRpcRequest
              simp [hbody, hver, hm, hauth]
            rw [hrun, invokeMethod_calls] at hcall
            simp at hcall
            rw [hcall]
        · intro hauth
          by_contra hgood
          have hbad : ctx.authorization = "" ∨ (∀ t, ctx.authorization ≠ "Bearer " ++ t) ∨
              (∃ t, ctx.authorization = "Bearer " ++ t ∧
                (h.jwtManager.ParseToken t).2 ≠ none) := by
            by_cases hform : ∃ t, ctx.authorization = "Bearer " ++ t
            · obtain ⟨t, ht⟩ := hform
              refine Or.inr (Or.inr ⟨t, ht, fun hok => hgood ?_⟩)
              obtain ⟨claims, hc⟩ := ParseToken_no_error _ t hok
              exact ⟨t, claims, ht, hc⟩
            · exact Or.inr (Or.inl (fun t ht => hform ⟨t, ht⟩))
          obtain ⟨wr, hrun, -⟩ := key req m hbody hm hauth hbad
          rw [hrun] at hcall
          simp [replyOnly] at hcall
  · intro req m hbody hm hauth hbad
    obtain ⟨wr, hrun, e, he⟩ := key req m hbody hm hauth hbad
    rw [hrun]
    exact ⟨rfl, rfl, rfl, e, by rw [he]; rfl⟩

/-- C1 at concrete inputs: `user.info` requires authentication; called with
no Authorization header, and called with the expired token `old`, the spy
method is not invoked and its counter stays at 0. -/
theorem HandleRpcRequest_auth_gate_witness :
    (sampleHandler.HandleRpcRequest sampleMarshal
        { body := some (sampleRequest "2.0" "user.info"), authorization := "" } 0).calls = [] ∧
    (sampleHandler.HandleRpcRequest sampleMarshal
        { body := some (sampleRequest "2.0" "user.info"),
          authorization := "Bearer old" } 0).world = 0 :=
  ⟨((HandleRpcRequest_auth_gate sampleMarshal sampleHandler
        { body := some (sampleRequest "2.0" "user.info"), authorization := "" } 0).2
      (sampleRequest "2.0" "user.info") (spyMethod "user.info" true) rfl rfl rfl (Or.inl rfl)).1,
   ((HandleRpcRequest_auth_gate sampleMarshal sampleHandler
        { body := some (sampleRequest "2.0" "user.info"), authorization := "Bearer old" } 0).2
      (sampleRequest "2.0" "user.info") (spyMethod "user.info" true) rfl rfl rfl
      (Or.inr (Or.inr ⟨"old", by decide, by decide⟩))).2.1⟩

/-- C2. A request whose body does not decode, or whose version tag is not
`2.0`, is answered with exactly one envelope carrying error code -32600 (and
the request id when the body decoded); no `Execute` is invoked, the
collaborators are untouched, and the run is the same for every registry:
no method is looked up. -/
theorem HandleRpcRequest_protocol_error {σ α : Type} (jsonMarshal : α → Option RawMessage)
    (h : RpcHandler σ α) (ctx : GinRequest) (w : σ)
    (hbad : ctx.body = none ∨ ∃ req, ctx.body = some req ∧ req.JsonRPC ≠ "2.0") :
    (∃ msg, (h.HandleRpcRequest jsonMarshal ctx w).writes =
        [(StatusOK, { JsonRPC := "2.0", Id := (ctx.body.map (fun req => req.Id)).getD "",
                      Result := none, Error := some { Code := -32600, Message := msg } })]) ∧
    (h.HandleRpcRequest jsonMarshal ctx w).calls = [] ∧
    (h.HandleRpcRequest jsonMarshal ctx w).world = w ∧
    (h.HandleRpcRequest jsonMarshal ctx w).panic = none ∧
    ∀ h2 : RpcHandler σ α,
      h2.HandleRpcRequest jsonMarshal ctx w = h.HandleRpcRequest jsonMarshal ctx w := by
  rcases hbad with hnone | ⟨req, hbody, hver⟩
  · have hrun : ∀ g : RpcHandler σ α, g.HandleRpcRequest jsonMarshal ctx w =
        replyOnly (InvalidRequest "" "Invalid JSON") w := by
      intro g
      unfold RpcHandler.HandleRpcRequest
      simp [hnone]
    rw [hrun h]
    refine ⟨⟨"Invalid JSON", ?_⟩, rfl, rfl, rfl, fun h2 => hrun h2⟩
    simp [replyOnly, InvalidRequest, JsonRPCVersion, hnone]
  · have hrun : ∀ g : RpcHandler σ α, g.HandleRpcRequest jsonMarshal ctx w =
        replyOnly (InvalidRequest req.Id "Invalid JSON-RPC version") w := by
      intro g
      unfold RpcHandler.HandleRpcRequest
      simp [hbody, hver]
    rw [hrun h]
    refine ⟨⟨"Invalid JSON-RPC version", ?_⟩, rfl, rfl, rfl, fun h2 => hrun h2⟩
    simp [replyOnly, InvalidRequest, JsonRPCVersion, hbody]

/-- C2 at a concrete input: a version `1.0` call of the registered method `ping`. -/
theorem HandleRpcRequest_protocol_error_witness :
    (∃ msg, (sampleHandler.HandleRpcRequest sampleMarshal
        { body := some (sampleRequest "1.0" "ping"), authorization := "" } 0).writes =
        [(StatusOK, { JsonRPC := "2.0", Id := "1", Result := none,
                      Error := some { Code := -32600, Message := msg } })]) ∧
    (sampleHandler.HandleRpcRequest sampleMarshal
        { body := some (sampleRequest "1.0" "ping"), authorization := "" } 0).calls = [] :=
  have hthm := HandleRpcRequest_protocol_error sampleMarshal sampleHandler
    { body := some (sampleRequest "1.0" "ping"), authorization := "" } 0
    (Or.inr ⟨sampleRequest "1.0" "ping", rfl, by decide⟩)
  ⟨hthm.1, hthm.2.1⟩

/-- C3. A request that decodes, has version `2.0` and names a method that is
not a key of the registry is answered with exactly one envelope whose error
has code -32601 and message `Method not found: ` followed by the requested
name, and whose id is the request id; nothing is executed. -/
theorem HandleRpcRequest_method_not_found {σ α : Type} (jsonMarshal : α → Option RawMessage)
    (h : RpcHandler σ α) (ctx : GinRequest) (w : σ) (req : RpcRequest)
    (hbody : ctx.body = some req) (hver : req.JsonRPC = "2.0")
    (hm : h.getMethod req.Method = none) :
    (h.HandleRpcRequest jsonMarshal ctx w).writes =
      [(StatusOK, { JsonRPC := "2.0", Id := req.Id, Result := none,
                    Error := some { Code := -32601,
                                    Message := "Method not found: " ++ req.Method } })] ∧
    (h.HandleRpcRequest jsonMarshal ctx w).calls = [] ∧
    (h.HandleRpcRequest jsonMarshal ctx w).world = w ∧
    (h.HandleRpcRequest jsonMarshal ctx w).panic = none := by
  have hrun : h.HandleRpcRequest jsonMarshal ctx w =
      replyOnly (MethodNotFound req.Id req.Method) w := by
    unfold RpcHandler.HandleRpcRequest
    simp [hbody, hver, hm]
  rw [hrun]
  exact ⟨rfl, rfl, rfl, rfl⟩

/-- C3 at a concrete input: the method `nonexistent.method` of the test suite. -/
theorem HandleRpcRequest_method_not_found_witness :
    (sampleHandler.HandleRpcRequest sampleMarshal
        { body := some (sampleRequest "2.0" "nonexistent.method"), authorization := "" } 0).writes =
      [(200, { JsonRPC := "2.0", Id := "1", Result := none,
               Error := some { Code := -32601,
                               Message := "Method not found: nonexistent.method" } })] :=
  (HandleRpcRequest_method_not_found sampleMarshal sampleHandler
    { body := some (sampleRequest "2.0" "nonexistent.method"), authorization := "" } 0
    (sampleRequest "2.0" "nonexistent.method") rfl rfl rfl).1

/-! ## The hub: one non-blocking send -/

theorem trySend_open_room (ch : Chan) (msg : Message) (hopen : ch.closed = false)
    (hroom : ch.buf.length < ch.cap) :
    ch.trySend msg = .ok { ch with buf := ch.buf ++ [msg] } := by
  simp [Chan.trySend, hopen, hroom]

theorem trySend_open_full (ch : Chan) (msg : Message) (hopen : ch.closed = false)
    (hfull : ch.cap ≤ ch.buf.length) : ch.trySend msg = .ok ch := by
  simp [Chan.trySend, hopen, Nat.not_lt.2 hfull]

theorem trySend_closed (ch : Chan) (msg : Message) (hclosed : ch.closed = true) :
    ch.trySend msg = .error .sendOnClosedChannel := by
  simp [Chan.trySend, hclosed]

/-- What a successful non-blocking send leaves behind: the same channel with
the message appended, or the very same channel. -/
theorem trySend_ok {ch ch1 : Chan} {msg : Message} (hs : ch.trySend msg = .ok ch1) :
    ch.closed = false ∧ ch1.closed = false ∧ ch1.cap = ch.cap ∧
      ((ch.buf.length < ch.cap ∧ ch1.buf = ch.buf ++ [msg]) ∨
        (ch.cap ≤ ch.buf.length ∧ ch1 = ch)) := by
  unfold Chan.trySend at hs
  cases hc : ch.closed with
  | true => simp [hc] at hs
  | false =>
    by_cases hroom : ch.buf.length < ch.cap
    · simp only [hc, hroom, if_true, Bool.false_eq_true, if_false, Except.ok.injEq] at hs
      subst hs
      exact ⟨rfl, rfl, rfl, Or.inl ⟨hroom, rfl⟩⟩
    · simp only [hc, hroom, Bool.false_eq_true, if_false, Except.ok.injEq] at hs
      subst hs
      exact ⟨rfl, hc, rfl, Or.inr ⟨Nat.not_lt.1 hroom, rfl⟩⟩

theorem trySendTo_ok {h h1 : Hub} {c : Client} {msg : Message}
    (hs : h.trySendTo c msg = .ok h1) :
    ∃ ch1, (h.chans c.send).trySend msg = .ok ch1 ∧
      h1 = { h with chans := Function.update h.chans c.send ch1 } := by
  unfold Hub.trySendTo at hs
  cases ht : (h.chans c.send).trySend msg with
  | error p => simp [ht] at hs
  | ok ch1 =>
    simp only [ht, Except.ok.injEq] at hs
    exact ⟨ch1, rfl, hs.symm⟩

theorem trySendTo_open (h : Hub) (c : Client) (msg : Message)
    (hopen : (h.chans c.send).closed = false) :
    ∃ h1, h.trySendTo c msg = .ok h1 := by
  unfold Hub.trySendTo
  by_cases hroom : (h.chans c.send).buf.length < (h.chans c.send).cap
  · rw [trySend_open_room _ _ hopen hroom]
    exact ⟨_, rfl⟩
  · rw [trySend_open_full _ _ hopen (Nat.not_lt.1 hroom)]
    exact ⟨_, rfl⟩

/-- The effect of one successful send on the whole hub. -/
theorem trySendTo_effect {h h1 : Hub} {c : Client} {msg : Message}
    (hs : h.trySendTo c msg = .ok h1) :
    h1.clients = h.clients ∧ (∀ q, q ≠ c.send → h1.chans q = h.chans q) ∧
      (∀ q, (h1.chans q).closed = (h.chans q).closed) ∧
      (∀ q, (h1.chans q).cap = (h.chans q).cap) ∧
      (h.chans c.send).closed = false ∧
      (((h.chans c.send).buf.length < (h.chans c.send).cap ∧
          (h1.chans c.send).buf = (h.chans c.send).buf ++ [msg]) ∨
        ((h.chans c.send).cap ≤ (h.chans c.send).buf.length ∧
          h1.chans c.send = h.chans c.send)) := by
  obtain ⟨ch1, ht, rfl⟩ := trySendTo_ok hs
  obtain ⟨hopen, hopen1, hcap, hcases⟩ := trySend_ok ht
  refine ⟨rfl, ?_, ?_, ?_, hopen, ?_⟩
  · intro q hq
    simp [Function.update_noteq hq]
  · intro q
    by_cases hq : q = c.send
    · subst hq
      simp [hopen, hopen1]
    · simp [Function.update_noteq hq]
  · intro q
    by_cases hq : q = c.send
    · subst hq
      simp [hcap]
    · simp [Function.update_noteq hq]
  · simpa using hcases

/-- A send that drops the message (full queue) leaves the hub as it was. -/
theorem trySendTo_full (h : Hub) (c : Client) (msg : Message)
    (hopen : (h.chans c.send).closed = false)
    (hfull : (h.chans c.send).cap ≤ (h.chans c.send).buf.length) :
    h.trySendTo c msg = .ok h := by
  unfold Hub.trySendTo
  rw [trySend_open_full _ _ hopen hfull]
  simp

/-! ## The hub: the group loop -/

/-- One iteration of the group loop: the member is skipped (it is the sender
or has no registration) or one send to its registered client is made. -/
theorem groupLoop_cons {msg : Message} {v : Int} {rest : List Int} {h h2 : Hub}
    (hrun : groupLoop msg (v :: rest) h = .ok h2) :
    ((v = msg.SenderID ∨ h.clients v = none) ∧ groupLoop msg rest h = .ok h2) ∨
    (∃ d h1, v ≠ msg.SenderID ∧ h.clients v = some d ∧ h.trySendTo d msg = .ok h1 ∧
      groupLoop msg rest h1 = .ok h2) := by
  unfold groupLoop at hrun
  by_cases hv : v = msg.SenderID
  · simp only [hv, if_true] at hrun
    exact Or.inl ⟨Or.inl hv, hrun⟩
  · simp only [hv, if_false] at hrun
    cases hc : h.clients v with
    | none =>
      simp only [hc] at hrun
      exact Or.inl ⟨Or.inr rfl, hrun⟩
    | some d =>
      simp only [hc] at hrun
      cases hs : h.trySendTo d msg with
      | error p => simp [hs] at hrun
      | ok h1 =>
        simp only [hs] at hrun
        exact Or.inr ⟨d, h1, hv, rfl, hs, hrun⟩

/-- What a completed group loop preserves: the registration map, the closed
flag and capacity of every queue, every queue that belongs to no listed
member other than the sender, every full queue; and every queue only grows by
copies of the event. -/
theorem groupLoop_effect (msg : Message) (l : List Int) :
    ∀ h h2 : Hub, groupLoop msg l h = .ok h2 →
      h2.clients = h.clients ∧
      (∀ q, (h2.chans q).closed = (h.chans q).closed) ∧
      (∀ q, (h2.chans q).cap = (h.chans q).cap) ∧
      (∀ q, (∀ u ∈ l, u ≠ msg.SenderID → ∀ c, h.clients u = some c → c.send ≠ q) →
        h2.chans q = h.chans q) ∧
      (∀ q, (h.chans q).cap ≤ (h.chans q).buf.length → h2.chans q = h.chans q) ∧
      (∀ q, ∃ k, (h2.chans q).buf = (h.chans q).buf ++ List.replicate k msg) := by
  induction l with
  | nil =>
    intro h h2 hrun
    simp only [groupLoop, Except.ok.injEq] at hrun
    subst hrun
    exact ⟨rfl, fun _ => rfl, fun _ => rfl, fun _ _ => rfl, fun _ _ => rfl, fun _ => ⟨0, by simp⟩⟩
  | cons v rest ih =>
    intro h h2 hrun
    rcases groupLoop_cons hrun with ⟨-, hrest⟩ | ⟨d, h1, hv, hd, hsend, hrest⟩
    · obtain ⟨hcl, hclosed, hcap, hframe, hfull, hgrow⟩ := ih h h2 hrest
      refine ⟨hcl, hclosed, hcap, ?_, hfull, hgrow⟩
      intro q hq
      exact hframe q (fun u hu => hq u (List.mem_cons_of_mem _ hu))
    · obtain ⟨hcl, hclosed, hcap, hframe, hfull, hgrow⟩ := ih h1 h2 hrest
      obtain ⟨hcl1, hother1, hclosed1, hcap1, -, hcase1⟩ := trySendTo_effect hsend
      refine ⟨hcl.trans hcl1, fun q => (hclosed q).trans (hclosed1 q),
        fun q => (hcap q).trans (hcap1 q), ?_, ?_, ?_⟩
      · intro q hq
        have hdq : q ≠ d.send := fun he => hq v (List.mem_cons_self _ _) hv d hd he.symm
        rw [hframe q, hother1 q hdq]
        intro u hu hus c hc
        rw [hcl1] at hc
        exact hq u (List.mem_cons_of_mem _ hu) hus c hc
      · intro q hq
        have h1q : h1.chans q = h.chans q := by
          by_cases hdq : q = d.send
          · subst hdq
            rcases hcase1 with ⟨hroom, -⟩ | ⟨-, hsame⟩
            · omega
            · exact hsame
          · exact hother1 q hdq
        rw [hfull q (by rw [h1q]; exact hq), h1q]
      · intro q
        obtain ⟨k, hk⟩ := hgrow q
        by_cases hdq : q = d.send
        · subst hdq
          rcases hcase1 with ⟨-, hpush⟩ | ⟨-, hsame⟩
          · refine ⟨k + 1, ?_⟩
            rw [hk, hpush, List.replicate_succ, List.append_assoc]
            rfl
          · exact ⟨k, by rw [hk, hsame]⟩
        · exact ⟨k, by rw [hk, hother1 q hdq]⟩

/-- The group loop runs to completion when the queues it sends to are open. -/
theorem groupLoop_total (msg : Message) (l : List Int) :
    ∀ h : Hub,
      (∀ u ∈ l, u ≠ msg.SenderID → ∀ c, h.clients u = some c → (h.chans c.send).closed = false) →
      ∃ h2, groupLoop msg l h = .ok h2 := by
  induction l with
  | nil => intro h _; exact ⟨h, rfl⟩
  | cons v rest ih =>
    intro h hopen
    have hrest : ∀ u ∈ rest, u ≠ msg.SenderID → ∀ c, h.clients u = some c →
        (h.chans c.send).closed = false :=
      fun u hu => hopen u (List.mem_cons_of_mem _ hu)
    unfold groupLoop
    by_cases hv : v = msg.SenderID
    · simp only [hv, if_true]
      exact ih h hrest
    · simp only [hv, if_false]
      cases hc : h.clients v with
      | none => exact ih h hrest
      | some d =>
        obtain ⟨h1, hs⟩ := trySendTo_open h d msg (hopen v (List.mem_cons_self _ _) hv d hc)
        obtain ⟨hcl1, -, hclosed1, -⟩ := trySendTo_effect hs
        simp only [hs]
        apply ih h1
        intro u hu hus c hcu
        rw [hcl1] at hcu
        rw [hclosed1]
        exact hrest u hu hus c hcu

/-- A listed member other than the sender whose registered queue has room is
sent at least one copy. -/
theorem groupLoop_delivers (msg : Message) (l : List Int) :
    ∀ h h2 : Hub, groupLoop msg l h = .ok h2 →
      ∀ u ∈ l, u ≠ msg.SenderID → ∀ c, h.clients u = some c →
        (h.chans c.send).buf.length < (h.chans c.send).cap →
        ∃ k, (h2.chans c.send).buf = (h.chans c.send).buf ++ msg :: List.replicate k msg := by
  induction l with
  | nil => intro h h2 _ u hu; simp at hu
  | cons v rest ih =>
    intro h h2 hrun u hu hus c hc hroom
    rcases groupLoop_cons hrun with ⟨hskip, hrest⟩ | ⟨d, h1, hv, hd, hsend, hrest⟩
    · have huv : u ≠ v := by
        rintro rfl
        rcases hskip with hs | hn
        · exact hus hs
        · rw [hn] at hc; cases hc
      have hur : u ∈ rest := by
        rcases List.mem_cons.1 hu with he | hr
        · exact absurd he huv
        · exact hr
      exact ih h h2 hrest u hur hus c hc hroom
    · obtain ⟨hcl1, hother1, -, hcap1, -, hcase1⟩ := trySendTo_effect hsend
      by_cases hdq : c.send = d.send
      · obtain ⟨-, -, -, -, -, hgrow⟩ := groupLoop_effect msg rest h1 h2 hrest
        obtain ⟨k, hk⟩ := hgrow c.send
        rw [hdq] at hroom hk ⊢
        rcases hcase1 with ⟨-, hpush⟩ | ⟨hfull, -⟩
        · refine ⟨k, ?_⟩
          rw [hk, hpush, List.append_assoc]
          rfl
        · omega
      · have huv : u ≠ v := by
          rintro rfl
          rw [hd] at hc
          cases hc
          exact hdq rfl
        have hur : u ∈ rest := by
          rcases List.mem_cons.1 hu with he | hr
          · exact absurd he huv
          · exact hr
        have hc1 : h1.clients u = some c := by rw [hcl1]; exact hc
        have hroom1 : (h1.chans c.send).buf.length < (h1.chans c.send).cap := by
          rw [hother1 _ hdq]; exact hroom
        obtain ⟨k, hk⟩ := ih h1 h2 hrest u hur hus c hc1 hroom1
        exact ⟨k, by rw [hk, hother1 _ hdq]⟩

/-- When no id is listed twice and different users hold different queues, a
listed member other than the sender whose registered queue has room is sent
exactly one copy. -/
theorem groupLoop_exactly_one (msg : Message) (l : List Int) :
    ∀ h h2 : Hub, groupLoop msg l h = .ok h2 → l.Nodup → h.QueuesDistinct →
      ∀ u ∈ l, u ≠ msg.SenderID → ∀ c, h.clients u = some c →
        (h.chans c.send).buf.length < (h.chans c.send).cap →
        (h2.chans c.send).buf = (h.chans c.send).buf ++ [msg] := by
  induction l with
  | nil => intro h h2 _ _ _ u hu; simp at hu
  | cons v rest ih =>
    intro h h2 hrun hnd hdist u hu hus c hc hroom
    obtain ⟨hvr, hndr⟩ := List.nodup_cons.1 hnd
    rcases groupLoop_cons hrun with ⟨hskip, hrest⟩ | ⟨d, h1, hv, hd, hsend, hrest⟩
    · have huv : u ≠ v := by
        rintro rfl
        rcases hskip with hs | hn
        · exact hus hs
        · rw [hn] at hc; cases hc
      have hur : u ∈ rest := by
        rcases List.mem_cons.1 hu with he | hr
        · exact absurd he huv
        · exact hr
      exact ih h h2 hrest hndr hdist u hur hus c hc hroom
    · obtain ⟨hcl1, hother1, -, -, -, hcase1⟩ := trySendTo_effect hsend
      have hdist1 : h1.QueuesDistinct := by
        intro a b ca cb ha hb
        rw [hcl1] at ha hb
        exact hdist a b ca cb ha hb
      by_cases huv : u = v
      · subst huv
        rw [hd] at hc
        cases hc
        obtain ⟨-, -, -, hframe, -, -⟩ := groupLoop_effect msg rest h1 h2 hrest
        have hkeep : h2.chans c.send = h1.chans c.send := by
          apply hframe
          intro x hx _ e he hes
          rw [hcl1] at he
          have hxu : x = u := hdist x u e c he hd hes
          exact hvr (hxu ▸ hx)
        rcases hcase1 with ⟨-, hpush⟩ | ⟨hfull, -⟩
        · rw [hkeep, hpush]
        · omega
      · have hur : u ∈ rest := by
          rcases List.mem_cons.1 hu with he | hr
          · exact absurd he huv
          · exact hr
        have hdq : c.send ≠ d.send := fun he => huv (hdist u v c d hc hd he)
        have hc1 : h1.clients u = some c := by rw [hcl1]; exact hc
        have hroom1 : (h1.chans c.send).buf.length < (h1.chans c.send).cap := by
          rw [hother1 _ hdq]; exact hroom
        rw [ih h1 h2 hrest hndr hdist1 u hur hus c hc1 hroom1, hother1 _ hdq]

/-! ## The hub: routing -/

theorem sampleHub_QueuesOpen : sampleHub.QueuesOpen := by
  intro u c _
  simp only [sampleHub, emptyChan]
  split_ifs <;> rfl

theorem sampleHub_QueuesDistinct : sampleHub.QueuesDistinct := by
  intro u v c d hc hd hcd
  simp only [sampleHub, sampleClient] at hc hd
  split_ifs at hc hd <;> simp_all <;> subst_vars <;> simp_all

/-- The handling of a single-receiver event whose receiver is registered is
one non-blocking send to the registered client. -/
theorem handleMessage_registered (h : Hub) (msg : Message) (c : Client)
    (hrecv : msg.ReceiverID > 0) (hc : h.clients msg.ReceiverID = some c) :
    h.handleMessage msg = h.trySendTo c msg := by
  simp [Hub.handleMessage, hrecv, hc]

/-- C4. Handling a single-receiver event (`ReceiverID > 0`): when no client is
registered for the receiver the hub is left exactly as it was and no error
is raised; when a client is registered and its queue is open the handling
succeeds, the event itself is appended to that queue if it has room, and the
hub is unchanged if it has none; and whenever the handling returns, the
registration map is unchanged, every queue other than the one registered for
the receiver is unchanged, and each queue is either unchanged or has gained
exactly this event. -/
theorem handleMessage_private (h : Hub) (msg : Message) (hrecv : msg.ReceiverID > 0) :
    (h.clients msg.ReceiverID = none → h.handleMessage msg = .ok h) ∧
    (∀ c, h.clients msg.ReceiverID = some c → (h.chans c.send).closed = false →
      ∃ h2, h.handleMessage msg = .ok h2 ∧
        ((h.chans c.send).buf.length < (h.chans c.send).cap →
          (h2.chans c.send).buf = (h.chans c.send).buf ++ [msg]) ∧
        ((h.chans c.send).cap ≤ (h.chans c.send).buf.length → h2 = h)) ∧
    (∀ h2, h.handleMessage msg = .ok h2 →
      h2.clients = h.clients ∧
      (∀ q, (∀ c, h.clients msg.ReceiverID = some c → q ≠ c.send) → h2.chans q = h.chans q) ∧
      (∀ q, h2.chans q = h.chans q ∨ (h2.chans q).buf = (h.chans q).buf ++ [msg])) := by
  refine ⟨?_, ?_, ?_⟩
  · intro hnone
    simp [Hub.handleMessage, hrecv, hnone]
  · intro c hc hopen
    have hrun : h.handleMessage msg = h.trySendTo c msg := by
      simp [Hub.handleMessage, hrecv, hc]
    obtain ⟨h2, hs⟩ := trySendTo_open h c msg hopen
    obtain ⟨-, -, -, -, -, hcase⟩ := trySendTo_effect hs
    refine ⟨h2, hrun.trans hs, ?_, ?_⟩
    · intro hroom
      rcases hcase with ⟨-, hpush⟩ | ⟨hfull, -⟩
      · exact hpush
      · omega
    · intro hfull
      have hsame := trySendTo_full h c msg hopen hfull
      rw [hs] at hsame
      exact Except.ok.inj hsame
  · intro h2 hrun
    cases hc : h.clients msg.ReceiverID with
    | none =>
      simp only [Hub.handleMessage, hrecv, hc, if_true, Except.ok.injEq] at hrun
      subst hrun
      exact ⟨rfl, fun _ _ => rfl, fun _ => Or.inl rfl⟩
    | some c =>
      simp only [Hub.handleMessage, hrecv, hc, if_true] at hrun
      obtain ⟨hcl, hother, -, -, -, hcase⟩ := trySendTo_effect hrun
      refine ⟨hcl, fun q hq => hother q (hq c rfl), ?_⟩
      intro q
      by_cases hq : q = c.send
      · subst hq
        rcases hcase with ⟨-, hpush⟩ | ⟨-, hsame⟩
        · exact Or.inr hpush
        · exact Or.inl hsame
      · exact Or.inl (hother q hq)

/-- C4 at a concrete input: the event of the test suite, from user 1 to the
registered user 2, and the same event addressed to the offline user 4. -/
theorem handleMessage_private_witness :
    (∃ h2, sampleHub.handleMessage (sampleMessage 1 2 0 []) = .ok h2 ∧
      (h2.chans 2).buf = [sampleMessage 1 2 0 []]) ∧
    sampleHub.handleMessage (sampleMessage 1 4 0 []) = .ok sampleHub := by
  constructor
  · obtain ⟨h2, hrun, hroom, -⟩ :=
      (handleMessage_private sampleHub (sampleMessage 1 2 0 []) (by decide)).2.1
        (sampleClient 2) rfl rfl
    exact ⟨h2, hrun, hroom (by decide)⟩
  · exact (handleMessage_private sampleHub (sampleMessage 1 4 0 []) (by decide)).1 rfl

/-- C5, evaluated where it fails: user 1 is registered and the event names
user 1 both as sender and as receiver (what `message.send` hands to the hub
when a member of group 100 passes its own id as `receiver_id` together with
`group_id` 100).  The private branch has no sender check, so the event is
appended to the sender's own queue. -/
theorem handleMessage_private_reaches_sender :
    (sampleMessage 1 1 100 [1, 2, 3]).ReceiverID > 0 ∧
    sampleHub.clients (sampleMessage 1 1 100 [1, 2, 3]).SenderID = some (sampleClient 1) ∧
    (sampleHub.chans (sampleClient 1).send).buf = [] ∧
    ∃ h2, sampleHub.handleMessage (sampleMessage 1 1 100 [1, 2, 3]) = .ok h2 ∧
      (h2.chans (sampleClient 1).send).buf = [sampleMessage 1 1 100 [1, 2, 3]] :=
  ⟨by decide, rfl, rfl, _, rfl, rfl⟩

/-- The handling of an event with no single receiver is the group loop, or
nothing at all. -/
theorem handleMessage_group_run (h : Hub) (msg : Message) (hrecv : msg.ReceiverID ≤ 0) :
    h.handleMessage msg = groupLoop msg msg.GroupMembers h ∨
      (h.handleMessage msg = .ok h ∧ (msg.GroupID ≤ 0 ∨ msg.GroupMembers = [])) := by
  have hnot : ¬ msg.ReceiverID > 0 := by omega
  by_cases hg : msg.GroupID > 0 ∧ msg.GroupMembers.length > 0
  · left
    simp [Hub.handleMessage, hnot, hg]
  · right
    refine ⟨by simp [Hub.handleMessage, hnot, hg], ?_⟩
    by_cases hgid : msg.GroupID > 0
    · right
      have hlen : ¬ msg.GroupMembers.length > 0 := fun hl => hg ⟨hgid, hl⟩
      exact List.length_eq_zero.1 (by omega)
    · left
      omega

/-- C6 fails for a member list that names a user twice: with user 2
registered on an empty queue with room, the group event from user 1 with
members `[2, 2]` puts two copies on the queue of user 2. -/
theorem handleMessage_group_duplicate_member :
    (sampleMessage 1 0 100 [2, 2]).ReceiverID = 0 ∧
    (sampleMessage 1 0 100 [2, 2]).GroupID > 0 ∧
    (2 : Int) ∈ (sampleMessage 1 0 100 [2, 2]).GroupMembers ∧
    (2 : Int) ≠ (sampleMessage 1 0 100 [2, 2]).SenderID ∧
    sampleHub.clients 2 = some (sampleClient 2) ∧
    (sampleHub.chans (sampleClient 2).send).buf.length <
      (sampleHub.chans (sampleClient 2).send).cap ∧
    ∃ h2, sampleHub.handleMessage (sampleMessage 1 0 100 [2, 2]) = .ok h2 ∧
      (h2.chans (sampleClient 2).send).buf =
        (sampleHub.chans (sampleClient 2).send).buf ++
          [sampleMessage 1 0 100 [2, 2], sampleMessage 1 0 100 [2, 2]] ∧
      (h2.chans (sampleClient 2).send).buf.count (sampleMessage 1 0 100 [2, 2]) ≠ 1 :=
  ⟨rfl, by decide, by decide, by decide, rfl, by decide, _, rfl, rfl, by decide⟩

/-- C6, amended. For a hub whose registered queues are open and held by one
user each, and a group event (`ReceiverID` not positive, `GroupID > 0`)
whose member list names no id twice, the handling succeeds and every listed
member other than the sender that has a registered client whose queue has
room gets exactly one copy: its queue afterwards is its queue before followed
by the event. -/
theorem handleMessage_group_exactly_one (h : Hub) (msg : Message)
    (hrecv : msg.ReceiverID ≤ 0) (hgrp : msg.GroupID > 0)
    (hopen : h.QueuesOpen) (hdist : h.QueuesDistinct) (hnd : msg.GroupMembers.Nodup) :
    ∃ h2, h.handleMessage msg = .ok h2 ∧
      ∀ u ∈ msg.GroupMembers, u ≠ msg.SenderID → ∀ c, h.clients u = some c →
        (h.chans c.send).buf.length < (h.chans c.send).cap →
        (h2.chans c.send).buf = (h.chans c.send).buf ++ [msg] := by
  rcases handleMessage_group_run h msg hrecv with hrun | ⟨-, hg | hempty⟩
  · obtain ⟨h2, hloop⟩ := groupLoop_total msg msg.GroupMembers h
      (fun u _ _ c hc => hopen u c hc)
    refine ⟨h2, hrun.trans hloop, ?_⟩
    exact groupLoop_exactly_one msg msg.GroupMembers h h2 hloop hnd hdist
  · omega
  · refine ⟨h, by simp [Hub.handleMessage, hempty, not_lt.2 hrecv], ?_⟩
    intro u hu
    rw [hempty] at hu
    simp at hu

/-- C6 amended, at the scenario of the specification: users 1, 2, 3, group
event from user 1 with members `[1, 2, 3]`; user 2 gets exactly one copy. -/
theorem handleMessage_group_exactly_one_witness :
    ∃ h2, sampleHub.handleMessage (sampleMessage 1 0 100 [1, 2, 3]) = .ok h2 ∧
      (h2.chans 2).buf = [sampleMessage 1 0 100 [1, 2, 3]] := by
  obtain ⟨h2, hrun, hall⟩ :=
    handleMessage_group_exactly_one sampleHub (sampleMessage 1 0 100 [1, 2, 3])
      (by decide) (by decide) sampleHub_QueuesOpen sampleHub_QueuesDistinct (by decide)
  exact ⟨h2, hrun, hall 2 (by decide) (by decide) (sampleClient 2) rfl (by decide)⟩

/-- C7. Handling an event with no single receiver (a group event): whenever
it returns, the registration map is unchanged (no registration is created for
an absent member) and every queue that is not the registered queue of a listed
member other than the sender is unchanged; it does return when the registered
queues are open; and when different users hold different queues, the queue
of the sender and the queue of every registered user not listed are
unchanged. -/
theorem handleMessage_group_frame (h : Hub) (msg : Message) (hrecv : msg.ReceiverID ≤ 0) :
    (∀ h2, h.handleMessage msg = .ok h2 →
      h2.clients = h.clients ∧
      ∀ q, (∀ u ∈ msg.GroupMembers, u ≠ msg.SenderID → ∀ c, h.clients u = some c → c.send ≠ q) →
        h2.chans q = h.chans q) ∧
    (h.QueuesOpen → ∃ h2, h.handleMessage msg = .ok h2) ∧
    (h.QueuesDistinct → ∀ h2, h.handleMessage msg = .ok h2 →
      (∀ c, h.clients msg.SenderID = some c → h2.chans c.send = h.chans c.send) ∧
      (∀ v c, v ∉ msg.GroupMembers → h.clients v = some c → h2.chans c.send = h.chans c.send)) := by
  have hframe : ∀ h2, h.handleMessage msg = .ok h2 →
      h2.clients = h.clients ∧
      ∀ q, (∀ u ∈ msg.GroupMembers, u ≠ msg.SenderID → ∀ c, h.clients u = some c → c.send ≠ q) →
        h2.chans q = h.chans q := by
    intro h2 hrun
    rcases handleMessage_group_run h msg hrecv with hloop | ⟨hsame, -⟩
    · rw [hloop] at hrun
      obtain ⟨hcl, -, -, hfr, -, -⟩ := groupLoop_effect msg msg.GroupMembers h h2 hrun
      exact ⟨hcl, hfr⟩
    · rw [hsame] at hrun
      cases hrun
      exact ⟨rfl, fun _ _ => rfl⟩
  refine ⟨hframe, ?_, ?_⟩
  · intro hopen
    rcases handleMessage_group_run h msg hrecv with hloop | ⟨hsame, -⟩
    · rw [hloop]
      exact groupLoop_total msg msg.GroupMembers h (fun u _ _ c hc => hopen u c hc)
    · exact ⟨h, hsame⟩
  · intro hdist h2 hrun
    obtain ⟨-, hfr⟩ := hframe h2 hrun
    constructor
    · intro c hc
      apply hfr
      intro u _ hus d hd hds
      exact hus (hdist u msg.SenderID d c hd hc hds)
    · intro v c hv hc
      apply hfr
      intro u hu _ d hd hds
      exact hv (hdist u v d c hd hc hds ▸ hu)

/-- C7 at a concrete input: the group event from user 1 with members
`[1, 2, 4]` leaves the queue of the sender and the queue of the unlisted user 3 as they
were, and user 4, who is offline, stays unregistered. -/
theorem handleMessage_group_frame_witness :
    ∃ h2, sampleHub.handleMessage (sampleMessage 1 0 100 [1, 2, 4]) = .ok h2 ∧
      h2.chans 1 = sampleHub.chans 1 ∧ h2.chans 3 = sampleHub.chans 3 ∧
      h2.clients 4 = none := by
  have hthm := handleMessage_group_frame sampleHub (sampleMessage 1 0 100 [1, 2, 4]) (by decide)
  obtain ⟨h2, hrun⟩ := hthm.2.1 sampleHub_QueuesOpen
  obtain ⟨hsender, hother⟩ := hthm.2.2 sampleHub_QueuesDistinct h2 hrun
  refine ⟨h2, hrun, hsender (sampleClient 1) rfl, hother 3 (sampleClient 3) (by decide) rfl, ?_⟩
  rw [(hthm.1 h2 hrun).1]
  rfl

/-- C8. A delivery to a full queue is dropped.  For a single-receiver event
whose receiver is registered with an open, full queue, the handling succeeds
and leaves the hub exactly as it was.  For an event with no single receiver
on a hub whose registered queues are open, the handling succeeds, the
registration map is unchanged, every full queue is unchanged, and (for a
group event) every listed member other than the sender whose registered
queue has room still has the event appended to its queue. -/
theorem handleMessage_full_queue (h : Hub) (msg : Message) :
    (msg.ReceiverID > 0 → ∀ c, h.clients msg.ReceiverID = some c →
      (h.chans c.send).closed = false → (h.chans c.send).cap ≤ (h.chans c.send).buf.length →
      h.handleMessage msg = .ok h) ∧
    (msg.ReceiverID ≤ 0 → h.QueuesOpen →
      ∃ h2, h.handleMessage msg = .ok h2 ∧ h2.clients = h.clients ∧
        (∀ q, (h.chans q).cap ≤ (h.chans q).buf.length → h2.chans q = h.chans q) ∧
        (msg.GroupID > 0 → ∀ v ∈ msg.GroupMembers, v ≠ msg.SenderID →
          ∀ d, h.clients v = some d →
          (h.chans d.send).buf.length < (h.chans d.send).cap →
          ∃ k, (h2.chans d.send).buf =
            (h.chans d.send).buf ++ msg :: List.replicate k msg)) := by
  constructor
  · intro hrecv c hc hopen hfull
    have hrun : h.handleMessage msg = h.trySendTo c msg := by
      simp [Hub.handleMessage, hrecv, hc]
    rw [hrun]
    exact trySendTo_full h c msg hopen hfull
  · intro hrecv hopen
    rcases handleMessage_group_run h msg hrecv with hloop | ⟨hsame, hnone⟩
    · obtain ⟨h2, hrun⟩ := groupLoop_total msg msg.GroupMembers h
        (fun u _ _ c hc => hopen u c hc)
      obtain ⟨hcl, -, -, -, hfull, -⟩ := groupLoop_effect msg msg.GroupMembers h h2 hrun
      refine ⟨h2, hloop.trans hrun, hcl, hfull, ?_⟩
      intro _
      exact groupLoop_delivers msg msg.GroupMembers h h2 hrun
    · refine ⟨h, hsame, rfl, fun _ _ => rfl, ?_⟩
      intro hgrp v hv
      rcases hnone with hg | hempty
      · omega
      · rw [hempty] at hv
        simp at hv

/-- C8 at a concrete input: the group event from user 1 with members
`[1, 2, 3]`, where the queue of user 3 is full: that queue is unchanged and
user 2 still gets the event. -/
theorem handleMessage_full_queue_witness :
    ∃ h2, sampleHub.handleMessage (sampleMessage 1 0 100 [1, 2, 3]) = .ok h2 ∧
      h2.chans 3 = sampleHub.chans 3 ∧
      ∃ k, (h2.chans 2).buf =
        [] ++ sampleMessage 1 0 100 [1, 2, 3] :: List.replicate k (sampleMessage 1 0 100 [1, 2, 3]) := by
  obtain ⟨h2, hrun, -, hfull, hdel⟩ :=
    (handleMessage_full_queue sampleHub (sampleMessage 1 0 100 [1, 2, 3])).2 (by decide)
      sampleHub_QueuesOpen
  exact ⟨h2, hrun, hfull 3 (by decide),
    hdel (by decide) 2 (by decide) (by decide) (sampleClient 2) rfl (by decide)⟩

/-! ## The hub: registration -/

/-- C9. Processing `Register(c)` in any state succeeds; afterwards the
registration of `c.UserID` is `c` (whatever client was registered before),
`IsOnline(c.UserID)` holds, the registration of every other user id and every
queue are as before; and a later single-receiver event addressed to that user
is appended to the queue of `c` when that queue is open and has room, while
every other queue, the queue of a replaced client included, is left as it
was. -/
theorem Run_register (h : Hub) (c : Client) :
    ∃ h1, h.Run (.register c) = .ok h1 ∧
      h1.clients c.UserID = some c ∧ h1.IsOnline c.UserID = true ∧
      (∀ u, u ≠ c.UserID → h1.clients u = h.clients u) ∧
      h1.chans = h.chans ∧
      ∀ msg : Message, msg.ReceiverID = c.UserID → msg.ReceiverID > 0 →
        ((h.chans c.send).closed = false →
          ∃ h2, h1.handleMessage msg = .ok h2 ∧
            ((h.chans c.send).buf.length < (h.chans c.send).cap →
              (h2.chans c.send).buf = (h.chans c.send).buf ++ [msg])) ∧
        (∀ h2, h1.handleMessage msg = .ok h2 →
          (∀ q, q ≠ c.send → h2.chans q = h.chans q) ∧
          (∀ old, h.clients c.UserID = some old → old.send ≠ c.send →
            h2.chans old.send = h.chans old.send)) := by
  refine ⟨{ h with clients := Function.update h.clients c.UserID (some c) }, rfl, ?_, ?_, ?_, rfl, ?_⟩
  · simp
  · simp [Hub.IsOnline]
  · intro u hu
    simp [Function.update_noteq hu]
  · intro msg haddr hrecv
    have hreg : ({ h with clients := Function.update h.clients c.UserID (some c) } : Hub).clients
        msg.ReceiverID = some c := by
      rw [haddr]
      simp
    have hrun1 := handleMessage_registered _ msg c hrecv hreg
    rw [hrun1]
    constructor
    · intro hopen
      obtain ⟨h2, hs⟩ := trySendTo_open
        { h with clients := Function.update h.clients c.UserID (some c) } c msg hopen
      obtain ⟨-, -, -, -, -, hcase⟩ := trySendTo_effect hs
      refine ⟨h2, hs, ?_⟩
      intro hroom
      rcases hcase with ⟨-, hpush⟩ | ⟨hfull, -⟩
      · exact hpush
      · exact absurd hroom (Nat.not_lt.2 hfull)
    · intro h2 hs
      obtain ⟨-, hother, -⟩ := trySendTo_effect hs
      exact ⟨hother, fun old _ hne => hother old.send hne⟩

/-- C9 at a concrete input: user 2 registers a second connection, owning
queue 5; it becomes the registration of user 2, and an event then addressed
to user 2 lands on queue 5 and not on the replaced queue 2. -/
theorem Run_register_witness :
    ∃ h1, sampleHub.Run (.register secondClient) = .ok h1 ∧
      h1.clients 2 = some secondClient ∧
      ∃ h2, h1.handleMessage (sampleMessage 1 2 0 []) = .ok h2 ∧
        (h2.chans 5).buf = [sampleMessage 1 2 0 []] ∧ h2.chans 2 = sampleHub.chans 2 := by
  obtain ⟨h1, hrun, hreg, -, -, -, hlater⟩ := Run_register sampleHub secondClient
  obtain ⟨hdeliver, hframe⟩ := hlater (sampleMessage 1 2 0 []) rfl (by decide)
  obtain ⟨h2, hrun2, hroom⟩ := hdeliver rfl
  exact ⟨h1, hrun, hreg, h2, hrun2, hroom (by decide),
    (hframe h2 hrun2).2 (sampleClient 2) rfl (by decide)⟩

/-- C10 fails on the code: user 2 is registered with a client owning queue 2,
a different client of user 2 is registered, and afterwards queue 2 is still
open: the replaced queue is not closed. -/
theorem Run_register_replaced_queue_stays_open :
    sampleHub.clients secondClient.UserID = some (sampleClient 2) ∧
    sampleClient 2 ≠ secondClient ∧
    (sampleHub.chans (sampleClient 2).send).closed = false ∧
    ∃ h1, sampleHub.Run (.register secondClient) = .ok h1 ∧
      h1.clients secondClient.UserID = some secondClient ∧
      (h1.chans (sampleClient 2).send).closed = false :=
  ⟨rfl, by decide, rfl, _, rfl, rfl, rfl⟩

/-- C10, amended. Processing `Register(c2)` installs `c2` as the registration
of its user id and closes no queue: every queue, the queue of a client `c1`
it replaces included, is left exactly as it was. -/
theorem Run_register_closes_nothing (h : Hub) (c2 : Client) :
    ∃ h1, h.Run (.register c2) = .ok h1 ∧
      h1.clients c2.UserID = some c2 ∧
      h1.chans = h.chans ∧
      ∀ c1, h.clients c2.UserID = some c1 → h1.chans c1.send = h.chans c1.send :=
  ⟨{ h with clients := Function.update h.clients c2.UserID (some c2) }, rfl, by simp, rfl,
    fun _ _ => rfl⟩

/-! ## The hub: unregistration -/

/-- A group loop that ran to completion sent only to open queues. -/
theorem groupLoop_targets_open (msg : Message) (l : List Int) :
    ∀ h h2 : Hub, groupLoop msg l h = .ok h2 →
      ∀ u ∈ l, u ≠ msg.SenderID → ∀ c, h.clients u = some c →
        (h.chans c.send).closed = false := by
  induction l with
  | nil => intro h h2 _ u hu; simp at hu
  | cons v rest ih =>
    intro h h2 hrun u hu hus c hc
    rcases groupLoop_cons hrun with ⟨hskip, hrest⟩ | ⟨d, h1, hv, hd, hsend, hrest⟩
    · rcases List.mem_cons.1 hu with he | hr
      · subst he
        rcases hskip with hs | hn
        · exact absurd hs hus
        · rw [hn] at hc; cases hc
      · exact ih h h2 hrest u hr hus c hc
    · obtain ⟨hcl1, -, hclosed1, -, hopen, -⟩ := trySendTo_effect hsend
      rcases List.mem_cons.1 hu with he | hr
      · subst he
        rw [hd] at hc
        cases hc
        exact hopen
      · rw [← hclosed1]
        exact ih h1 h2 hrest u hr hus c (by rw [hcl1]; exact hc)

/-- A closed queue is never written: whenever the handling of an event
returns, every closed queue is as it was. -/
theorem handleMessage_closed_queue {h h2 : Hub} {msg : Message}
    (hrun : h.handleMessage msg = .ok h2) (q : ChanId) (hq : (h.chans q).closed = true) :
    h2.chans q = h.chans q := by
  by_cases hrecv : msg.ReceiverID > 0
  · cases hc : h.clients msg.ReceiverID with
    | none =>
      simp only [Hub.handleMessage, hrecv, hc, if_true, Except.ok.injEq] at hrun
      rw [← hrun]
    | some c =>
      rw [handleMessage_registered h msg c hrecv hc] at hrun
      obtain ⟨-, hother, -, -, hopen, -⟩ := trySendTo_effect hrun
      apply hother
      rintro rfl
      rw [hq] at hopen
      cases hopen
  · rcases handleMessage_group_run h msg (not_lt.1 hrecv) with hloop | ⟨hsame, -⟩
    · rw [hloop] at hrun
      obtain ⟨-, -, -, hframe, -, -⟩ := groupLoop_effect msg msg.GroupMembers h h2 hrun
      apply hframe
      intro u hu hus c hc hcq
      have hopen := groupLoop_targets_open msg msg.GroupMembers h h2 hrun u hu hus c hc
      rw [hcq, hq] at hopen
      cases hopen
    · rw [hsame] at hrun
      cases hrun
      rfl

/-- The handling of a single-receiver event whose receiver has no
registration changes nothing. -/
theorem handleMessage_unregistered (h : Hub) (msg : Message)
    (hrecv : msg.ReceiverID > 0) (hnone : h.clients msg.ReceiverID = none) :
    h.handleMessage msg = .ok h := by
  simp [Hub.handleMessage, hrecv, hnone]

/-- The unregister case of the hub loop when some client is registered for the
user id of `c` and the queue of `c` is open: the entry of that user id is
deleted, whichever client it holds, and the queue of `c` is closed. -/
theorem Run_unregister_present (h : Hub) (c d : Client)
    (hd : h.clients c.UserID = some d) (hopen : (h.chans c.send).closed = false) :
    h.Run (.unregister c) =
      .ok { clients := Function.update h.clients c.UserID none
            chans := Function.update h.chans c.send { (h.chans c.send) with closed := true } } := by
  simp [Hub.Run, hd, Chan.close, hopen]

/-- C11, evaluated where it fails: user 2 is registered with a client owning
queue 2, reconnects with a second client owning queue 5 (which replaces the
first), and then the first, stale client unregisters.  The guard of the
unregister case only asks whether the user id has an entry, so the entry of
the newer client is deleted, the user is reported offline, the queue of the
stale client is closed and the queue of the newer client stays open. -/
theorem Run_unregister_stale_removes_newer :
    (sampleClient 2).UserID = secondClient.UserID ∧ sampleClient 2 ≠ secondClient ∧
    ∃ h1 h2, sampleHub.Run (.register secondClient) = .ok h1 ∧
      h1.clients 2 = some secondClient ∧
      h1.Run (.unregister (sampleClient 2)) = .ok h2 ∧
      h2.clients 2 = none ∧ h2.IsOnline 2 = false ∧
      (h2.chans (sampleClient 2).send).closed = true ∧
      (h2.chans secondClient.send).closed = false :=
  ⟨rfl, by decide, _, _, rfl, rfl, rfl, rfl, rfl, rfl, rfl⟩

/-- C12. Processing `Unregister(c)` while `c` is the registration of its user
id and its queue is open succeeds; afterwards that user id has no
registration, `IsOnline` is false, the queue of `c` is closed with its
content kept, the registration of every other user id and every other queue
are as before; a later single-receiver event addressed to that user leaves
the hub exactly as it is, without error, and no later event that is handled
changes the queue of `c`. -/
theorem Run_unregister_current (h : Hub) (c : Client)
    (hcur : h.clients c.UserID = some c) (hopen : (h.chans c.send).closed = false) :
    ∃ h1, h.Run (.unregister c) = .ok h1 ∧
      h1.clients c.UserID = none ∧ h1.IsOnline c.UserID = false ∧
      (h1.chans c.send).closed = true ∧ (h1.chans c.send).buf = (h.chans c.send).buf ∧
      (∀ u, u ≠ c.UserID → h1.clients u = h.clients u) ∧
      (∀ q, q ≠ c.send → h1.chans q = h.chans q) ∧
      (∀ msg : Message, msg.ReceiverID = c.UserID → msg.ReceiverID > 0 →
        h1.handleMessage msg = .ok h1) ∧
      (∀ (msg : Message) (h2 : Hub), h1.handleMessage msg = .ok h2 →
        h2.chans c.send = h1.chans c.send) := by
  refine ⟨_, Run_unregister_present h c c hcur hopen, ?_, ?_, ?_, ?_, ?_, ?_, ?_, ?_⟩
  · simp
  · simp [Hub.IsOnline]
  · simp
  · simp
  · intro u hu
    simp [Function.update_noteq hu]
  · intro q hq
    simp [Function.update_noteq hq]
  · intro msg haddr hrecv
    apply handleMessage_unregistered _ msg hrecv
    rw [haddr]
    simp
  · intro msg h2 hrun
    exact handleMessage_closed_queue hrun c.send (by simp)

/-- C12 at the scenario of the specification: user 2 unregisters, and the
event from user 1 to user 2 is then delivered nowhere, without error. -/
theorem Run_unregister_current_witness :
    ∃ h1, sampleHub.Run (.unregister (sampleClient 2)) = .ok h1 ∧
      h1.IsOnline 2 = false ∧ (h1.chans 2).closed = true ∧
      h1.clients 1 = sampleHub.clients 1 ∧
      h1.handleMessage (sampleMessage 1 2 0 []) = .ok h1 := by
  obtain ⟨h1, hrun, -, hoff, hclosed, -, hothers, -, hlater, -⟩ :=
    Run_unregister_current sampleHub (sampleClient 2) rfl rfl
  exact ⟨h1, hrun, hoff, hclosed, hothers 1 (by decide), hlater _ rfl (by decide)⟩

/-! ## The dispatch pipeline: the reply -/

/-- A presented credential is either `Bearer <t>` with a token the manager
accepts, or it is absent, malformed or rejected. -/
theorem credential_cases (jm : JWTManager) (auth : String) :
    (∃ t claims, auth = "Bearer " ++ t ∧ jm.ParseToken t = (some claims, none)) ∨
    (auth = "" ∨ (∀ t, auth ≠ "Bearer " ++ t) ∨
      (∃ t, auth = "Bearer " ++ t ∧ (jm.ParseToken t).2 ≠ none)) := by
  by_cases hform : ∃ t, auth = "Bearer " ++ t
  · obtain ⟨t, ht⟩ := hform
    by_cases hok : (jm.ParseToken t).2 = none
    · obtain ⟨claims, hc⟩ := ParseToken_no_error jm t hok
      exact Or.inl ⟨t, claims, ht, hc⟩
    · exact Or.inr (Or.inr (Or.inr ⟨t, ht, hok⟩))
  · exact Or.inr (Or.inr (Or.inl (fun t ht => hform ⟨t, ht⟩)))

/-- The run of a method whose `Execute` returns an error: one call, one
error envelope. -/
theorem invokeMethod_returned_err {σ α : Type} (jsonMarshal : α → Option RawMessage)
    (method : RpcMethod σ α) (req : RpcRequest) (rpcCtx : Context) (w w1 : σ)
    (result : Option α) (e : GoError)
    (hexec : method.Execute rpcCtx req.Params w = (.returned result (some e), w1)) :
    invokeMethod jsonMarshal method req rpcCtx w =
      { writes := [ErrorReturn jsonMarshal req.Id e]
        calls := [{ method := req.Method, ctx := rpcCtx, params := req.Params }]
        world := w1
        panic := none } := by
  unfold invokeMethod
  rw [hexec]

/-- The run of a method whose `Execute` returns no error: one call, one
success envelope. -/
theorem invokeMethod_returned_ok {σ α : Type} (jsonMarshal : α → Option RawMessage)
    (method : RpcMethod σ α) (req : RpcRequest) (rpcCtx : Context) (w w1 : σ)
    (result : Option α)
    (hexec : method.Execute rpcCtx req.Params w = (.returned result none, w1)) :
    invokeMethod jsonMarshal method req rpcCtx w =
      { writes := [SuccessReturn jsonMarshal req.Id result]
        calls := [{ method := req.Method, ctx := rpcCtx, params := req.Params }]
        world := w1
        panic := none } := by
  unfold invokeMethod
  rw [hexec]

/-- The run of a method whose `Execute` panics: one call, no envelope. -/
theorem invokeMethod_panicked {σ α : Type} (jsonMarshal : α → Option RawMessage)
    (method : RpcMethod σ α) (req : RpcRequest) (rpcCtx : Context) (w w1 : σ) (reason : String)
    (hexec : method.Execute rpcCtx req.Params w = (.panicked reason, w1)) :
    invokeMethod jsonMarshal method req rpcCtx w =
      { writes := []
        calls := [{ method := req.Method, ctx := rpcCtx, params := req.Params }]
        world := w1
        panic := some reason } := by
  unfold invokeMethod
  rw [hexec]

/-- The paths of `HandleRpcRequest`: a protocol error, an unknown method, a
failed authorization, or the invocation of the method found, with the bare
context when the method is open and with the verified identity when it
requires authentication. -/
theorem HandleRpcRequest_cases {σ α : Type} (jsonMarshal : α → Option RawMessage)
    (h : RpcHandler σ α) (ctx : GinRequest) (w : σ) :
    (∃ id msg, h.HandleRpcRequest jsonMarshal ctx w = replyOnly (InvalidRequest id msg) w) ∨
    (∃ id name, h.HandleRpcRequest jsonMarshal ctx w = replyOnly (MethodNotFound id name) w) ∨
    (∃ req m e, ctx.body = some req ∧ h.getMethod req.Method = some m ∧ m.RequireAuth = true ∧
      h.HandleRpcRequest jsonMarshal ctx w = replyOnly (ErrorReturn jsonMarshal req.Id e) w) ∨
    (∃ req m, ctx.body = some req ∧ req.JsonRPC = "2.0" ∧ h.getMethod req.Method = some m ∧
      m.RequireAuth = false ∧
      h.HandleRpcRequest jsonMarshal ctx w =
        invokeMethod jsonMarshal m req Context.Background w) ∨
    (∃ req m t claims, ctx.body = some req ∧ req.JsonRPC = "2.0" ∧
      h.getMethod req.Method = some m ∧ m.RequireAuth = true ∧
      ctx.authorization = "Bearer " ++ t ∧ h.jwtManager.ParseToken t = (some claims, none) ∧
      h.HandleRpcRequest jsonMarshal ctx w =
        invokeMethod jsonMarshal m req
          ((Context.Background.WithValue "user_id" (.int64 claims.UserID)).WithValue "username"
            (.string claims.Username)) w) := by
  cases hbody : ctx.body with
  | none =>
    left
    exact ⟨"", "Invalid JSON", by simp [RpcHandler.HandleRpcRequest, hbody]⟩
  | some req =>
    by_cases hver : req.JsonRPC = "2.0"
    swap
    · left
      exact ⟨req.Id, "Invalid JSON-RPC version", by simp [RpcHandler.HandleRpcRequest, hbody, hver]⟩
    cases hm : h.getMethod req.Method with
    | none =>
      right; left
      exact ⟨req.Id, req.Method, by simp [RpcHandler.HandleRpcRequest, hbody, hver, hm]⟩
    | some m =>
      by_cases hauth : m.RequireAuth = true
      · rcases credential_cases h.jwtManager ctx.authorization with
          ⟨t, claims, hhdr, htok⟩ | hbad
        · right; right; right; right
          exact ⟨req, m, t, claims, rfl, hver, hm, hauth, hhdr, htok,
            HandleRpcRequest_verified jsonMarshal h ctx w req m t claims hbody hver hm hauth
              hhdr htok⟩
        · right; right; left
          obtain ⟨e, he⟩ :=
            HandleRpcRequest_unverified jsonMarshal h ctx w req m hbody hver hm hauth hbad
          exact ⟨req, m, e, rfl, hm, hauth, he⟩
      · right; right; right; left
        have hfalse : m.RequireAuth = false := by simpa using hauth
        refine ⟨req, m, rfl, hver, hm, hfalse, ?_⟩
        unfold RpcHandler.HandleRpcRequest
        simp [hbody, hver, hm, hfalse]

/-- A run that called `Execute` is the invocation of the method registered
under the requested name. -/
theorem HandleRpcRequest_reaches {σ α : Type} (jsonMarshal : α → Option RawMessage)
    (h : RpcHandler σ α) (ctx : GinRequest) (w : σ)
    (hreach : (h.HandleRpcRequest jsonMarshal ctx w).calls ≠ []) :
    ∃ req m c, ctx.body = some req ∧ h.getMethod req.Method = some m ∧
      h.HandleRpcRequest jsonMarshal ctx w = invokeMethod jsonMarshal m req c w := by
  rcases HandleRpcRequest_cases jsonMarshal h ctx w with
    ⟨id, msg, hrun⟩ | ⟨id, name, hrun⟩ | ⟨req, m, e, -, -, -, hrun⟩ |
    ⟨req, m, hbody, -, hm, -, hrun⟩ | ⟨req, m, t, claims, hbody, -, hm, -, -, -, hrun⟩
  · rw [hrun] at hreach; exact absurd rfl hreach
  · rw [hrun] at hreach; exact absurd rfl hreach
  · rw [hrun] at hreach; exact absurd rfl hreach
  · exact ⟨req, m, _, hbody, hm, hrun⟩
  · exact ⟨req, m, _, hbody, hm, hrun⟩

/-- C13 fails for a method that returns `(nil, nil)`: the request reaches
`Execute`, which returns no result and no error, and the envelope written
has no result at all (and no error), where the JSON encoding of a nil result
would be `null`. -/
theorem HandleRpcRequest_nil_result_omitted :
    (extendedHandler.HandleRpcRequest sampleMarshal
        { body := some (sampleRequest "2.0" "nil"), authorization := "" } 0).calls =
      [{ method := "nil", ctx := Context.Background, params := "" }] ∧
    nilMethod.Execute Context.Background "" 0 = (.returned none none, 1) ∧
    (extendedHandler.HandleRpcRequest sampleMarshal
        { body := some (sampleRequest "2.0" "nil"), authorization := "" } 0).writes =
      [(200, { JsonRPC := "2.0", Id := "1", Result := none, Error := none })] :=
  ⟨rfl, rfl, rfl⟩

/-- C13, amended. For a request that reached `Execute` (the run called the
method `m` registered under the requested name, with context `c`): if
`Execute` returns an error `e`, the envelope has error code -32000, message
`e` and no result; if it returns a non-nil result `v` and no error, the
envelope has the encoding of `v` as result and no error; if it returns
neither, the envelope has neither; in each case exactly one envelope is
written and its id is the request id. -/
theorem HandleRpcRequest_execute_reply {σ α : Type} (jsonMarshal : α → Option RawMessage)
    (h : RpcHandler σ α) (ctx : GinRequest) (w : σ) (req : RpcRequest) (m : RpcMethod σ α)
    (c : Context)
    (hbody : ctx.body = some req) (hm : h.getMethod req.Method = some m)
    (hreach : (h.HandleRpcRequest jsonMarshal ctx w).calls =
      [{ method := req.Method, ctx := c, params := req.Params }]) :
    (∀ r e w1, m.Execute c req.Params w = (.returned r (some e), w1) →
      (h.HandleRpcRequest jsonMarshal ctx w).writes =
        [(StatusOK, { JsonRPC := "2.0", Id := req.Id, Result := none,
                      Error := some { Code := -32000, Message := e } })]) ∧
    (∀ v w1, m.Execute c req.Params w = (.returned (some v) none, w1) →
      (h.HandleRpcRequest jsonMarshal ctx w).writes =
        [(StatusOK, { JsonRPC := "2.0", Id := req.Id, Result := jsonMarshal v,
                      Error := none })]) ∧
    (∀ w1, m.Execute c req.Params w = (.returned none none, w1) →
      (h.HandleRpcRequest jsonMarshal ctx w).writes =
        [(StatusOK, { JsonRPC := "2.0", Id := req.Id, Result := none, Error := none })]) := by
  have hne : (h.HandleRpcRequest jsonMarshal ctx w).calls ≠ [] := by
    rw [hreach]; exact List.cons_ne_nil _ _
  obtain ⟨req1, m1, c1, hbody1, hm1, hrun⟩ := HandleRpcRequest_reaches jsonMarshal h ctx w hne
  rw [hbody] at hbody1
  cases hbody1
  rw [hm] at hm1
  cases hm1
  have hc : c1 = c := by
    rw [hrun, invokeMethod_calls] at hreach
    simpa using hreach
  subst hc
  rw [hrun]
  refine ⟨?_, ?_, ?_⟩
  · intro r e w1 hexec
    rw [invokeMethod_returned_err jsonMarshal m req c1 w w1 r e hexec]
    rfl
  · intro v w1 hexec
    rw [invokeMethod_returned_ok jsonMarshal m req c1 w w1 (some v) hexec]
    rfl
  · intro w1 hexec
    rw [invokeMethod_returned_ok jsonMarshal m req c1 w w1 none hexec]
    rfl

/-- C13 amended, at a concrete input: the method `fail` returns the error
`boom`, which comes back with code -32000 and the request id. -/
theorem HandleRpcRequest_execute_reply_witness :
    (extendedHandler.HandleRpcRequest sampleMarshal
        { body := some (sampleRequest "2.0" "fail"), authorization := "" } 0).writes =
      [(200, { JsonRPC := "2.0", Id := "1", Result := none,
               Error := some { Code := -32000, Message := "boom" } })] :=
  (HandleRpcRequest_execute_reply sampleMarshal extendedHandler
    { body := some (sampleRequest "2.0" "fail"), authorization := "" } 0
    (sampleRequest "2.0" "fail") failingMethod Context.Background rfl rfl rfl).1
    none "boom" 1 rfl

/-- C14 fails on the code: the envelope answering a call of `user.info`
without a credential and the envelope answering a call of a method whose
`Execute` returned an error carry the same code, -32000. -/
theorem auth_failure_shares_generic_code :
    (sampleHandler.HandleRpcRequest sampleMarshal
        { body := some (sampleRequest "2.0" "user.info"), authorization := "" } 0).writes =
      [(200, { JsonRPC := "2.0", Id := "1", Result := none,
               Error := some { Code := -32000, Message := "authorization required" } })] ∧
    (extendedHandler.HandleRpcRequest sampleMarshal
        { body := some (sampleRequest "2.0" "fail"), authorization := "" } 0).writes =
      [(200, { JsonRPC := "2.0", Id := "1", Result := none,
               Error := some { Code := -32000, Message := "boom" } })] :=
  ⟨rfl, rfl⟩

/-- C14, amended. An authorization failure (a version 2.0 request for a
method requiring authentication whose credential is absent, malformed or
rejected, expired tokens included) is answered with the generic code -32000,
the code `ErrorReturn` gives to every error a handler returns; that code
differs from the method-not-found code -32601 and the protocol-error code
-32600. -/
theorem HandleRpcRequest_auth_failure_code {σ α : Type} (jsonMarshal : α → Option RawMessage)
    (h : RpcHandler σ α) (ctx : GinRequest) (w : σ) (req : RpcRequest) (m : RpcMethod σ α)
    (hbody : ctx.body = some req) (hver : req.JsonRPC = "2.0")
    (hm : h.getMethod req.Method = some m) (hauth : m.RequireAuth = true)
    (hbad : ctx.authorization = "" ∨ (∀ t, ctx.authorization ≠ "Bearer " ++ t) ∨
      (∃ t, ctx.authorization = "Bearer " ++ t ∧ (h.jwtManager.ParseToken t).2 ≠ none)) :
    (∃ msg, (h.HandleRpcRequest jsonMarshal ctx w).writes =
      [(StatusOK, { JsonRPC := "2.0", Id := req.Id, Result := none,
                    Error := some { Code := ErrorCode, Message := msg } })]) ∧
    ErrorCode = -32000 ∧
    (∀ id e, (ErrorReturn jsonMarshal id e).2.Error = some { Code := ErrorCode, Message := e }) ∧
    ErrorCode ≠ -32601 ∧ ErrorCode ≠ -32600 := by
  obtain ⟨e, he⟩ := HandleRpcRequest_unverified jsonMarshal h ctx w req m hbody hver hm hauth hbad
  refine ⟨⟨e, ?_⟩, rfl, fun _ _ => rfl, by decide, by decide⟩
  rw [he]
  rfl

/-- C14 amended, at a concrete input: `user.info` called with the expired
token `old`. -/
theorem HandleRpcRequest_auth_failure_code_witness :
    ∃ msg, (sampleHandler.HandleRpcRequest sampleMarshal
        { body := some (sampleRequest "2.0" "user.info"),
          authorization := "Bearer old" } 0).writes =
      [(StatusOK, { JsonRPC := "2.0", Id := "1", Result := none,
                    Error := some { Code := ErrorCode, Message := msg } })] :=
  (HandleRpcRequest_auth_failure_code sampleMarshal sampleHandler
    { body := some (sampleRequest "2.0" "user.info"), authorization := "Bearer old" } 0
    (sampleRequest "2.0" "user.info") (spyMethod "user.info" true) rfl rfl rfl rfl
    (Or.inr (Or.inr ⟨"old", by decide, by decide⟩))).1

/-! ## The envelope on the wire: round trip -/

/-- The JSON text of a Go string that holds a text is that text. -/
theorem jsonText_ofString (s : String) : (GoString.ofString s).jsonText = s := by
  cases s with
  | mk data =>
    simp only [GoString.ofString, GoString.jsonText, List.map_map]
    congr 1
    exact List.map_id data

/-- A Go string comes back from its JSON text exactly when it is valid
UTF-8. -/
theorem ofString_jsonText_iff (s : GoString) :
    GoString.ofString s.jsonText = s ↔ s.ValidString = true := by
  cases s with
  | mk runes =>
    simp only [GoString.ofString, GoString.jsonText, GoString.ValidString, List.map_map,
      GoString.mk.injEq]
    induction runes with
    | nil => simp
    | cons r rest ih =>
      cases r with
      | char c => simpa using ih
      | invalid b => simp

/-- Encoding and decoding turns every string of an envelope into its JSON
text, keeps the code of the error, and keeps the result unless that is empty,
in which case no result comes back. -/
theorem roundTrip_fields (r : RpcResponseBytes) :
    r.roundTrip.JsonRPC = r.JsonRPC.jsonText ∧ r.roundTrip.Id = r.Id.jsonText ∧
    r.roundTrip.Error =
      r.Error.map (fun e => { Code := e.Code, Message := e.Message.jsonText }) ∧
    r.roundTrip.Result = (match r.Result with
      | some bytes => if bytes = "" then none else some bytes
      | none => none) := by
  rcases r with ⟨j, i, res, err⟩
  cases res with
  | none =>
    cases err with
    | none => exact ⟨rfl, rfl, rfl, rfl⟩
    | some e => exact ⟨rfl, rfl, rfl, rfl⟩
  | some bytes =>
    by_cases hb : bytes = ""
    · subst hb
      cases err with
      | none => exact ⟨rfl, rfl, rfl, rfl⟩
      | some e => exact ⟨rfl, rfl, rfl, rfl⟩
    · cases err with
      | none =>
        simp [RpcResponseBytes.roundTrip, RpcResponseBytes.encode, RpcResponse.decode,
          List.lookup, hb]
      | some e =>
        simp [RpcResponseBytes.roundTrip, RpcResponseBytes.encode, RpcResponse.decode,
          List.lookup, hb]

/-- On an id and an error message that are texts, `ReturnBytes` is `Return`:
what comes back from the wire is the envelope `Return` builds, without its
result when that is empty. -/
theorem ReturnBytes_ofString {α : Type} (jsonMarshal : α → Option RawMessage) (httpCode : Nat)
    (id : String) (result : Option α) (err : Option GoError) :
    (ReturnBytes jsonMarshal httpCode (GoString.ofString id) result
        (err.map GoString.ofString)).1 = (Return jsonMarshal httpCode id result err).1 ∧
    (ReturnBytes jsonMarshal httpCode (GoString.ofString id) result
        (err.map GoString.ofString)).2.roundTrip =
      { (Return jsonMarshal httpCode id result err).2 with
        Result := match (Return jsonMarshal httpCode id result err).2.Result with
          | some bytes => if bytes = "" then none else some bytes
          | none => none } := by
  obtain ⟨hj, hid, herr, hres⟩ := roundTrip_fields
    (ReturnBytes jsonMarshal httpCode (GoString.ofString id) result
      (err.map GoString.ofString)).2
  refine ⟨?_, ?_⟩
  · cases err <;> cases result <;> rfl
  · cases hback : (ReturnBytes jsonMarshal httpCode (GoString.ofString id) result
        (err.map GoString.ofString)).2.roundTrip with
    | mk j i res e =>
      rw [hback] at hj hid herr hres
      simp only at hj hid herr hres
      subst hj hid herr hres
      cases err with
      | some e =>
        simp [ReturnBytes, Return, jsonText_ofString]
      | none =>
        cases result with
        | none => simp [ReturnBytes, Return, jsonText_ofString]
        | some v => simp [ReturnBytes, Return, jsonText_ofString]

/-- C15 fails on the code in two ways.  For the arguments `HttpRecover`
passes to `Return`, a nil result and a nil error, the envelope that comes
back from encoding and decoding has neither a result nor an error.  And for
an id that is the single byte 0xFF, which is not UTF-8, the id that comes
back is the replacement character U+FFFD and not the original id. -/
theorem Return_roundtrip_fails :
    ((ReturnBytes sampleMarshal StatusInternalServerError (GoString.ofString "")
        (none : Option String) none).2.roundTrip.Result = none ∧
      (ReturnBytes sampleMarshal StatusInternalServerError (GoString.ofString "")
        (none : Option String) none).2.roundTrip.Error = none) ∧
    ((ReturnBytes sampleMarshal StatusOK { runes := [GoRune.invalid 255] }
        (some "[1]") none).2.roundTrip.Id = String.mk [Char.ofNat 65533] ∧
      GoString.ofString (ReturnBytes sampleMarshal StatusOK { runes := [GoRune.invalid 255] }
        (some "[1]") none).2.roundTrip.Id ≠ { runes := [GoRune.invalid 255] }) :=
  ⟨⟨rfl, rfl⟩, rfl, by decide⟩

/-- C15, amended. For every id, result and err passed to `Return`, encoding
the envelope and decoding it again gives back the JSON text of the id, which
is the original id exactly when that is valid UTF-8 (every invalid byte comes
back as U+FFFD), and never yields both a result and an error: it yields the
error alone (generic code, the JSON text of the message of err) when err is
not nil, the result alone when err is nil and the result is not nil and
encodes to a non-empty text, and neither when err is nil and the result is
nil or does not encode. -/
theorem Return_roundtrip {α : Type} (jsonMarshal : α → Option RawMessage) (httpCode : Nat)
    (id : GoString) (result : Option α) (err : Option GoString) :
    (ReturnBytes jsonMarshal httpCode id result err).2.roundTrip.Id = id.jsonText ∧
    (GoString.ofString (ReturnBytes jsonMarshal httpCode id result err).2.roundTrip.Id = id ↔
      id.ValidString = true) ∧
    (∀ s : String, id = GoString.ofString s →
      (ReturnBytes jsonMarshal httpCode id result err).2.roundTrip.Id = s) ∧
    ¬ ((ReturnBytes jsonMarshal httpCode id result err).2.roundTrip.Result.isSome ∧
        (ReturnBytes jsonMarshal httpCode id result err).2.roundTrip.Error.isSome) ∧
    (∀ e, err = some e →
      (ReturnBytes jsonMarshal httpCode id result err).2.roundTrip.Error =
          some { Code := -32000, Message := e.jsonText } ∧
        (ReturnBytes jsonMarshal httpCode id result err).2.roundTrip.Result = none) ∧
    (∀ v bytes, err = none → result = some v → jsonMarshal v = some bytes → bytes ≠ "" →
      (ReturnBytes jsonMarshal httpCode id result err).2.roundTrip.Result = some bytes ∧
        (ReturnBytes jsonMarshal httpCode id result err).2.roundTrip.Error = none) ∧
    (err = none →
      (result = none ∨ ∃ v, result = some v ∧ (jsonMarshal v = none ∨ jsonMarshal v = some "")) →
      (ReturnBytes jsonMarshal httpCode id result err).2.roundTrip.Result = none ∧
        (ReturnBytes jsonMarshal httpCode id result err).2.roundTrip.Error = none) := by
  obtain ⟨-, hid, herr, hres⟩ :=
    roundTrip_fields (ReturnBytes jsonMarshal httpCode id result err).2
  have hsame : (ReturnBytes jsonMarshal httpCode id result err).2.Id = id := by
    cases err <;> cases result <;> rfl
  rw [hsame] at hid
  rw [hid, herr, hres]
  refine ⟨rfl, ofString_jsonText_iff id, ?_, ?_⟩
  · intro s hs
    rw [hs, jsonText_ofString]
  cases err with
  | some e =>
    refine ⟨by simp [ReturnBytes], ?_, ?_, ?_⟩
    · intro e1 he
      cases he
      exact ⟨rfl, rfl⟩
    · intro v bytes he
      cases he
    · intro he
      cases he
  | none =>
    cases result with
    | none =>
      refine ⟨by simp [ReturnBytes], ?_, ?_, ?_⟩
      · intro e he
        cases he
      · intro v bytes _ hr
        cases hr
      · intro _ _
        exact ⟨rfl, rfl⟩
    | some v =>
      refine ⟨by simp [ReturnBytes], ?_, ?_, ?_⟩
      · intro e he
        cases he
      · intro v1 bytes _ hr hm hb
        cases hr
        simp [ReturnBytes, hm, hb]
      · intro _ hcase
        rcases hcase with hr | ⟨v1, hr, hm | hm⟩
        · cases hr
        · cases hr
          simp [ReturnBytes, hm]
        · cases hr
          simp [ReturnBytes, hm]

/-- C15 amended, at concrete inputs: an error comes back alone, a result
comes back alone, each with the id `7`. -/
theorem Return_roundtrip_witness :
    (ReturnBytes sampleMarshal 200 (GoString.ofString "7") (none : Option String)
        (some (GoString.ofString "boom"))).2.roundTrip =
      { JsonRPC := "2.0", Id := "7", Result := none,
        Error := some { Code := -32000, Message := "boom" } } ∧
    (ReturnBytes sampleMarshal 200 (GoString.ofString "7") (some "[1]") none).2.roundTrip.Id
      = "7" ∧
    (ReturnBytes sampleMarshal 200 (GoString.ofString "7") (some "[1]") none).2.roundTrip.Result
      = some "[1]" :=
  ⟨by decide,
   (Return_roundtrip sampleMarshal 200 (GoString.ofString "7") (some "[1]") none).2.2.1 "7" rfl,
   ((Return_roundtrip sampleMarshal 200 (GoString.ofString "7") (some "[1]") none).2.2.2.2.2.1
      "[1]" "[1]" rfl rfl rfl (by decide)).1⟩

/-! ## The dispatch pipeline: outcomes -/

/-- A run ends in at most one outcome. -/
theorem endsIn_unique {σ : Type} (out : Outcome σ) (k1 k2 : RpcOutcome)
    (h1 : out.endsIn k1) (h2 : out.endsIn k2) : k1 = k2 := by
  cases k1 <;> cases k2 <;> first
    | rfl
    | (exfalso
       obtain ⟨hc1, i1, m1, hw1⟩ := h1
       obtain ⟨hc2, i2, m2, hw2⟩ := h2
       rw [hw1] at hw2
       simp_all)

theorem replyOnly_InvalidRequest_endsIn {σ : Type} (id msg : String) (w : σ) :
    (replyOnly (InvalidRequest id msg) w).endsIn .ProtocolRejected :=
  ⟨rfl, id, msg, rfl⟩

theorem replyOnly_MethodNotFound_endsIn {σ : Type} (id name : String) (w : σ) :
    (replyOnly (MethodNotFound id name) w).endsIn .MethodNotFound :=
  ⟨rfl, id, "Method not found: " ++ name, rfl⟩

theorem replyOnly_ErrorReturn_endsIn {σ α : Type} (jsonMarshal : α → Option RawMessage)
    (id : String) (e : GoError) (w : σ) :
    (replyOnly (ErrorReturn jsonMarshal id e) w).endsIn .AuthFailed :=
  ⟨rfl, id, e, rfl⟩

/-- The invocation of a method whose `Execute` returns ends in `ExecutedOk` or
`ExecutedErr` with one envelope, and does not panic. -/
theorem invokeMethod_endsIn {σ α : Type} (jsonMarshal : α → Option RawMessage)
    (m : RpcMethod σ α) (req : RpcRequest) (c : Context) (w : σ)
    (hret : ∃ r e w1, m.Execute c req.Params w = (.returned r e, w1)) :
    (invokeMethod jsonMarshal m req c w).writes.length = 1 ∧
    (invokeMethod jsonMarshal m req c w).panic = none ∧
    ((invokeMethod jsonMarshal m req c w).endsIn .ExecutedOk ∨
      (invokeMethod jsonMarshal m req c w).endsIn .ExecutedErr) := by
  obtain ⟨r, e, w1, hexec⟩ := hret
  cases e with
  | some e =>
    rw [invokeMethod_returned_err jsonMarshal m req c w w1 r e hexec]
    exact ⟨rfl, rfl, Or.inr ⟨rfl, req.Id, e, rfl⟩⟩
  | none =>
    rw [invokeMethod_returned_ok jsonMarshal m req c w w1 r hexec]
    refine ⟨rfl, rfl, Or.inl ⟨rfl, req.Id, ?_⟩⟩
    cases r with
    | none => exact ⟨none, rfl⟩
    | some v => exact ⟨jsonMarshal v, rfl⟩

/-- The invocation of a method whose `Execute` panics writes no envelope
and ends in none of the outcomes. -/
theorem invokeMethod_panicked_no_outcome {σ α : Type} (jsonMarshal : α → Option RawMessage)
    (m : RpcMethod σ α) (req : RpcRequest) (c : Context) (w w1 : σ) (reason : String)
    (hexec : m.Execute c req.Params w = (.panicked reason, w1)) :
    (invokeMethod jsonMarshal m req c w).panic = some reason ∧
    (invokeMethod jsonMarshal m req c w).writes = [] ∧
    ∀ k, ¬ (invokeMethod jsonMarshal m req c w).endsIn k := by
  rw [invokeMethod_panicked jsonMarshal m req c w w1 reason hexec]
  refine ⟨rfl, rfl, ?_⟩
  intro k hk
  cases k <;> (obtain ⟨-, i, x, hw⟩ := hk; cases hw)

/-- A run of the handler either called nothing, or is the invocation of the
method registered under the requested name. -/
theorem HandleRpcRequest_reply_or_invoke {σ α : Type} (jsonMarshal : α → Option RawMessage)
    (h : RpcHandler σ α) (ctx : GinRequest) (w : σ) :
    (∃ wr k, h.HandleRpcRequest jsonMarshal ctx w = replyOnly wr w ∧
      (replyOnly wr w).endsIn k) ∨
    (∃ req m c, ctx.body = some req ∧ h.getMethod req.Method = some m ∧
      h.HandleRpcRequest jsonMarshal ctx w = invokeMethod jsonMarshal m req c w) := by
  rcases HandleRpcRequest_cases jsonMarshal h ctx w with
    ⟨id, msg, hrun⟩ | ⟨id, name, hrun⟩ | ⟨req, m, e, -, -, -, hrun⟩ |
    ⟨req, m, hbody, -, hm, -, hrun⟩ | ⟨req, m, t, claims, hbody, -, hm, -, -, -, hrun⟩
  · exact Or.inl ⟨_, _, hrun, replyOnly_InvalidRequest_endsIn id msg w⟩
  · exact Or.inl ⟨_, _, hrun, replyOnly_MethodNotFound_endsIn id name w⟩
  · exact Or.inl ⟨_, _, hrun, replyOnly_ErrorReturn_endsIn jsonMarshal req.Id e w⟩
  · exact Or.inr ⟨req, m, _, hbody, hm, hrun⟩
  · exact Or.inr ⟨req, m, _, hbody, hm, hrun⟩

/-- C16 fails on the code: the registered method `crash` panics in `Execute`,
and for a request naming it `HandleRpcRequest` writes no envelope at all and
ends in none of the five outcomes. -/
theorem HandleRpcRequest_panic_writes_nothing :
    (extendedHandler.HandleRpcRequest sampleMarshal
        { body := some (sampleRequest "2.0" "crash"), authorization := "" } 0).writes = [] ∧
    (extendedHandler.HandleRpcRequest sampleMarshal
        { body := some (sampleRequest "2.0" "crash"), authorization := "" } 0).writes.length
      ≠ 1 ∧
    ¬ ∃ k, (extendedHandler.HandleRpcRequest sampleMarshal
        { body := some (sampleRequest "2.0" "crash"), authorization := "" } 0).endsIn k := by
  refine ⟨rfl, by decide, ?_⟩
  rintro ⟨k, hk⟩
  have hw0 : (extendedHandler.HandleRpcRequest sampleMarshal
      { body := some (sampleRequest "2.0" "crash"), authorization := "" } 0).writes = [] := rfl
  cases k <;> (obtain ⟨-, i, x, hw⟩ := hk; rw [hw0] at hw; cases hw)

/-- C16, amended. For every request, `HandleRpcRequest` writes at most one
response envelope, and exactly one of two things holds.  Either the run does
not panic, writes exactly one envelope and ends in exactly one of the
outcomes ProtocolRejected, MethodNotFound, AuthFailed, Executed(Ok) and
Executed(Err); or the method found under the requested name was invoked and
its `Execute` panicked, and then the handler writes no envelope and ends in
none of the outcomes.  The first holds whenever the registered methods return
from `Execute`. -/
theorem HandleRpcRequest_outcome_or_panic {σ α : Type} (jsonMarshal : α → Option RawMessage)
    (h : RpcHandler σ α) (ctx : GinRequest) (w : σ) :
    (h.HandleRpcRequest jsonMarshal ctx w).writes.length ≤ 1 ∧
    (((h.HandleRpcRequest jsonMarshal ctx w).panic = none ∧
        (h.HandleRpcRequest jsonMarshal ctx w).writes.length = 1 ∧
        ∃ k, (h.HandleRpcRequest jsonMarshal ctx w).endsIn k ∧
          ∀ k2, (h.HandleRpcRequest jsonMarshal ctx w).endsIn k2 → k2 = k) ∨
      (∃ req m c w1 reason, ctx.body = some req ∧ h.getMethod req.Method = some m ∧
        m.Execute c req.Params w = (.panicked reason, w1) ∧
        (h.HandleRpcRequest jsonMarshal ctx w).calls =
          [{ method := req.Method, ctx := c, params := req.Params }] ∧
        (h.HandleRpcRequest jsonMarshal ctx w).panic = some reason ∧
        (h.HandleRpcRequest jsonMarshal ctx w).writes = [] ∧
        ∀ k, ¬ (h.HandleRpcRequest jsonMarshal ctx w).endsIn k)) ∧
    ((∀ name m, h.getMethod name = some m →
        ∀ c params w0, ∃ r e w1, m.Execute c params w0 = (.returned r e, w1)) →
      (h.HandleRpcRequest jsonMarshal ctx w).panic = none ∧
      (h.HandleRpcRequest jsonMarshal ctx w).writes.length = 1 ∧
      ∃ k, (h.HandleRpcRequest jsonMarshal ctx w).endsIn k ∧
        ∀ k2, (h.HandleRpcRequest jsonMarshal ctx w).endsIn k2 → k2 = k) := by
  rcases HandleRpcRequest_reply_or_invoke jsonMarshal h ctx w with
    ⟨wr, k, hrun, hk⟩ | ⟨req, m, c, hbody, hm, hrun⟩
  · rw [hrun]
    have hgood : (replyOnly wr w).panic = none ∧ (replyOnly wr w).writes.length = 1 ∧
        ∃ k, (replyOnly wr w).endsIn k ∧ ∀ k2, (replyOnly wr w).endsIn k2 → k2 = k :=
      ⟨rfl, rfl, k, hk, fun k2 hk2 => endsIn_unique _ k2 k hk2 hk⟩
    exact ⟨Nat.le_refl 1, Or.inl hgood, fun _ => hgood⟩
  · rw [hrun]
    rcases hexec : m.Execute c req.Params w with ⟨res, w1⟩
    cases res with
    | returned r e =>
      obtain ⟨hlen, hp, hk⟩ := invokeMethod_endsIn jsonMarshal m req c w ⟨r, e, w1, hexec⟩
      have hgood : (invokeMethod jsonMarshal m req c w).panic = none ∧
          (invokeMethod jsonMarshal m req c w).writes.length = 1 ∧
          ∃ k, (invokeMethod jsonMarshal m req c w).endsIn k ∧
            ∀ k2, (invokeMethod jsonMarshal m req c w).endsIn k2 → k2 = k := by
        rcases hk with hk | hk
        · exact ⟨hp, hlen, _, hk, fun k2 hk2 => endsIn_unique _ k2 _ hk2 hk⟩
        · exact ⟨hp, hlen, _, hk, fun k2 hk2 => endsIn_unique _ k2 _ hk2 hk⟩
      exact ⟨by rw [hlen], Or.inl hgood, fun _ => hgood⟩
    | panicked reason =>
      obtain ⟨hp, hw, hno⟩ :=
        invokeMethod_panicked_no_outcome jsonMarshal m req c w w1 reason hexec
      refine ⟨by rw [hw]; exact Nat.zero_le 1, Or.inr ⟨req, m, c, w1, reason, hbody, hm, hexec,
        invokeMethod_calls jsonMarshal m req c w, hp, hw, hno⟩, ?_⟩
      intro hret
      obtain ⟨r, e, w2, hr⟩ := hret _ m hm c req.Params w
      rw [hexec] at hr
      cases hr

theorem sampleHandler_returns :
    ∀ name m, sampleHandler.getMethod name = some m →
      ∀ c params w0, ∃ r e w1, m.Execute c params w0 = (.returned r e, w1) := by
  intro name m hm c params w0
  simp only [sampleHandler, RpcHandler.getMethod, RpcHandler.RegisterMethod, Function.update,
    spyMethod] at hm
  split_ifs at hm <;> simp at hm <;> subst hm <;> exact ⟨_, _, _, rfl⟩

/-- C16 amended, at a concrete input: the open method `ping`, called with
version 2.0 over a registry whose methods return, writes one envelope and
ends in Executed(Ok). -/
theorem HandleRpcRequest_outcome_or_panic_witness :
    (sampleHandler.HandleRpcRequest sampleMarshal
        { body := some (sampleRequest "2.0" "ping"), authorization := "" } 0).writes.length = 1 ∧
    (sampleHandler.HandleRpcRequest sampleMarshal
        { body := some (sampleRequest "2.0" "ping"), authorization := "" } 0).endsIn .ExecutedOk :=
  ⟨((HandleRpcRequest_outcome_or_panic sampleMarshal sampleHandler
      { body := some (sampleRequest "2.0" "ping"), authorization := "" } 0).2.2
      sampleHandler_returns).2.1,
   ⟨rfl, "1", some "done", rfl⟩⟩

/-! ## The dispatch pipeline: open methods, the call context, the registry -/

/-- C17. A version 2.0 request for a registered method that does not require
authentication is dispatched to `Execute` whatever the Authorization header
holds: the run is the same for every header value, `Execute` is called once
with the bare context, which has no value under any key, and what `Execute`
returns is what the envelope carries. -/
theorem HandleRpcRequest_open_method {σ α : Type} (jsonMarshal : α → Option RawMessage)
    (h : RpcHandler σ α) (w : σ) (req : RpcRequest) (m : RpcMethod σ α) (auth : String)
    (hver : req.JsonRPC = "2.0") (hm : h.getMethod req.Method = some m)
    (hopen : m.RequireAuth = false) :
    (∀ auth2, h.HandleRpcRequest jsonMarshal { body := some req, authorization := auth2 } w =
      h.HandleRpcRequest jsonMarshal { body := some req, authorization := auth } w) ∧
    (h.HandleRpcRequest jsonMarshal { body := some req, authorization := auth } w).calls =
      [{ method := req.Method, ctx := Context.Background, params := req.Params }] ∧
    (∀ key, Context.Background.Value key = none) ∧
    (∀ r w1, m.Execute Context.Background req.Params w = (.returned r none, w1) →
      (h.HandleRpcRequest jsonMarshal { body := some req, authorization := auth } w).writes =
          [SuccessReturn jsonMarshal req.Id r] ∧
        (h.HandleRpcRequest jsonMarshal { body := some req, authorization := auth } w).world
          = w1) ∧
    (∀ r e w1, m.Execute Context.Background req.Params w = (.returned r (some e), w1) →
      (h.HandleRpcRequest jsonMarshal { body := some req, authorization := auth } w).writes =
        [ErrorReturn jsonMarshal req.Id e]) := by
  have hrun : ∀ a, h.HandleRpcRequest jsonMarshal { body := some req, authorization := a } w =
      invokeMethod jsonMarshal m req Context.Background w := by
    intro a
    unfold RpcHandler.HandleRpcRequest
    simp [hver, hm, hopen]
  refine ⟨fun a => (hrun a).trans (hrun auth).symm, ?_, fun _ => rfl, ?_, ?_⟩
  · rw [hrun, invokeMethod_calls]
  · intro r w1 hexec
    rw [hrun, invokeMethod_returned_ok jsonMarshal m req _ w w1 r hexec]
    exact ⟨rfl, rfl⟩
  · intro r e w1 hexec
    rw [hrun, invokeMethod_returned_err jsonMarshal m req _ w w1 r e hexec]

/-- C17 at a concrete input: `ping` is answered the same with no header and
with a header carrying a rejected token, and the spy is invoked. -/
theorem HandleRpcRequest_open_method_witness :
    sampleHandler.HandleRpcRequest sampleMarshal
        { body := some (sampleRequest "2.0" "ping"), authorization := "Bearer bad" } 0 =
      sampleHandler.HandleRpcRequest sampleMarshal
        { body := some (sampleRequest "2.0" "ping"), authorization := "" } 0 ∧
    (sampleHandler.HandleRpcRequest sampleMarshal
        { body := some (sampleRequest "2.0" "ping"), authorization := "" } 0).world = 1 :=
  have hthm := HandleRpcRequest_open_method sampleMarshal sampleHandler 0
    (sampleRequest "2.0" "ping") (spyMethod "ping" false) "" rfl rfl rfl
  ⟨hthm.1 "Bearer bad", (hthm.2.2.2.1 (some "done") 1 rfl).2⟩

/-- C18. Every `Execute` call made for a request that resolves to a method
requiring authentication is made with a context that holds, under the key
`user_id`, the int64 `UserID` and, under the key `username`, the string
`Username` of the claims `ParseToken` returned for the token of the
`Bearer <t>` header. -/
theorem HandleRpcRequest_context_identity {σ α : Type} (jsonMarshal : α → Option RawMessage)
    (h : RpcHandler σ α) (ctx : GinRequest) (w : σ) (req : RpcRequest) (m : RpcMethod σ α)
    (call : ExecCall)
    (hbody : ctx.body = some req) (hm : h.getMethod req.Method = some m)
    (hauth : m.RequireAuth = true)
    (hcall : call ∈ (h.HandleRpcRequest jsonMarshal ctx w).calls) :
    ∃ t claims, ctx.authorization = "Bearer " ++ t ∧
      h.jwtManager.ParseToken t = (some claims, none) ∧
      call.ctx.Value "user_id" = some (.int64 claims.UserID) ∧
      call.ctx.Value "username" = some (.string claims.Username) := by
  rcases HandleRpcRequest_cases jsonMarshal h ctx w with
    ⟨id, msg, hrun⟩ | ⟨id, name, hrun⟩ | ⟨req1, m1, e, -, -, -, hrun⟩ |
    ⟨req1, m1, hbody1, -, hm1, hopen1, hrun⟩ |
    ⟨req1, m1, t, claims, hbody1, -, hm1, -, hhdr, htok, hrun⟩
  · rw [hrun] at hcall; simp [replyOnly] at hcall
  · rw [hrun] at hcall; simp [replyOnly] at hcall
  · rw [hrun] at hcall; simp [replyOnly] at hcall
  · rw [hbody] at hbody1
    cases hbody1
    rw [hm] at hm1
    cases hm1
    rw [hauth] at hopen1
    cases hopen1
  · rw [hrun, invokeMethod_calls] at hcall
    rw [List.mem_singleton] at hcall
    subst hcall
    exact ⟨t, claims, hhdr, htok, rfl, rfl⟩

/-- C18 at a concrete input: `user.info` called with the token `good`, which
the manager resolves to user 7 named `ann`. -/
theorem HandleRpcRequest_context_identity_witness :
    ∃ t claims, "Bearer good" = "Bearer " ++ t ∧
      sampleManager.ParseToken t = (some claims, none) ∧
      Context.Value [("username", CtxValue.string "ann"), ("user_id", CtxValue.int64 7)] "user_id"
        = some (.int64 claims.UserID) ∧
      Context.Value [("username", CtxValue.string "ann"), ("user_id", CtxValue.int64 7)] "username"
        = some (.string claims.Username) :=
  HandleRpcRequest_context_identity sampleMarshal sampleHandler
    { body := some (sampleRequest "2.0" "user.info"), authorization := "Bearer good" } 0
    (sampleRequest "2.0" "user.info") (spyMethod "user.info" true)
    { method := "user.info"
      ctx := [("username", CtxValue.string "ann"), ("user_id", CtxValue.int64 7)]
      params := "" }
    rfl rfl rfl (by decide)

/-- C19. After `RegisterMethod(m)` the lookup of `m.Name()` returns `m`;
registering a second method with the same name afterwards makes the lookup
return the second; and the lookup of every other name is as before. -/
theorem RegisterMethod_getMethod {σ α : Type} (h : RpcHandler σ α) (m : RpcMethod σ α) :
    (h.RegisterMethod m).getMethod m.Name = some m ∧
    (∀ m2 : RpcMethod σ α, m2.Name = m.Name →
      ((h.RegisterMethod m).RegisterMethod m2).getMethod m.Name = some m2) ∧
    (∀ name, name ≠ m.Name → (h.RegisterMethod m).getMethod name = h.getMethod name) := by
  refine ⟨?_, ?_, ?_⟩
  · simp [RpcHandler.RegisterMethod, RpcHandler.getMethod]
  · intro m2 hname
    simp [RpcHandler.RegisterMethod, RpcHandler.getMethod, hname]
  · intro name hname
    simp [RpcHandler.RegisterMethod, RpcHandler.getMethod, Function.update_noteq hname]

/-! ## The outer guard -/

/-- The guard after a panic of the chain: the envelope it adds is the one
`Return` builds from a nil result and a nil error, with status 500 and an
empty id; it has no error field. -/
theorem HttpRecover_panic {σ α : Type} (jsonMarshal : α → Option RawMessage)
    (next : σ → Outcome σ) (w : σ) (reason : String) (hp : (next w).panic = some reason) :
    (HttpRecover jsonMarshal next w).writes =
      (next w).writes ++
        [(StatusInternalServerError,
          { JsonRPC := "2.0", Id := "", Result := none, Error := none })] ∧
    (HttpRecover jsonMarshal next w).panic = none := by
  simp [HttpRecover, hp, Return, JsonRPCVersion]

/-- The guard leaves a run that did not panic as it is. -/
theorem HttpRecover_no_panic {σ α : Type} (jsonMarshal : α → Option RawMessage)
    (next : σ → Outcome σ) (w : σ) (hp : (next w).panic = none) :
    HttpRecover jsonMarshal next w = next w := by
  unfold HttpRecover
  simp only [hp]

/-- C20, evaluated where it fails: the method `crash` panics in `Execute`, so
the handler writes nothing, and the guard `HttpRecover` then writes exactly
one envelope, with status 500 and an empty id, whose error field is nil:
the envelope carries neither an error nor the generic code. -/
theorem HttpRecover_panic_envelope_has_no_error :
    (extendedHandler.HandleRpcRequest sampleMarshal
        { body := some (sampleRequest "2.0" "crash"), authorization := "" } 0).panic
      = some "boom" ∧
    (extendedHandler.HandleRpcRequest sampleMarshal
        { body := some (sampleRequest "2.0" "crash"), authorization := "" } 0).writes = [] ∧
    (HttpRecover sampleMarshal
        (extendedHandler.HandleRpcRequest sampleMarshal
          { body := some (sampleRequest "2.0" "crash"), authorization := "" }) 0).writes =
      [(500, { JsonRPC := "2.0", Id := "", Result := none, Error := none })] ∧
    (HttpRecover sampleMarshal
        (extendedHandler.HandleRpcRequest sampleMarshal
          { body := some (sampleRequest "2.0" "crash"), authorization := "" }) 0).panic = none :=
  ⟨rfl, rfl, rfl, rfl⟩

/-! ## The dispatch pipeline: the transport status -/

theorem invokeMethod_status {σ α : Type} (jsonMarshal : α → Option RawMessage)
    (m : RpcMethod σ α) (req : RpcRequest) (c : Context) (w : σ) :
    ∀ wr ∈ (invokeMethod jsonMarshal m req c w).writes, wr.1 = StatusOK := by
  intro wr hwr
  rcases hx : m.Execute c req.Params w with ⟨r, w1⟩
  cases r with
  | panicked reason =>
    rw [invokeMethod_panicked jsonMarshal m req c w w1 reason hx] at hwr
    simp at hwr
  | returned result err =>
    cases err with
    | none =>
      rw [invokeMethod_returned_ok jsonMarshal m req c w w1 result hx] at hwr
      simp only [List.mem_singleton] at hwr
      subst hwr
      cases result <;> rfl
    | some e =>
      rw [invokeMethod_returned_err jsonMarshal m req c w w1 result e hx] at hwr
      simp only [List.mem_singleton] at hwr
      subst hwr
      rfl

/-- C21 fails on the code: a request whose body does not decode is answered
with the success status 200, the error riding inside the envelope. -/
theorem HandleRpcRequest_unparseable_body_status_ok :
    (sampleHandler.HandleRpcRequest sampleMarshal { body := none, authorization := "" } 0).writes =
      [(200, { JsonRPC := "2.0", Id := "", Result := none,
               Error := some { Code := -32600, Message := "Invalid JSON" } })] :=
  rfl

/-- C21, amended. `HandleRpcRequest` never uses a transport-level failure
signal: every envelope it writes goes out with status 200.  A body that does
not decode is answered with code -32600 and the message `Invalid JSON`, every
run that ends before `Execute` (unsupported version, method not found,
authorization failure) with one envelope carrying an error, and an error
returned by `Execute` with one envelope carrying it under code -32000. -/
theorem HandleRpcRequest_status_always_ok {σ α : Type} (jsonMarshal : α → Option RawMessage)
    (h : RpcHandler σ α) (ctx : GinRequest) (w : σ) :
    (∀ wr ∈ (h.HandleRpcRequest jsonMarshal ctx w).writes, wr.1 = StatusOK) ∧
    (ctx.body = none → (h.HandleRpcRequest jsonMarshal ctx w).writes =
      [(StatusOK, { JsonRPC := "2.0", Id := "", Result := none,
                    Error := some { Code := -32600, Message := "Invalid JSON" } })]) ∧
    ((h.HandleRpcRequest jsonMarshal ctx w).calls = [] →
      ∃ id e, (h.HandleRpcRequest jsonMarshal ctx w).writes =
        [(StatusOK, { JsonRPC := "2.0", Id := id, Result := none, Error := some e })]) ∧
    (∀ req m c r e w1, ctx.body = some req → h.getMethod req.Method = some m →
      (h.HandleRpcRequest jsonMarshal ctx w).calls =
        [{ method := req.Method, ctx := c, params := req.Params }] →
      m.Execute c req.Params w = (.returned r (some e), w1) →
      (h.HandleRpcRequest jsonMarshal ctx w).writes =
        [(StatusOK, { JsonRPC := "2.0", Id := req.Id, Result := none,
                      Error := some { Code := -32000, Message := e } })]) := by
  refine ⟨?_, ?_, ?_, ?_⟩
  · rcases HandleRpcRequest_cases jsonMarshal h ctx w with
      ⟨id, msg, hrun⟩ | ⟨id, name, hrun⟩ | ⟨req, m, e, -, -, -, hrun⟩ |
      ⟨req, m, -, -, -, -, hrun⟩ | ⟨req, m, t, claims, -, -, -, -, -, -, hrun⟩
    · rw [hrun]; intro wr hwr
      simp only [replyOnly, List.mem_singleton] at hwr
      subst hwr; rfl
    · rw [hrun]; intro wr hwr
      simp only [replyOnly, List.mem_singleton] at hwr
      subst hwr; rfl
    · rw [hrun]; intro wr hwr
      simp only [replyOnly, List.mem_singleton] at hwr
      subst hwr; rfl
    · rw [hrun]; exact invokeMethod_status jsonMarshal m req _ w
    · rw [hrun]; exact invokeMethod_status jsonMarshal m req _ w
  · intro hnone
    unfold RpcHandler.HandleRpcRequest
    simp only [hnone]
    rfl
  · intro hcalls
    rcases HandleRpcRequest_cases jsonMarshal h ctx w with
      ⟨id, msg, hrun⟩ | ⟨id, name, hrun⟩ | ⟨req, m, e, -, -, -, hrun⟩ |
      ⟨req, m, -, -, -, -, hrun⟩ | ⟨req, m, t, claims, -, -, -, -, -, -, hrun⟩
    · rw [hrun]; exact ⟨id, _, rfl⟩
    · rw [hrun]; exact ⟨id, _, rfl⟩
    · rw [hrun]; exact ⟨req.Id, _, rfl⟩
    · rw [hrun, invokeMethod_calls] at hcalls; cases hcalls
    · rw [hrun, invokeMethod_calls] at hcalls; cases hcalls
  · intro req m c r e w1 hbody hm hcalls hexec
    have hne : (h.HandleRpcRequest jsonMarshal ctx w).calls ≠ [] := by
      rw [hcalls]; exact List.cons_ne_nil _ _
    obtain ⟨req1, m1, c1, hbody1, hm1, hrun⟩ := HandleRpcRequest_reaches jsonMarshal h ctx w hne
    rw [hbody] at hbody1
    cases hbody1
    rw [hm] at hm1
    cases hm1
    have hc : c1 = c := by
      rw [hrun, invokeMethod_calls] at hcalls
      simpa using hcalls
    subst hc
    rw [hrun, invokeMethod_returned_err jsonMarshal m req c1 w w1 r e hexec]
    rfl

/-! ## The token check -/

/-- C22. `ParseToken` returns exactly one of: claims with a nil error, when
the library accepted the token, its claims have the expected type and it is
valid; nil claims with `ErrTokenExpired`, when the library failed with an
error that is the expiry error; nil claims with `ErrTokenInvalid`, for every
other failure of the library or a token that is not valid.  The two
sentinel errors differ. -/
theorem ParseToken_results (jm : JWTManager) (t : String) :
    ((∃ claims, jm.ParseToken t = (some claims, none) ∧
        jm.parseWithClaims t = .ok { claims := some claims, valid := true }) ∨
     (jm.ParseToken t = (none, some ErrTokenExpired) ∧
        ∃ err, jm.parseWithClaims t = .error err ∧ err.isExpired = true) ∨
     (jm.ParseToken t = (none, some ErrTokenInvalid) ∧
        ((∃ err, jm.parseWithClaims t = .error err ∧ err.isExpired = false) ∨
         (∃ token, jm.parseWithClaims t = .ok token ∧
            (token.claims = none ∨ token.valid = false))))) ∧
    ErrTokenExpired ≠ ErrTokenInvalid := by
  refine ⟨?_, by decide⟩
  unfold JWTManager.ParseToken
  cases hp : jm.parseWithClaims t with
  | error err =>
    cases he : err.isExpired with
    | true => exact Or.inr (Or.inl ⟨by simp [he], err, rfl, he⟩)
    | false => exact Or.inr (Or.inr ⟨by simp [he], Or.inl ⟨err, rfl, he⟩⟩)
  | ok token =>
    rcases token with ⟨c, v⟩
    cases c with
    | none => exact Or.inr (Or.inr ⟨rfl, Or.inr ⟨_, rfl, Or.inl rfl⟩⟩)
    | some claims =>
      cases v with
      | false => exact Or.inr (Or.inr ⟨rfl, Or.inr ⟨_, rfl, Or.inr rfl⟩⟩)
      | true => exact Or.inl ⟨claims, rfl, rfl⟩

/-- C22 at concrete inputs: an accepted, an expired and a malformed token. -/
theorem ParseToken_results_witness :
    sampleManager.ParseToken "good" = (some { UserID := 7, Username := "ann" }, none) ∧
    sampleManager.ParseToken "old" = (none, some ErrTokenExpired) ∧
    sampleManager.ParseToken "invalid.token.here" = (none, some ErrTokenInvalid) ∧
    ErrTokenExpired ≠ ErrTokenInvalid :=
  ⟨by decide, by decide, by decide, (ParseToken_results sampleManager "good").2⟩

/-! ## The hub: the order of the routing rules -/

/-- C30. Routing is decided by `ReceiverID` first.  An event with
`ReceiverID > 0` is handled as one non-blocking send to the client
registered for the receiver, or as nothing when there is none, whatever its
`GroupID` and member list: whenever the handling returns, every queue other
than the one registered for the receiver is unchanged, queues of listed
group members included.  An event with `ReceiverID <= 0` and either
`GroupID <= 0` or an empty member list leaves the hub exactly as it was. -/
theorem handleMessage_routing (h : Hub) (msg : Message) :
    (msg.ReceiverID > 0 →
      (∀ c, h.clients msg.ReceiverID = some c → h.handleMessage msg = h.trySendTo c msg) ∧
      (h.clients msg.ReceiverID = none → h.handleMessage msg = .ok h) ∧
      (∀ h2, h.handleMessage msg = .ok h2 →
        ∀ q, (∀ c, h.clients msg.ReceiverID = some c → q ≠ c.send) → h2.chans q = h.chans q)) ∧
    (msg.ReceiverID ≤ 0 → (msg.GroupID ≤ 0 ∨ msg.GroupMembers = []) →
      h.handleMessage msg = .ok h) := by
  constructor
  · intro hrecv
    refine ⟨fun c hc => handleMessage_registered h msg c hrecv hc,
      fun hnone => handleMessage_unregistered h msg hrecv hnone, ?_⟩
    intro h2 hrun q hq
    cases hc : h.clients msg.ReceiverID with
    | none =>
      rw [handleMessage_unregistered h msg hrecv hc] at hrun
      cases hrun
      rfl
    | some c =>
      rw [handleMessage_registered h msg c hrecv hc] at hrun
      obtain ⟨-, hother, -⟩ := trySendTo_effect hrun
      exact hother q (hq c hc)
  · intro hrecv hnogroup
    have hnot : ¬ msg.ReceiverID > 0 := not_lt.2 hrecv
    have hg : ¬ (msg.GroupID > 0 ∧ msg.GroupMembers.length > 0) := by
      rintro ⟨hgid, hlen⟩
      rcases hnogroup with hle | hempty
      · exact absurd hgid (not_lt.2 hle)
      · rw [hempty] at hlen
        simp at hlen
    simp [Hub.handleMessage, hnot, hg]

/-- C30 at a concrete input: an event from user 3 to user 2 that also names
group 100 with members 1, 2 and 3 reaches the queue of user 2 and leaves the
queue of the group member 1 as it was; an event with no receiver and an empty
member list changes nothing. -/
theorem handleMessage_routing_witness :
    (∃ h2, sampleHub.handleMessage (sampleMessage 3 2 100 [1, 2, 3]) = .ok h2 ∧
      (h2.chans 2).buf = [sampleMessage 3 2 100 [1, 2, 3]] ∧
      h2.chans 1 = sampleHub.chans 1) ∧
    sampleHub.handleMessage (sampleMessage 3 0 100 []) = .ok sampleHub := by
  have hthm := handleMessage_routing sampleHub (sampleMessage 3 2 100 [1, 2, 3])
  have hthm2 := handleMessage_routing sampleHub (sampleMessage 3 0 100 [])
  refine ⟨⟨_, rfl, rfl, ?_⟩, hthm2.2 (by decide) (Or.inr rfl)⟩
  apply (hthm.1 (by decide)).2.2 _ rfl 1
  intro c hc
  have hc2 : c = sampleClient 2 := by
    have : sampleHub.clients 2 = some c := hc
    simpa [sampleHub] using this.symm
  subst hc2
  decide

/-! ## message.send -/

/-- C23, evaluated where it fails: user 1 is a member of group 100 and has no
friendship with user 2; it calls `message.send` with `receiver_id` 2 and
`group_id` 100.  The friendship check sits in the `else` of `if p.GroupID > 0`
and is skipped: `Execute` returns the message without error, the message is
persisted, and the event handed to the hub names user 2 as receiver, so the
hub puts it on the queue of user 2. -/
theorem MessageSend_reaches_non_friend :
    sampleStorage.acceptedFriendship 1 2 = none ∧
    ∃ msg w1,
      MessageSendMethod.Execute (unmarshalTo (sendParams 2 100 1 "hi" "")) 0
          (callerContext 1 "ann") "" sampleWorld = (.returned (some (.message msg)) none, w1) ∧
      w1.db.messages = [msg] ∧ msg.SenderID = 1 ∧ msg.ReceiverID = 2 ∧
      ∃ event, w1.broadcasts = [event] ∧ event.ReceiverID = 2 ∧
        ∃ h2, sampleHub.handleMessage event = .ok h2 ∧ (h2.chans 2).buf = [event] :=
  ⟨rfl, _, _, rfl, rfl, rfl, rfl, _, rfl, rfl, _, rfl, rfl⟩

/-- What the friendship check does enforce: a call with no group
(`group_id` not positive) to a receiver with whom the caller has no accepted
friendship returns an error and leaves the store and the hub untouched. -/
theorem MessageSend_private_requires_friend
    (unmarshal : RawMessage → Except GoError MessageSendParams) (now : Int) (params : RawMessage)
    (w : World) (p : MessageSendParams) (userID : Int) (username : String)
    (hp : unmarshal params = .ok p) (hgrp : p.GroupID ≤ 0)
    (hnf : w.db.acceptedFriendship userID p.ReceiverID = none) :
    ∃ e, MessageSendMethod.Execute unmarshal now (callerContext userID username) params w =
      (.returned none (some e), w) := by
  have hg : ¬ p.GroupID > 0 := not_lt.2 hgrp
  unfold MessageSendMethod.Execute
  simp only [hp]
  split_ifs with h1 h2 h3 h4 h5
  all_goals first
    | exact ⟨_, rfl⟩
    | (simp only [callerContext, Context.WithValue, Context.Value, Context.Background,
        List.lookup] at *
       simp_all [failWith])

/-- C24. `message.send` validates its params first: when `receiver_id` and
`group_id` are both 0, when the type is text (1, or 0 which defaults to text)
and the content is empty, or when the type is image or file (2 or 3) and
`file_url` is empty, `Execute` returns an error that does not depend on the
call context, the time, the store or the hub, and leaves the store and the
list of broadcast events exactly as they were. -/
theorem MessageSend_validation
    (unmarshal : RawMessage → Except GoError MessageSendParams) (params : RawMessage)
    (p : MessageSendParams) (hp : unmarshal params = .ok p)
    (hbad : (p.ReceiverID = 0 ∧ p.GroupID = 0) ∨
      ((p.MsgType = 1 ∨ p.MsgType = 0) ∧ p.Content = "") ∨
      ((p.MsgType = 2 ∨ p.MsgType = 3) ∧ p.FileURL = "")) :
    ∃ e, ∀ (now : Int) (ctx : Context) (w : World),
      MessageSendMethod.Execute unmarshal now ctx params w = (.returned none (some e), w) := by
  by_cases h0 : p.ReceiverID = 0 ∧ p.GroupID = 0
  · refine ⟨"receiver_id or group_id is required", fun now ctx w => ?_⟩
    unfold MessageSendMethod.Execute
    simp only [hp, h0, and_self, if_true]
    rfl
  · rcases hbad with hb | ⟨ht, hc⟩ | ⟨hf, hu⟩
    · exact absurd hb h0
    · refine ⟨"content is required for text message", fun now ctx w => ?_⟩
      unfold MessageSendMethod.Execute
      simp only [hp, h0, if_false]
      rcases ht with ht | ht
      · simp [ht, hc, MsgTypeText, failWith]
      · simp [ht, hc, MsgTypeText, failWith]
    · by_cases htext : p.Content = ""
      · rcases hf with hf | hf
        · refine ⟨"file_url is required for image/file message", fun now ctx w => ?_⟩
          unfold MessageSendMethod.Execute
          simp [hp, h0, hf, hu, MsgTypeText, MsgTypeImage, MsgTypeFile, failWith]
        · refine ⟨"file_url is required for image/file message", fun now ctx w => ?_⟩
          unfold MessageSendMethod.Execute
          simp [hp, h0, hf, hu, MsgTypeText, MsgTypeImage, MsgTypeFile, failWith]
      · rcases hf with hf | hf
        · refine ⟨"file_url is required for image/file message", fun now ctx w => ?_⟩
          unfold MessageSendMethod.Execute
          simp [hp, h0, hf, hu, MsgTypeText, MsgTypeImage, MsgTypeFile, failWith]
        · refine ⟨"file_url is required for image/file message", fun now ctx w => ?_⟩
          unfold MessageSendMethod.Execute
          simp [hp, h0, hf, hu, MsgTypeText, MsgTypeImage, MsgTypeFile, failWith]

/-- C24 at the inputs of the test suite: no receiver and no group; a text
message to user 1 without content; an image message without `file_url`. -/
theorem MessageSend_validation_witness :
    (∃ e, ∀ (now : Int) (ctx : Context) (w : World),
      MessageSendMethod.Execute (unmarshalTo (sendParams 0 0 0 "Hello" "")) now ctx "" w =
        (.returned none (some e), w)) ∧
    (∃ e, ∀ (now : Int) (ctx : Context) (w : World),
      MessageSendMethod.Execute (unmarshalTo (sendParams 1 0 1 "" "")) now ctx "" w =
        (.returned none (some e), w)) ∧
    (∃ e, ∀ (now : Int) (ctx : Context) (w : World),
      MessageSendMethod.Execute (unmarshalTo (sendParams 1 0 2 "" "")) now ctx "" w =
        (.returned none (some e), w)) :=
  ⟨MessageSend_validation _ "" (sendParams 0 0 0 "Hello" "") rfl (Or.inl ⟨rfl, rfl⟩),
   MessageSend_validation _ "" (sendParams 1 0 1 "" "") rfl (Or.inr (Or.inl ⟨Or.inl rfl, rfl⟩)),
   MessageSend_validation _ "" (sendParams 1 0 2 "" "") rfl (Or.inr (Or.inr ⟨Or.inl rfl, rfl⟩))⟩

/-! ## user.register -/

/-- The length checks of `user.register` as the code makes them, on the
length in bytes: a request with an empty user name or password, a user name
of fewer than 3 or more than 50 bytes, or a password of fewer than 6 bytes is
rejected with an error that does not depend on the store, which is left
untouched. -/
theorem UserRegister_validation_bytes
    (unmarshal : RawMessage → Except GoError UserRegisterParams)
    (setPassword : String → Except GoError String)
    (generateToken : Int → String → Except GoError String) (params : RawMessage)
    (p : UserRegisterParams) (hp : unmarshal params = .ok p)
    (hbad : p.Username = "" ∨ p.Password = "" ∨ goLen p.Username < 3 ∨ goLen p.Username > 50 ∨
      goLen p.Password < 6) :
    ∃ e, ∀ (ctx : Context) (w : World),
      UserRegisterMethod.Execute unmarshal setPassword generateToken ctx params w =
        (.returned none (some e), w) := by
  by_cases h1 : p.Username = "" ∨ p.Password = ""
  · refine ⟨"username and password are required", fun ctx w => ?_⟩
    unfold UserRegisterMethod.Execute
    simp only [hp, h1, if_true]
    rfl
  · by_cases h2 : goLen p.Username < 3 ∨ goLen p.Username > 50
    · refine ⟨"username must be 3-50 characters", fun ctx w => ?_⟩
      unfold UserRegisterMethod.Execute
      simp only [hp, h1, h2, if_true, if_false]
      rfl
    · have h3 : goLen p.Password < 6 := by
        rcases hbad with hb | hb | hb | hb | hb
        · exact absurd (Or.inl hb) h1
        · exact absurd (Or.inr hb) h1
        · exact absurd (Or.inl hb) h2
        · exact absurd (Or.inr hb) h2
        · exact hb
      refine ⟨"password must be at least 6 characters", fun ctx w => ?_⟩
      unfold UserRegisterMethod.Execute
      simp only [hp, h1, h2, h3, if_true, if_false]
      rfl

/-- C25, evaluated where it fails: the lengths are taken in bytes, not in
characters.  A user name of two characters that takes four bytes passes the
check and the user is created; a user name of twenty-six characters that
takes fifty-two bytes is rejected with `username must be 3-50 characters`. -/
theorem UserRegister_counts_bytes :
    shortName.length = 2 ∧ goLen shortName = 4 ∧
    (∃ user w1,
      UserRegisterMethod.Execute (unmarshalTo (registerParams shortName "password123"))
          sampleSetPassword sampleGenerateToken Context.Background "" sampleWorld =
        (.returned (some (.registered user "tok")) none, w1) ∧
      w1.db.users = [user] ∧ user.Username = shortName) ∧
    wideName.length = 26 ∧ goLen wideName = 52 ∧
    UserRegisterMethod.Execute (unmarshalTo (registerParams wideName "password123"))
        sampleSetPassword sampleGenerateToken Context.Background "" sampleWorld =
      (.returned none (some "username must be 3-50 characters"), sampleWorld) :=
  ⟨by decide, by decide, ⟨_, _, rfl, rfl, rfl⟩, by decide, by decide, rfl⟩

/-! ## friend.accept -/

theorem find_map_replace (l : List Friend) (k : Int) (found saved : Friend)
    (hfind : l.find? (fun f => f.ID = k) = some found) (hid : saved.ID = found.ID) :
    (l.map (fun f => if f.ID = found.ID then saved else f)).find? (fun f => f.ID = k) =
      some saved := by
  have hk : found.ID = k := by
    have := List.find?_some hfind
    simpa using this
  induction l with
  | nil => simp at hfind
  | cons a rest ih =>
    by_cases ha : a.ID = k
    · simp [List.find?, ha] at hfind
      subst hfind
      simp [List.find?, ha, hid]
    · have hrest : rest.find? (fun f => f.ID = k) = some found := by
        simpa [List.find?, ha] using hfind
      have hne : a.ID ≠ found.ID := by rw [hk]; exact ha
      simp [List.find?, ha, hne, ih hrest]

/-- C26. `friend.accept` with decodable params:
when the request exists, the caller is its addressee, its status is pending
and the store accepts the write, the stored request gets the status accepted
(`accept` true) or rejected (`accept` false), nothing else in the store
changes, and exactly one event is handed to the hub, addressed to the
requester; when `request_id` is 0, the request is unknown, the caller is not
the addressee or the status is not pending, `Execute` returns an error and
leaves the store and the list of broadcast events as they were; and whatever
the call context, the store and the broadcasts change only if the caller is
the addressee of a pending request. -/
theorem FriendAccept_effect
    (unmarshal : RawMessage → Except GoError FriendAcceptParams) (now : Int)
    (params : RawMessage) (w : World) (p : FriendAcceptParams)
    (hp : unmarshal params = .ok p) :
    (∀ userID username friend, p.RequestID ≠ 0 →
      w.db.friends.find? (fun f => f.ID = p.RequestID) = some friend →
      friend.FriendID = userID → friend.Status = FriendStatusPending →
      w.db.writeError = none →
      ∃ value w1,
        FriendAcceptMethod.Execute unmarshal now (callerContext userID username) params w =
          (.returned (some value) none, w1) ∧
        w1.db.friends.find? (fun f => f.ID = p.RequestID) =
          some { friend with
            Status := if p.Accept then FriendStatusAccepted else FriendStatusRejected } ∧
        w1.db.friends =
          w.db.friends.map (fun f => if f.ID = friend.ID then
            { friend with
              Status := if p.Accept then FriendStatusAccepted else FriendStatusRejected }
            else f) ∧
        w1.db.users = w.db.users ∧ w1.db.messages = w.db.messages ∧
        w1.db.groups = w.db.groups ∧ w1.db.groupMembers = w.db.groupMembers ∧
        ∃ event, w1.broadcasts = w.broadcasts ++ [event] ∧
          event.ReceiverID = friend.UserID ∧ event.SenderID = userID ∧
          event.Kind = (if p.Accept then "friend_accepted" else "friend_rejected")) ∧
    (∀ userID username,
      (p.RequestID = 0 ∨ w.db.friends.find? (fun f => f.ID = p.RequestID) = none ∨
        (∃ friend, w.db.friends.find? (fun f => f.ID = p.RequestID) = some friend ∧
          (friend.FriendID ≠ userID ∨ friend.Status ≠ FriendStatusPending))) →
      ∃ e, FriendAcceptMethod.Execute unmarshal now (callerContext userID username) params w =
        (.returned none (some e), w)) ∧
    (∀ ctx, (FriendAcceptMethod.Execute unmarshal now ctx params w).2 ≠ w →
      ∃ userID friend, ctx.Value "user_id" = some (.int64 userID) ∧
        w.db.friends.find? (fun f => f.ID = p.RequestID) = some friend ∧
        friend.FriendID = userID ∧ friend.Status = FriendStatusPending) := by
  refine ⟨?_, ?_, ?_⟩
  · intro userID username friend hid hfind haddr hpend hwrite
    have hrun : FriendAcceptMethod.Execute unmarshal now (callerContext userID username) params w =
        (.returned (some (.note "message" ("friend request " ++
            (if p.Accept then "friend_accepted" else "friend_rejected").drop 7))) none,
          { db := { w.db with friends := w.db.friends.map (fun f => if f.ID = friend.ID then
                { friend with
                  Status := if p.Accept then FriendStatusAccepted else FriendStatusRejected }
                else f) }
            broadcasts := w.broadcasts ++
              [{ ID := 0, Kind := if p.Accept then "friend_accepted" else "friend_rejected",
                 SenderID := userID, SenderName := username, ReceiverID := friend.UserID,
                 GroupID := 0, GroupName := "", MsgType := 0,
                 Content := if p.Accept then "accepted your friend request"
                   else "rejected your friend request",
                 FileURL := "", FileName := "", FileSize := 0, CreatedAt := now,
                 GroupMembers := [] }] }) := by
      unfold FriendAcceptMethod.Execute
      simp only [hp, hid, if_false, callerContext, Context.WithValue, Context.Value,
        Context.Background, List.lookup]
      simp [hfind, haddr, hpend, hwrite]
    refine ⟨_, _, hrun, ?_, rfl, rfl, rfl, rfl, rfl, _, rfl, rfl, rfl, rfl⟩
    exact find_map_replace w.db.friends p.RequestID friend _ hfind rfl
  · intro userID username hbad
    unfold FriendAcceptMethod.Execute
    simp only [hp, callerContext, Context.WithValue, Context.Value, Context.Background,
      List.lookup]
    rcases hbad with h0 | hnone | ⟨friend, hfind, hwho | hstat⟩
    · exact ⟨"request_id is required", by simp [h0, failWith]⟩
    · by_cases h0 : p.RequestID = 0
      · exact ⟨"request_id is required", by simp [h0, failWith]⟩
      · exact ⟨"friend request not found", by simp [h0, hnone, failWith]⟩
    · by_cases h0 : p.RequestID = 0
      · exact ⟨"request_id is required", by simp [h0, failWith]⟩
      · exact ⟨"not authorized to accept this request", by simp [h0, hfind, hwho, failWith]⟩
    · by_cases h0 : p.RequestID = 0
      · exact ⟨"request_id is required", by simp [h0, failWith]⟩
      · by_cases hwho : friend.FriendID = userID
        · exact ⟨"request already processed", by simp [h0, hfind, hwho, hstat, failWith]⟩
        · exact ⟨"not authorized to accept this request", by simp [h0, hfind, hwho, failWith]⟩
  · intro ctx hchange
    unfold FriendAcceptMethod.Execute at hchange
    simp only [hp] at hchange
    by_cases h0 : p.RequestID = 0
    · simp [h0, failWith] at hchange
    · simp only [h0, if_false] at hchange
      cases hu : ctx.Value "user_id" with
      | none => simp [hu] at hchange
      | some v =>
        cases v with
        | string sv => simp [hu] at hchange
        | int64 userID =>
          cases hn : ctx.Value "username" with
          | none => simp [hu, hn] at hchange
          | some nv =>
            cases nv with
            | int64 iv => simp [hu, hn] at hchange
            | string username =>
              cases hfind : w.db.friends.find? (fun f => f.ID = p.RequestID) with
              | none => simp [hu, hn, hfind, failWith] at hchange
              | some friend =>
                by_cases hwho : friend.FriendID = userID
                · by_cases hstat : friend.Status = FriendStatusPending
                  · exact ⟨userID, friend, rfl, rfl, hwho, hstat⟩
                  · simp [hu, hn, hfind, hwho, hstat, failWith] at hchange
                · simp [hu, hn, hfind, hwho, failWith] at hchange

/-- C26 at the scenario of the test suite: user 2 accepts request 5 of user 1;
the stored status becomes accepted and the one event goes to user 1. -/
theorem FriendAccept_effect_witness :
    ∃ value w1,
      FriendAcceptMethod.Execute (unmarshalTo { RequestID := 5, Accept := true }) 0
          (callerContext 2 "bob") "" requestWorld = (.returned (some value) none, w1) ∧
      w1.db.friends.find? (fun f => f.ID = 5) =
        some { ID := 5, UserID := 1, FriendID := 2, Status := FriendStatusAccepted } ∧
      ∃ event, w1.broadcasts = [] ++ [event] ∧ event.ReceiverID = 1 := by
  obtain ⟨value, w1, hrun, hstatus, -, -, -, -, -, event, hb, hr, -, -⟩ :=
    (FriendAccept_effect (unmarshalTo { RequestID := 5, Accept := true }) 0 "" requestWorld
      { RequestID := 5, Accept := true } rfl).1 2 "bob"
      { ID := 5, UserID := 1, FriendID := 2, Status := FriendStatusPending }
      (by decide) rfl rfl rfl rfl
  exact ⟨value, w1, hrun, hstatus, event, hb, hr⟩

/-! ## The push-channel handshake -/

/-- The token the handshake uses: the query parameter when it is not empty,
and otherwise the token of a `Bearer <t>` header, or none. -/
theorem presentedToken_cases (req : WsRequest) :
    (req.queryToken ≠ "" → presentedToken req = req.queryToken) ∧
    (req.queryToken = "" → ∀ t, req.authorization = "Bearer " ++ t → presentedToken req = t) ∧
    (req.queryToken = "" → (∀ t, req.authorization ≠ "Bearer " ++ t) →
      presentedToken req = "") := by
  refine ⟨?_, ?_, ?_⟩
  · intro hq
    simp [presentedToken, hq]
  · intro hq t ht
    have hne : ("Bearer " ++ t : String) ≠ "" := by
      intro he
      have := congrArg String.data he
      simp [String.data_append] at this
    unfold presentedToken
    rw [ht]
    simp [hq, hne, stringsSplitN2_bearer]
  · intro hq hform
    unfold presentedToken
    simp only [hq, ne_eq, not_true_eq_false, if_false]
    by_cases hempty : req.authorization = ""
    · simp [hempty]
    · simp only [hempty, not_false_eq_true, if_true]
      rcases stringsSplitN2_cases req.authorization with hs | ⟨p0, p1, hs⟩
      · rw [hs]
      · rw [hs]
        have hp0 : p0 ≠ "Bearer" := by
          rintro rfl
          exact hform p1 ((stringsSplitN2_bearer_iff _ _).1 hs)
        simp [hp0]

/-- C27. The handshake ends with a registered client only when a token was
presented and `ParseToken` accepted it; the client then carries the user id
and user name of the verified claims and is the registration of that user
id, every other registration being as before.  With no token, or a token
`ParseToken` rejects, the answer is 401 and the hub is exactly as it was.
In no case do the registrations change unless a client was connected, and
a presented, accepted token with a successful upgrade does connect. -/
theorem WebSocket_registers_verified (jm : JWTManager) (fresh : ChanId) (req : WsRequest)
    (h : Hub) :
    (∀ c h2, WebSocket jm fresh req h = (.connected c, h2) →
      presentedToken req ≠ "" ∧
      ∃ claims, jm.ParseToken (presentedToken req) = (some claims, none) ∧
        c.UserID = claims.UserID ∧ c.Username = claims.Username ∧
        h2.clients = Function.update h.clients claims.UserID (some c)) ∧
    ((presentedToken req = "" ∨ (jm.ParseToken (presentedToken req)).2 ≠ none) →
      ∃ e, WebSocket jm fresh req h = (.unauthorized e, h)) ∧
    (∀ r h2, WebSocket jm fresh req h = (r, h2) → h2.clients ≠ h.clients →
      ∃ c, r = .connected c) ∧
    (∀ claims, presentedToken req ≠ "" →
      jm.ParseToken (presentedToken req) = (some claims, none) → req.upgradeOk = true →
      ∃ c h2, WebSocket jm fresh req h = (.connected c, h2) ∧ h2.clients claims.UserID = some c) := by
  by_cases htok : presentedToken req = ""
  · have hrun : WebSocket jm fresh req h = (.unauthorized "token required", h) := by
      simp [WebSocket, htok]
    rw [hrun]
    refine ⟨?_, fun _ => ⟨_, rfl⟩, ?_, fun claims hne => absurd htok hne⟩
    · intro c h2 he
      cases he
    · intro r h2 he hne
      cases he
      exact absurd rfl hne
  · rcases hp : jm.ParseToken (presentedToken req) with ⟨c0, e0⟩
    cases e0 with
    | some err =>
      have hrun : WebSocket jm fresh req h = (.unauthorized "invalid token", h) := by
        simp [WebSocket, htok, hp]
      rw [hrun]
      refine ⟨?_, fun _ => ⟨_, rfl⟩, ?_, ?_⟩
      · intro c h2 he
        cases he
      · intro r h2 he hne
        cases he
        exact absurd rfl hne
      · intro claims _ hc
        cases hc
    | none =>
      obtain ⟨claims, hclaims⟩ := ParseToken_no_error jm (presentedToken req) (by rw [hp])
      rw [hp] at hclaims
      cases hclaims
      cases hup : req.upgradeOk with
      | false =>
        have hrun : WebSocket jm fresh req h = (.upgradeFailed, h) := by
          simp [WebSocket, htok, hp, hup]
        rw [hrun]
        refine ⟨?_, ?_, ?_, ?_⟩
        · intro c h2 he
          cases he
        · rintro (h1 | h1)
          · exact absurd h1 htok
          · exact absurd rfl h1
        · intro r h2 he hne
          cases he
          exact absurd rfl hne
        · intro claims2 _ _ hu
          cases hu
      | true =>
        have hrun : WebSocket jm fresh req h =
            (.connected { send := fresh, UserID := claims.UserID, Username := claims.Username },
              { clients := Function.update h.clients claims.UserID
                  (some { send := fresh, UserID := claims.UserID, Username := claims.Username })
                chans := Function.update h.chans fresh { buf := [], cap := 256, closed := false } })
            := by
          simp [WebSocket, htok, hp, hup, NewClient, Hub.Run]
        rw [hrun]
        refine ⟨?_, ?_, ?_, ?_⟩
        · intro c h2 he
          cases he
          exact ⟨htok, claims, rfl, rfl, rfl, rfl⟩
        · rintro (h1 | h1)
          · exact absurd h1 htok
          · exact absurd rfl h1
        · intro r h2 he _
          cases he
          exact ⟨_, rfl⟩
        · intro claims2 _ hc _
          cases hc
          exact ⟨_, _, rfl, by simp⟩

/-- C27 at concrete inputs: the token `good` in the query parameter registers
user 7; no token at all is answered 401 with the hub unchanged. -/
theorem WebSocket_registers_verified_witness :
    (∃ c h2, WebSocket sampleManager 7
        { queryToken := "good", authorization := "", upgradeOk := true } sampleHub =
          (.connected c, h2) ∧ h2.clients 7 = some c) ∧
    (∃ e, WebSocket sampleManager 7
        { queryToken := "", authorization := "", upgradeOk := true } sampleHub =
          (.unauthorized e, sampleHub)) :=
  ⟨(WebSocket_registers_verified sampleManager 7
      { queryToken := "good", authorization := "", upgradeOk := true } sampleHub).2.2.2
      { UserID := 7, Username := "ann" } (by decide) (by decide) rfl,
   (WebSocket_registers_verified sampleManager 7
      { queryToken := "", authorization := "", upgradeOk := true } sampleHub).2.1
      (Or.inl (by decide))⟩

/-! ## message.history -/

theorem swapAt_length {α : Type} (l : List α) (i j : Nat) : (swapAt l i j).length = l.length := by
  unfold swapAt
  split <;> simp

/-- Reading a list after the exchange of positions `i` and `j`. -/
theorem swapAt_getElem? {α : Type} (l : List α) (i j k : Nat) (hi : i < l.length)
    (hj : j < l.length) :
    (swapAt l i j)[k]? = if k = j then l[i]? else if k = i then l[j]? else l[k]? := by
  obtain ⟨a, ha⟩ : ∃ a, l[i]? = some a := ⟨l[i], by simp [hi]⟩
  obtain ⟨b, hb⟩ : ∃ b, l[j]? = some b := ⟨l[j], by simp [hj]⟩
  unfold swapAt
  simp only [ha, hb]
  rw [List.getElem?_set, List.getElem?_set]
  by_cases hkj : k = j
  · subst hkj
    simp [hj]
  · have hjk : ¬ j = k := fun h => hkj h.symm
    by_cases hki : k = i
    · subst hki
      simp [hkj, hjk, hi]
    · have hik : ¬ i = k := fun h => hki h.symm
      simp [hkj, hki, hjk, hik]

/-- The loop mirrors the segment between its two indices and keeps the rest. -/
theorem reverseLoop_getElem? {α : Type} (fuel : Nat) :
    ∀ (l : List α) (i j : Nat), j < l.length → j ≤ i + 2 * fuel →
      (reverseLoop fuel l i j).length = l.length ∧
      ∀ k, (reverseLoop fuel l i j)[k]? = if i ≤ k ∧ k ≤ j then l[i + j - k]? else l[k]? := by
  induction fuel with
  | zero =>
    intro l i j _ hfuel
    refine ⟨rfl, fun k => ?_⟩
    simp only [reverseLoop]
    split_ifs with hk
    · have : i + j - k = k := by omega
      rw [this]
    · rfl
  | succ fuel ih =>
    intro l i j hj hfuel
    unfold reverseLoop
    by_cases hij : i < j
    · simp only [hij, if_true]
      have hi : i < l.length := by omega
      obtain ⟨hlen, hget⟩ := ih (swapAt l i j) (i + 1) (j - 1)
        (by rw [swapAt_length]; omega) (by omega)
      refine ⟨by rw [hlen, swapAt_length], fun k => ?_⟩
      rw [hget k]
      by_cases hin : i + 1 ≤ k ∧ k ≤ j - 1
      · have hidx : i + 1 + (j - 1) - k = i + j - k := by omega
        have hout : i ≤ k ∧ k ≤ j := by omega
        rw [if_pos hin, if_pos hout, hidx, swapAt_getElem? l i j _ hi hj]
        have h1 : ¬ i + j - k = j := by omega
        have h2 : ¬ i + j - k = i := by omega
        simp [h1, h2]
      · rw [if_neg hin, swapAt_getElem? l i j k hi hj]
        by_cases hkj : k = j
        · subst hkj
          have hout : i ≤ k ∧ k ≤ k := by omega
          have hidx : i + k - k = i := by omega
          simp [hout, hidx]
        · by_cases hki : k = i
          · subst hki
            have hout : k ≤ k ∧ k ≤ j := by omega
            have hidx : k + j - k = j := by omega
            simp [hkj, hout, hidx]
          · have hout : ¬ (i ≤ k ∧ k ≤ j) := by omega
            simp [hkj, hki, hout]
    · rw [if_neg hij]
      refine ⟨rfl, fun k => ?_⟩
      split_ifs with hk
      · have : i + j - k = k := by omega
        rw [this]
      · rfl

/-- The in-place reversal is the reversal of the list. -/
theorem reverseInPlace_eq_reverse {α : Type} (l : List α) : reverseInPlace l = l.reverse := by
  cases hl : l with
  | nil => rfl
  | cons a rest =>
    rw [← hl]
    have hpos : 0 < l.length := by rw [hl]; simp
    obtain ⟨-, hget⟩ := reverseLoop_getElem? l.length l 0 (l.length - 1) (by omega) (by omega)
    apply List.ext_getElem?
    intro k
    unfold reverseInPlace
    rw [hget k]
    by_cases hk : k < l.length
    · have hin : 0 ≤ k ∧ k ≤ l.length - 1 := by omega
      rw [if_pos hin, List.getElem?_reverse hk]
      congr 1
      omega
    · have hout : ¬ (0 ≤ k ∧ k ≤ l.length - 1) := by omega
      rw [if_neg hout, List.getElem?_eq_none (by omega),
        List.getElem?_eq_none (by rw [List.length_reverse]; omega)]

/-- The rows a query returns come by descending id and are at most `limit`. -/
theorem queryMessages_sorted (db : Storage) (cond : StoredMessage → Bool) (limit : Int) :
    (db.queryMessages cond limit).Sorted (fun a b => a.ID ≥ b.ID) ∧
    (db.queryMessages cond limit).length ≤ limit.toNat ∧
    ∀ m ∈ db.queryMessages cond limit, m ∈ db.messages ∧ cond m = true := by
  haveI : IsTotal StoredMessage (fun a b => a.ID ≥ b.ID) := ⟨fun a b => le_total b.ID a.ID⟩
  haveI : IsTrans StoredMessage (fun a b => a.ID ≥ b.ID) :=
    ⟨fun a b c hab hbc => le_trans hbc hab⟩
  refine ⟨?_, ?_, ?_⟩
  · exact List.Pairwise.sublist (List.take_sublist _ _)
      (List.sorted_insertionSort (fun a b : StoredMessage => a.ID ≥ b.ID) _)
  · simp [Storage.queryMessages, List.length_take]
  · intro m hm
    have h1 : m ∈ (db.messages.filter cond).insertionSort (fun a b => a.ID ≥ b.ID) :=
      List.mem_of_mem_take hm
    have h2 : m ∈ db.messages.filter cond :=
      (List.perm_insertionSort (fun a b : StoredMessage => a.ID ≥ b.ID) _).mem_iff.1 h1
    simpa [List.mem_filter] using h2

/-- C28. For a call of `message.history` that passes the checks (decodable
params naming a receiver or a group, a caller identity, and membership when a
group is named), let `cond` be the conditions the code collects on the query
(`id < before_id` when `before_id > 0`, and then `group_id = ?` for a group
or the two-way sender/receiver condition for a private chat), `rows` the
stored messages matching `cond` by descending id, and `queried` the list the
query returns.  Then `queried` is the first 50 of `rows` when the requested
limit is `<= 0` or `> 100`, and the first `limit` of `rows` otherwise; the
call returns exactly the reverse of `queried`, with the same length and the
same elements, so ascending by id; and the store is untouched.  A read of
the modelled store always answers, so the path on which the query itself
fails is not part of the statement. -/
theorem MessageHistory_chronological
    (unmarshal : RawMessage → Except GoError MessageHistoryParams) (ctx : Context)
    (params : RawMessage) (w : World) (p : MessageHistoryParams) (userID : Int)
    (hp : unmarshal params = .ok p) (htarget : ¬ (p.ReceiverID = 0 ∧ p.GroupID = 0))
    (huid : ctx.Value "user_id" = some (.int64 userID))
    (hmem : p.GroupID > 0 → w.db.membership p.GroupID userID ≠ none) :
    ∃ (cond : StoredMessage → Bool) (rows queried : List StoredMessage),
      cond = (fun m =>
        decide (p.BeforeID > 0 → m.ID < p.BeforeID) &&
          (if p.GroupID > 0 then decide (m.GroupID = p.GroupID)
           else decide ((m.SenderID = userID ∧ m.ReceiverID = p.ReceiverID) ∨
             (m.SenderID = p.ReceiverID ∧ m.ReceiverID = userID)))) ∧
      rows = (w.db.messages.filter cond).insertionSort (fun a b => a.ID ≥ b.ID) ∧
      queried = w.db.queryMessages cond (effectiveLimit p.Limit) ∧
      ((p.Limit ≤ 0 ∨ p.Limit > 100) → queried = rows.take 50) ∧
      (0 < p.Limit → p.Limit ≤ 100 → queried = rows.take p.Limit.toNat) ∧
      MessageHistoryMethod.Execute unmarshal ctx params w =
        (.returned (some (.messages queried.reverse)) none, w) ∧
      rows.Perm (w.db.messages.filter cond) ∧
      rows.Sorted (fun a b => a.ID ≥ b.ID) ∧
      queried.Sorted (fun a b => a.ID ≥ b.ID) ∧
      queried.length = min (effectiveLimit p.Limit).toNat rows.length ∧
      queried.reverse.length = queried.length ∧
      (∀ m, m ∈ queried.reverse ↔ m ∈ queried) ∧
      queried.reverse.Sorted (fun a b => a.ID ≤ b.ID) := by
  haveI : IsTotal StoredMessage (fun a b => a.ID ≥ b.ID) := ⟨fun a b => le_total b.ID a.ID⟩
  haveI : IsTrans StoredMessage (fun a b => a.ID ≥ b.ID) :=
    ⟨fun a b c hab hbc => le_trans hbc hab⟩
  refine ⟨_, _, _, rfl, rfl, rfl, ?_, ?_, ?_, ?_, ?_, ?_, ?_, ?_, ?_, ?_⟩
  · intro h
    simp [Storage.queryMessages, effectiveLimit, h]
  · intro h1 h2
    have : ¬ (p.Limit ≤ 0 ∨ p.Limit > 100) := by omega
    simp [Storage.queryMessages, effectiveLimit, this]
  · by_cases hg : p.GroupID > 0
    · cases hm : w.db.membership p.GroupID userID with
      | none => exact absurd hm (hmem hg)
      | some gm =>
        unfold MessageHistoryMethod.Execute
        simp only [hp, htarget, if_false, huid, hg, if_true, hm, reverseInPlace_eq_reverse]
    · unfold MessageHistoryMethod.Execute
      simp only [hp, htarget, if_false, huid, hg, reverseInPlace_eq_reverse]
  · exact List.perm_insertionSort _ _
  · exact List.sorted_insertionSort _ _
  · exact (queryMessages_sorted w.db _ _).1
  · simp [Storage.queryMessages, List.length_take]
  · exact List.length_reverse _
  · exact fun m => List.mem_reverse
  · exact List.pairwise_reverse.2 (queryMessages_sorted w.db _ _).1

/-- C28 at a concrete input: user 1 asks for the history with user 3 with
limit 2; the query returns the two newest messages, 4 and 3, and the call
returns them oldest first. -/
theorem MessageHistory_chronological_witness :
    ∃ queried : List StoredMessage, queried.map (fun m => m.ID) = [4, 3] ∧
      MessageHistoryMethod.Execute
          (unmarshalTo { ReceiverID := 3, GroupID := 0, BeforeID := 0, Limit := 2 })
          (callerContext 1 "ann") "" historyWorld =
        (.returned (some (.messages queried.reverse)) none, historyWorld) ∧
      queried.reverse.Sorted (fun a b => a.ID ≤ b.ID) := by
  obtain ⟨cond, rows, queried, hcond, hrows, -, -, hlimit, hrun, -, -, -, -, -, -, hsorted⟩ :=
    MessageHistory_chronological
      (unmarshalTo { ReceiverID := 3, GroupID := 0, BeforeID := 0, Limit := 2 })
      (callerContext 1 "ann") "" historyWorld
      { ReceiverID := 3, GroupID := 0, BeforeID := 0, Limit := 2 } 1 rfl (by decide) rfl
      (by decide)
  refine ⟨queried, ?_, hrun, hsorted⟩
  rw [hlimit (by decide) (by decide), hrows, hcond]
  decide

/-- The same call evaluated: the messages returned are 3 and then 4. -/
theorem MessageHistory_sample_page :
    ∃ ms, MessageHistoryMethod.Execute
        (unmarshalTo { ReceiverID := 3, GroupID := 0, BeforeID := 0, Limit := 2 })
        (callerContext 1 "ann") "" historyWorld =
      (.returned (some (.messages ms)) none, historyWorld) ∧ ms.map (fun m => m.ID) = [3, 4] :=
  ⟨_, rfl, by decide⟩

/-! ## The hub: the open-queue invariant over a run -/

/-- On a hub whose registered queues are open, handling an event succeeds
and changes neither the registration map nor the closed flag of any queue. -/
theorem handleMessage_open (h : Hub) (msg : Message) (hopen : h.QueuesOpen) :
    ∃ h2, h.handleMessage msg = .ok h2 ∧ h2.clients = h.clients ∧
      ∀ q, (h2.chans q).closed = (h.chans q).closed := by
  by_cases hrecv : msg.ReceiverID > 0
  · cases hc : h.clients msg.ReceiverID with
    | none => exact ⟨h, handleMessage_unregistered h msg hrecv hc, rfl, fun _ => rfl⟩
    | some c =>
      obtain ⟨h2, hs⟩ := trySendTo_open h c msg (hopen _ c hc)
      obtain ⟨hcl, -, hclosed, -⟩ := trySendTo_effect hs
      exact ⟨h2, (handleMessage_registered h msg c hrecv hc).trans hs, hcl, hclosed⟩
  · rcases handleMessage_group_run h msg (not_lt.1 hrecv) with hloop | ⟨hsame, -⟩
    · obtain ⟨h2, hrun⟩ := groupLoop_total msg msg.GroupMembers h
        (fun u _ _ c hc => hopen u c hc)
      obtain ⟨hcl, hclosed, -⟩ := groupLoop_effect msg msg.GroupMembers h h2 hrun
      exact ⟨h2, hloop.trans hrun, hcl, hclosed⟩
    · exact ⟨h, hsame, rfl, fun _ => rfl⟩

theorem HubInv_QueuesOpen {all unregd : List Client} {h : Hub}
    (hown : ∀ c ∈ all, ∀ d ∈ all, c.send = d.send → c = d) (hinv : HubInv all unregd h) :
    h.QueuesOpen := by
  obtain ⟨h1, h2, h3⟩ := hinv
  intro u c hc
  cases hcl : (h.chans c.send).closed with
  | false => rfl
  | true =>
    obtain ⟨d, hd, hds⟩ := h1 _ hcl
    obtain ⟨-, hcu, hca⟩ := h2 u c hc
    have hdc : d = c := hown d (h3 d hd) c hca hds
    exact absurd (hdc ▸ hd) hcu

/-- A disciplined run from a state satisfying the invariant does not panic
and ends in a state satisfying it. -/
theorem runAll_HubInv (all : List Client)
    (hown : ∀ c ∈ all, ∀ d ∈ all, c.send = d.send → c = d) (reqs : List HubRequest) :
    ∀ (h : Hub) (regd unregd : List Client), HubInv all unregd h →
      (∀ c ∈ clientsOf reqs, c ∈ all) → Disciplined regd unregd reqs →
      ∃ h2 unregd2, runAll reqs h = .ok h2 ∧ HubInv all unregd2 h2 := by
  induction reqs with
  | nil => intro h regd unregd hinv _ _; exact ⟨h, unregd, rfl, hinv⟩
  | cons r rest ih =>
    intro h regd unregd hinv hall hdisc
    obtain ⟨h1, h2, h3⟩ := hinv
    cases r with
    | register c =>
      obtain ⟨-, hcu, hrest⟩ := hdisc
      have hca : c ∈ all := hall c (by simp [clientsOf])
      have hinv1 : HubInv all unregd
          { h with clients := Function.update h.clients c.UserID (some c) } := by
        refine ⟨h1, ?_, h3⟩
        intro u d hd
        by_cases hu : u = c.UserID
        · subst hu
          simp at hd
          subst hd
          exact ⟨rfl, hcu, hca⟩
        · simp [Function.update_noteq hu] at hd
          exact h2 u d hd
      obtain ⟨hf, uf, hrun, hinvf⟩ := ih _ (c :: regd) unregd hinv1
        (fun d hd => hall d (by simp [clientsOf, hd])) hrest
      exact ⟨hf, uf, by simpa [runAll, Hub.Run] using hrun, hinvf⟩
    | unregister c =>
      obtain ⟨hcu, hrest⟩ := hdisc
      have hca : c ∈ all := hall c (by simp [clientsOf])
      have hrestall : ∀ d ∈ clientsOf rest, d ∈ all :=
        fun d hd => hall d (by simp [clientsOf, hd])
      cases hent : h.clients c.UserID with
      | none =>
        have hinv1 : HubInv all (c :: unregd) h := by
          refine ⟨?_, ?_, ?_⟩
          · intro q hq
            obtain ⟨d, hd, hds⟩ := h1 q hq
            exact ⟨d, List.mem_cons_of_mem _ hd, hds⟩
          · intro u d hd
            obtain ⟨hdu, hdn, hda⟩ := h2 u d hd
            refine ⟨hdu, ?_, hda⟩
            intro hmem
            rcases List.mem_cons.1 hmem with he | he
            · subst he
              rw [hdu, hd] at hent
              cases hent
            · exact hdn he
          · intro d hd
            rcases List.mem_cons.1 hd with he | he
            · subst he; exact hca
            · exact h3 d he
        obtain ⟨hf, uf, hrun, hinvf⟩ := ih h regd (c :: unregd) hinv1 hrestall hrest
        exact ⟨hf, uf, by simpa [runAll, Hub.Run, hent] using hrun, hinvf⟩
      | some e =>
        have hopen : (h.chans c.send).closed = false := by
          cases hcl : (h.chans c.send).closed with
          | false => rfl
          | true =>
            obtain ⟨d, hd, hds⟩ := h1 _ hcl
            have hdc : d = c := hown d (h3 d hd) c hca hds
            exact absurd (hdc ▸ hd) hcu
        have hstep := Run_unregister_present h c e hent hopen
        have hinv1 : HubInv all (c :: unregd)
            { clients := Function.update h.clients c.UserID none
              chans := Function.update h.chans c.send
                { (h.chans c.send) with closed := true } } := by
          refine ⟨?_, ?_, ?_⟩
          · intro q hq
            by_cases hqc : q = c.send
            · exact ⟨c, List.mem_cons_self _ _, hqc.symm⟩
            · simp [Function.update_noteq hqc] at hq
              obtain ⟨d, hd, hds⟩ := h1 q hq
              exact ⟨d, List.mem_cons_of_mem _ hd, hds⟩
          · intro u d hd
            by_cases hu : u = c.UserID
            · subst hu
              simp at hd
            · simp [Function.update_noteq hu] at hd
              obtain ⟨hdu, hdn, hda⟩ := h2 u d hd
              refine ⟨hdu, ?_, hda⟩
              intro hmem
              rcases List.mem_cons.1 hmem with he | he
              · subst he
                exact hu hdu.symm
              · exact hdn he
          · intro d hd
            rcases List.mem_cons.1 hd with he | he
            · subst he; exact hca
            · exact h3 d he
        obtain ⟨hf, uf, hrun, hinvf⟩ := ih _ regd (c :: unregd) hinv1 hrestall hrest
        refine ⟨hf, uf, ?_, hinvf⟩
        simp only [runAll, hstep]
        exact hrun
    | broadcast m =>
      have hinv0 : HubInv all unregd h := ⟨h1, h2, h3⟩
      obtain ⟨hb, hbrun, hbcl, hbclosed⟩ := handleMessage_open h m (HubInv_QueuesOpen hown hinv0)
      have hinv1 : HubInv all unregd hb := by
        refine ⟨?_, ?_, h3⟩
        · intro q hq
          rw [hbclosed] at hq
          exact h1 q hq
        · intro u d hd
          rw [hbcl] at hd
          exact h2 u d hd
      obtain ⟨hf, uf, hrun, hinvf⟩ := ih hb regd unregd hinv1
        (fun d hd => hall d (by simpa [clientsOf] using hd)) hdisc
      refine ⟨hf, uf, ?_, hinvf⟩
      simp only [runAll, Hub.Run, hbrun]
      exact hrun

theorem Disciplined_take (n : Nat) :
    ∀ (reqs : List HubRequest) (regd unregd : List Client),
      Disciplined regd unregd reqs → Disciplined regd unregd (reqs.take n) := by
  induction n with
  | zero => intro reqs regd unregd _; simp [Disciplined]
  | succ n ih =>
    intro reqs regd unregd hd
    cases reqs with
    | nil => simpa using hd
    | cons r rest =>
      cases r with
      | register c => exact ⟨hd.1, hd.2.1, ih rest _ _ hd.2.2⟩
      | unregister c => exact ⟨hd.1, ih rest _ _ hd.2⟩
      | broadcast m => exact ih rest _ _ hd

theorem clientsOf_take (n : Nat) :
    ∀ (reqs : List HubRequest), ∀ c ∈ clientsOf (reqs.take n), c ∈ clientsOf reqs := by
  induction n with
  | zero => intro reqs c hc; simp [clientsOf] at hc
  | succ n ih =>
    intro reqs c hc
    cases reqs with
    | nil => simp [clientsOf] at hc
    | cons r rest =>
      cases r with
      | register d =>
        simp only [List.take_succ_cons, clientsOf, List.mem_cons] at hc ⊢
        exact hc.imp id (ih rest c)
      | unregister d =>
        simp only [List.take_succ_cons, clientsOf, List.mem_cons] at hc ⊢
        exact hc.imp id (ih rest c)
      | broadcast m =>
        simp only [List.take_succ_cons, clientsOf] at hc ⊢
        exact ih rest c hc

/-- C29. Start from a new hub over a heap of open queues and run any sequence
of Register, Unregister and Broadcast requests in which each client is
registered at most once, not after its unregistration, and unregistered at
most once, each client owning its queue.  Then after every number of
requests the run has not panicked (no send on a closed queue, no second
close of a queue) and every queue held in the registration map is open; and
an Unregister for a user id with no registration changes nothing. -/
theorem runAll_keeps_queues_open (chans : ChanId → Chan) (reqs : List HubRequest)
    (hopen : ∀ q, (chans q).closed = false) (hown : OwnQueues reqs)
    (hdisc : Disciplined [] [] reqs) :
    (∀ n, ∃ h, runAll (reqs.take n) (NewHub chans) = .ok h ∧ h.QueuesOpen) ∧
    (∀ (h : Hub) (c : Client), h.clients c.UserID = none → h.Run (.unregister c) = .ok h) := by
  constructor
  · intro n
    have hinv0 : HubInv (clientsOf reqs) [] (NewHub chans) := by
      refine ⟨?_, ?_, ?_⟩
      · intro q hq
        have := hopen q
        simp only [NewHub] at hq
        rw [this] at hq
        cases hq
      · intro u c hc
        simp [NewHub] at hc
      · intro d hd
        simp at hd
    obtain ⟨h, unregd, hrun, hinv⟩ := runAll_HubInv (clientsOf reqs) hown (reqs.take n)
      (NewHub chans) [] [] hinv0 (clientsOf_take n reqs) (Disciplined_take n reqs [] [] hdisc)
    exact ⟨h, hrun, HubInv_QueuesOpen hown hinv⟩
  · intro h c hnone
    simp [Hub.Run, hnone]

theorem sampleSession_OwnQueues : OwnQueues sampleSession := by
  intro c hc d hd hsend
  simp only [sampleSession, clientsOf, List.mem_cons, List.mem_nil_iff, or_false] at hc hd
  rcases hc with rfl | rfl | rfl | rfl <;> rcases hd with rfl | rfl | rfl | rfl <;>
    first | rfl | (exfalso; revert hsend; decide)

theorem sampleSession_Disciplined : Disciplined [] [] sampleSession := by
  simp only [sampleSession, Disciplined]
  decide

/-- C29 at a concrete run: a user connects, reconnects, is sent an event, and
both connections end; the run completes and the registered queues are open. -/
theorem runAll_keeps_queues_open_witness :
    ∃ h, runAll sampleSession (NewHub (fun _ => emptyChan 256)) = .ok h ∧ h.QueuesOpen := by
  have hthm := (runAll_keeps_queues_open (fun _ => emptyChan 256) sampleSession (fun _ => rfl)
    sampleSession_OwnQueues sampleSession_Disciplined).1 5
  exact hthm

end SimpleIM
